import Mathlib

/-!
# go-auto-swagger: route extraction, handler resolution and OpenAPI emission

A shallow embedding of the static-analysis pipeline of `go-auto-swagger`
(`internal/router`, `internal/handler`, `internal/coordinator_enhanced.go`,
`internal/generator`) together with theorems about it.

Conventions of the embedding:

* Go strings are Lean `String`s; the algorithms of package `strings` that the
  code calls are written out over `List Char` (one `Char` per rune).
* A parsed source file is a tree of `Node`s, the fragment of `go/ast` the
  analysers look at; every other kind of node is an `other` node that only
  carries its children in the order `ast.Walk` visits them.
* The parser, the directory listing, `filepath.Base(filepath.Dir(..))` and the
  Unicode tables outside ASCII are external capabilities, collected in `Env`.
* Go maps are association lists without repeated keys.
* A nil pointer or nil slice is `none` or `[]`.
-/

namespace AutoSwagger

/-! ## Package `strings` -/

/-- The entries of Go's `unicode` tables outside ASCII (`upper`, `lower`,
`title` are `unicode.ToUpper`, `unicode.ToLower`, `unicode.ToTitle`;
`letterOrDigit r` is `unicode.IsLetter(r) || unicode.IsDigit(r)`, `isUpper` is
`unicode.IsUpper`). They are only consulted for code points from U+0080 on. -/
structure UnicodeTables where
  upper : Char → Char
  lower : Char → Char
  title : Char → Char
  letterOrDigit : Char → Bool
  isUpper : Char → Bool

/-- U+017F LATIN SMALL LETTER LONG S, whose simple case folding orbit is
`S`, `s`, U+017F and whose upper case is `S`. -/
def longS : Char := Char.ofNat 0x17F

/-- U+212A KELVIN SIGN, whose simple case folding orbit is `K`, `k`, U+212A. -/
def kelvinSign : Char := Char.ofNat 0x212A

/-- `unicode.ToUpper`: ASCII by arithmetic, U+017F to `S`, the rest by table. -/
def toUpperRune (t : UnicodeTables) (r : Char) : Char :=
  if r.toNat < 128 then r.toUpper
  else if r = longS then 'S'
  else t.upper r

/-- `unicode.ToLower`: ASCII by arithmetic, the rest by table. -/
def toLowerRune (t : UnicodeTables) (r : Char) : Char :=
  if r.toNat < 128 then r.toLower else t.lower r

/-- `unicode.ToTitle`: ASCII by arithmetic, the rest by table. -/
def toTitleRune (t : UnicodeTables) (r : Char) : Char :=
  if r.toNat < 128 then r.toUpper else t.title r

/-- `strings.ToUpper`. -/
def ToUpper (t : UnicodeTables) (s : String) : String :=
  ⟨s.data.map (toUpperRune t)⟩

/-- `strings.ToLower`. -/
def ToLower (t : UnicodeTables) (s : String) : String :=
  ⟨s.data.map (toLowerRune t)⟩

/-- One step of `strings.EqualFold`: rune `r` equals the ASCII rune `t` under
simple case folding. For an ASCII letter `t` the orbit of `t` is its two cases,
plus U+017F for `s` and U+212A for `k`; any other ASCII rune only equals
itself. -/
def foldEq (r t : Char) : Bool :=
  r == t
    || (t.isUpper && r == t.toLower)
    || (t.isLower && r == t.toUpper)
    || ((t == 'S' || t == 's') && r == longS)
    || ((t == 'K' || t == 'k') && r == kelvinSign)

/-- `strings.EqualFold(s, t)` for an ASCII `t` (the only way the code calls
it): rune by rune, both strings exhausted together. -/
def EqualFold : List Char → List Char → Bool
  | [], [] => true
  | r :: rs, t :: ts => foldEq r t && EqualFold rs ts
  | _, _ => false

/-- Drop trailing characters satisfying `p`. -/
def trimRightFunc (p : Char → Bool) (s : List Char) : List Char :=
  (s.reverse.dropWhile p).reverse

/-- `strings.Trim(s, cutset)`: drop leading and trailing runes contained in
`cutset`. -/
def Trim (s cutset : String) : String :=
  ⟨trimRightFunc (fun c => cutset.data.contains c)
    (s.data.dropWhile (fun c => cutset.data.contains c))⟩

/-- `unicode.IsSpace`. -/
def isSpace (c : Char) : Bool :=
  let n := c.toNat
  n == 0x20 || (0x09 ≤ n && n ≤ 0x0D) || n == 0x85 || n == 0xA0 || n == 0x1680
    || (0x2000 ≤ n && n ≤ 0x200A) || n == 0x2028 || n == 0x2029 || n == 0x202F
    || n == 0x205F || n == 0x3000

/-- `strings.TrimSpace`. -/
def TrimSpace (s : String) : String :=
  ⟨trimRightFunc isSpace (s.data.dropWhile isSpace)⟩

/-- `strings.HasPrefix`. -/
def HasPrefix (s pre : String) : Bool := pre.data.isPrefixOf s.data

/-- `strings.HasSuffix`. -/
def HasSuffix (s suf : String) : Bool := suf.data.isSuffixOf s.data

/-- `strings.TrimPrefix`: `s` without the leading `pre` when it has it. -/
def TrimPrefix (s pre : String) : String :=
  if pre.data.isPrefixOf s.data then ⟨s.data.drop pre.data.length⟩ else s

/-- Does `sub` occur in `s` as a contiguous block. -/
def containsChars (sub : List Char) : List Char → Bool
  | [] => sub.isEmpty
  | c :: cs => sub.isPrefixOf (c :: cs) || containsChars sub cs

/-- `strings.Contains`. -/
def Contains (s sub : String) : Bool := containsChars sub.data s.data

/-- Splitting at every occurrence of the rune `sep`; the result is never
empty. -/
def splitChars (sep : Char) : List Char → List (List Char)
  | [] => [[]]
  | c :: cs =>
      if c = sep then [] :: splitChars sep cs
      else
        match splitChars sep cs with
        | [] => [[c]]
        | hd :: tl => (c :: hd) :: tl

/-- `strings.Split(s, sep)` for a separator of one rune (`"."`, `" "`, `"/"`
in the code). -/
def Split (s : String) (sep : Char) : List String :=
  (splitChars sep s.data).map String.mk

/-- `strings.SplitN(s, sep, 2)` for a separator of one rune: cut at the first
occurrence, or the whole string when there is none. -/
def SplitN2 (s : String) (sep : Char) : List String :=
  if s.data.contains sep then
    [⟨s.data.takeWhile (· != sep)⟩, ⟨(s.data.dropWhile (· != sep)).drop 1⟩]
  else [s]

/-- `strings.Index(s, sep)` for a separator of one rune, as the text before the
first occurrence (`none` stands for -1). -/
def cutBefore (s : String) (sep : Char) : Option String :=
  if s.data.contains sep then some ⟨s.data.takeWhile (· != sep)⟩ else none

/-- The helper `isSeparator` of `strings.Title`. -/
def isSeparator (t : UnicodeTables) (r : Char) : Bool :=
  if r.toNat < 128 then !(r.isAlphanum || r == '_')
  else if t.letterOrDigit r then false
  else isSpace r

/-- The mapping of `strings.Title`, `prev` being the previous rune. -/
def titleChars (t : UnicodeTables) : Char → List Char → List Char
  | _, [] => []
  | prev, r :: rs =>
      (if isSeparator t prev then toTitleRune t r else r) :: titleChars t r rs

/-- `strings.Title`. -/
def Title (t : UnicodeTables) (s : String) : String :=
  ⟨titleChars t ' ' s.data⟩

/-! ## Package `go/ast` -/

/-- The tokens of `go/token` the analysers compare against. -/
inductive Token where
  | INT | FLOAT | IMAG | CHAR | STRING | IMPORT | CONST | TYPE | VAR
  deriving DecidableEq, Repr

mutual
/-- The syntax tree of a Go file. Names are strings, not nodes; a call carries
the line of its position. -/
inductive Node where
  | file (name : String) (decls : List Node)
  | ident (name : String)
  | basicLit (kind : Token) (value : String)
  | selectorExpr (x : Node) (sel : String)
  | callExpr (line : Nat) (fn : Node) (args : List Node)
  | starExpr (x : Node)
  | arrayType (len : Option Node) (elt : Node)
  | structType (fields : Option (List Field))
  | funcLit (typ : Node) (body : Node)
  | funcDecl (recv : Option (List Field)) (name : String)
      (params : Option (List Field)) (results : Option (List Field))
      (body : Option Node)
  | genDecl (tok : Token) (specs : List Node)
  | typeSpec (name : String) (typ : Node)
  | other (children : List Node)
/-- An `ast.Field`: parameter, result, receiver or struct field. `tag` is the
source text of the tag literal, back quotes included. -/
inductive Field where
  | mk (names : List String) (typ : Node) (tag : Option String)
end

/-- The names of a field. -/
def Field.names : Field → List String
  | .mk names _ _ => names

/-- The type expression of a field. -/
def Field.typ : Field → Node
  | .mk _ typ _ => typ

/-- The tag literal of a field. -/
def Field.tag : Field → Option String
  | .mk _ _ tag => tag

mutual
/-- `ast.Inspect(n, f)` as a fold: `f` sees each node before its children and
says whether to descend into them; the state is what the closure `f` assigns
to. The closing call `f(nil)` is left out, and so are the visits of what the
embedding keeps as strings (names, tags) or not at all (field lists,
comments): the visitors of the code react to call expressions, function
declarations and general declarations only. -/
def Inspect {σ : Type} (f : Node → σ → Bool × σ) : Node → σ → σ
  | .file nm decls, s =>
      let r := f (.file nm decls) s
      if r.1 then InspectList f decls r.2 else r.2
  | .ident nm, s => (f (.ident nm) s).2
  | .basicLit k v, s => (f (.basicLit k v) s).2
  | .selectorExpr x sel, s =>
      let r := f (.selectorExpr x sel) s
      if r.1 then Inspect f x r.2 else r.2
  | .callExpr l fn args, s =>
      let r := f (.callExpr l fn args) s
      if r.1 then InspectList f args (Inspect f fn r.2) else r.2
  | .starExpr x, s =>
      let r := f (.starExpr x) s
      if r.1 then Inspect f x r.2 else r.2
  | .arrayType len elt, s =>
      let r := f (.arrayType len elt) s
      if r.1 then Inspect f elt (InspectOpt f len r.2) else r.2
  | .structType fields, s =>
      let r := f (.structType fields) s
      if r.1 then InspectFieldsOpt f fields r.2 else r.2
  | .funcLit t b, s =>
      let r := f (.funcLit t b) s
      if r.1 then Inspect f b (Inspect f t r.2) else r.2
  | .funcDecl recv nm ps rs body, s =>
      let r := f (.funcDecl recv nm ps rs body) s
      if r.1 then
        InspectOpt f body
          (InspectFieldsOpt f rs (InspectFieldsOpt f ps (InspectFieldsOpt f recv r.2)))
      else r.2
  | .genDecl tok specs, s =>
      let r := f (.genDecl tok specs) s
      if r.1 then InspectList f specs r.2 else r.2
  | .typeSpec nm t, s =>
      let r := f (.typeSpec nm t) s
      if r.1 then Inspect f t r.2 else r.2
  | .other cs, s =>
      let r := f (.other cs) s
      if r.1 then InspectList f cs r.2 else r.2
/-- `Inspect` over a list of nodes, left to right. -/
def InspectList {σ : Type} (f : Node → σ → Bool × σ) : List Node → σ → σ
  | [], s => s
  | n :: ns, s => InspectList f ns (Inspect f n s)
/-- `Inspect` over an optional child. -/
def InspectOpt {σ : Type} (f : Node → σ → Bool × σ) : Option Node → σ → σ
  | none, s => s
  | some n, s => Inspect f n s
/-- `Inspect` below a field: its type expression. -/
def InspectField {σ : Type} (f : Node → σ → Bool × σ) : Field → σ → σ
  | .mk _ t _, s => Inspect f t s
/-- `Inspect` over the fields of a field list. -/
def InspectFields {σ : Type} (f : Node → σ → Bool × σ) : List Field → σ → σ
  | [], s => s
  | n :: ns, s => InspectFields f ns (InspectField f n s)
/-- `Inspect` over an optional field list. -/
def InspectFieldsOpt {σ : Type} (f : Node → σ → Bool × σ) : Option (List Field) → σ → σ
  | none, s => s
  | some l, s => InspectFields f l s
end

mutual
/-- All nodes of a tree in depth-first source order (a node before its
children, children left to right). -/
def subnodes : Node → List Node
  | .file nm decls => .file nm decls :: subnodesList decls
  | .ident nm => [.ident nm]
  | .basicLit k v => [.basicLit k v]
  | .selectorExpr x sel => .selectorExpr x sel :: subnodes x
  | .callExpr l fn args => .callExpr l fn args :: (subnodes fn ++ subnodesList args)
  | .starExpr x => .starExpr x :: subnodes x
  | .arrayType len elt => .arrayType len elt :: (subnodesOpt len ++ subnodes elt)
  | .structType fields => .structType fields :: subnodesFieldsOpt fields
  | .funcLit t b => .funcLit t b :: (subnodes t ++ subnodes b)
  | .funcDecl recv nm ps rs body =>
      .funcDecl recv nm ps rs body ::
        (subnodesFieldsOpt recv ++ (subnodesFieldsOpt ps ++
          (subnodesFieldsOpt rs ++ subnodesOpt body)))
  | .genDecl tok specs => .genDecl tok specs :: subnodesList specs
  | .typeSpec nm t => .typeSpec nm t :: subnodes t
  | .other cs => .other cs :: subnodesList cs
/-- The nodes of a list of trees. -/
def subnodesList : List Node → List Node
  | [] => []
  | n :: ns => subnodes n ++ subnodesList ns
/-- The nodes of an optional tree. -/
def subnodesOpt : Option Node → List Node
  | none => []
  | some n => subnodes n
/-- The nodes below a field. -/
def subnodesField : Field → List Node
  | .mk _ t _ => subnodes t
/-- The nodes below the fields of a field list. -/
def subnodesFields : List Field → List Node
  | [] => []
  | n :: ns => subnodesField n ++ subnodesFields ns
/-- The nodes below an optional field list. -/
def subnodesFieldsOpt : Option (List Field) → List Node
  | none => []
  | some l => subnodesFields l
end

/-! ## External capabilities -/

/-- What the analysers obtain from outside: the Unicode tables, the listing
`filepath.Glob(filepath.Join(dir, "*.go"))` of a directory, the parser
`parser.ParseFile` on a path, and `filepath.Base(filepath.Dir(path))`. -/
structure Env where
  unicode : UnicodeTables
  glob : String → Except String (List String)
  parseFile : String → Except String Node
  packageOf : String → String

/-! ## `internal/router/gin_analyzer.go` -/

/-- The record `RouteInfo`. -/
structure RouteInfo where
  Method : String
  Path : String
  Handler : String
  HandlerType : String
  File : String
  Line : Nat
  deriving DecidableEq, Repr

/-- The slice `ginMethod` of `isGinHTTPMethod`. -/
def ginMethod : List String :=
  ["GET", "POST", "PUT", "DELETE", "PATCH", "OPTIONS", "HEAD", "ANY"]

/-- `GinAnalyzer.isGinHTTPMethod`. -/
def isGinHTTPMethod (method : String) : Bool :=
  ginMethod.any (fun m => EqualFold method.data m.data)

/-- `GinAnalyzer.extractStringLiteral`; `none` is the result `("", false)`. -/
def extractStringLiteral : Node → Option String
  | .basicLit kind value =>
      if kind = Token.STRING then some (Trim value "\"") else none
  | .ident name => some name
  | _ => none

/-- `GinAnalyzer.extractHandlerName`. -/
def extractHandlerName : Node → String
  | .ident name => name
  | .selectorExpr x sel => extractHandlerName x ++ "." ++ sel
  | .callExpr _ fn _ => extractHandlerName fn
  | .funcLit _ _ => "anonymous"
  | _ => "unknown"

/-- `GinAnalyzer.determineHandlerType`. -/
def determineHandlerType : Node → String
  | .ident _ => "function"
  | .selectorExpr _ _ => "method"
  | .funcLit _ _ => "anonymous"
  | .callExpr _ fn _ => determineHandlerType fn
  | _ => "unknown"

/-- The class `\w` of Go regular expressions: `[0-9A-Za-z_]`. -/
def isWordChar (c : Char) : Bool := c.isAlphanum || c == '_'

/-- Does the text start with a `\w` character. -/
def startsWithWord : List Char → Bool
  | [] => false
  | c :: _ => isWordChar c

/-- `regexp.MustCompile(":(\w+)").ReplaceAllString(s, "{$1}")` as a left to
right scan. The flag says that the scan is inside the `\w+` of a match, whose
opening brace has been written. A match starts at a `:` that a `\w` character
follows, and extends over the longest run of `\w` characters. -/
def replaceAllParams : Bool → List Char → List Char
  | false, [] => []
  | true, [] => ['\x7d']
  | true, c :: rest =>
      if isWordChar c then c :: replaceAllParams true rest
      else if c = ':' ∧ startsWithWord rest then
        '\x7d' :: '\x7b' :: replaceAllParams true rest
      else '\x7d' :: c :: replaceAllParams false rest
  | false, c :: rest =>
      if c = ':' ∧ startsWithWord rest then '\x7b' :: replaceAllParams true rest
      else c :: replaceAllParams false rest

/-- `GinAnalyzer.convertGinPathToOpenAPI`. -/
def convertGinPathToOpenAPI (ginPath : String) : String :=
  ⟨replaceAllParams false ginPath.data⟩

/-- `GinAnalyzer.analyzeCallExpression` on the call `fn(args...)` at line
`line`. -/
def analyzeCallExpression (env : Env) (line : Nat) (fn : Node) (args : List Node)
    (filePath : String) : Option RouteInfo :=
  match fn with
  | .selectorExpr _ methodName =>
      if !isGinHTTPMethod methodName then none
      else
        match args with
        | a0 :: a1 :: _ =>
            match extractStringLiteral a0 with
            | none => none
            | some path =>
                some {
                  Method := ToUpper env.unicode methodName
                  Path := convertGinPathToOpenAPI path
                  Handler := extractHandlerName a1
                  HandlerType := determineHandlerType a1
                  File := filePath
                  Line := line }
        | _ => none
  | _ => none

/-- The closure `AnalyzeFile` hands to `ast.Inspect`. -/
def routeVisitor (env : Env) (filePath : String) (n : Node) (routes : List RouteInfo) :
    Bool × List RouteInfo :=
  match n with
  | .callExpr line fn args =>
      match analyzeCallExpression env line fn args filePath with
      | some route => (true, routes ++ [route])
      | none => (true, routes)
  | _ => (true, routes)

/-- `GinAnalyzer.AnalyzeFile`. -/
def AnalyzeFile (env : Env) (filePath : String) : Except String (List RouteInfo) :=
  match env.parseFile filePath with
  | .error err => .error err
  | .ok file => .ok (Inspect (routeVisitor env filePath) file [])

/-- The loop of `AnalyzeDirectory` over the listed files, `routes` being the
routes collected so far. -/
def analyzeFiles (env : Env) : List String → List RouteInfo → Except String (List RouteInfo)
  | [], routes => .ok routes
  | file :: files, routes =>
      if HasSuffix file "_test.go" then analyzeFiles env files routes
      else
        match AnalyzeFile env file with
        | .error err => .error err
        | .ok fileRoutes => analyzeFiles env files (routes ++ fileRoutes)

/-- `GinAnalyzer.AnalyzeDirectory`. -/
def AnalyzeDirectory (env : Env) (dirPath : String) : Except String (List RouteInfo) :=
  match env.glob dirPath with
  | .error err => .error err
  | .ok files => analyzeFiles env files []

/-! ## Go maps -/

/-- A Go `map[string]α`: an association list, one pair per key, in the order
the keys were first assigned. -/
abbrev GoMap (α : Type) := List (String × α)

/-- The lookup `v, exists := m[k]`. -/
def GoMap.find {α : Type} (m : GoMap α) (k : String) : Option α :=
  match m with
  | [] => none
  | (k1, v) :: rest => if k1 = k then some v else GoMap.find rest k

/-- The assignment `m[k] = v`. -/
def GoMap.set {α : Type} (m : GoMap α) (k : String) (v : α) : GoMap α :=
  match m with
  | [] => [(k, v)]
  | (k1, v1) :: rest => if k1 = k then (k, v) :: rest else (k1, v1) :: GoMap.set rest k v

/-- The read `m[k]` of a `map[string]string`: the empty string for a missing
key. -/
def GoMap.at (m : GoMap String) (k : String) : String :=
  (GoMap.find m k).getD ""

/-! ## `internal/handler/analyzer.go` -/

/-- The record `ParamInfo`. -/
inductive ParamInfo where
  | mk (Name Typ Location : String) (Required : Bool) (JSONName : String)
      (SubParams : List ParamInfo)

/-- The field `Name`. -/
def ParamInfo.Name : ParamInfo → String
  | .mk n _ _ _ _ _ => n

/-- The field `Type`. -/
def ParamInfo.Typ : ParamInfo → String
  | .mk _ t _ _ _ _ => t

/-- The field `Location`. -/
def ParamInfo.Location : ParamInfo → String
  | .mk _ _ l _ _ _ => l

/-- The field `Required`. -/
def ParamInfo.Required : ParamInfo → Bool
  | .mk _ _ _ r _ _ => r

/-- The field `JSONName`. -/
def ParamInfo.JSONName : ParamInfo → String
  | .mk _ _ _ _ j _ => j

/-- The field `SubParams`. -/
def ParamInfo.SubParams : ParamInfo → List ParamInfo
  | .mk _ _ _ _ _ s => s

/-- The record `HandlerInfo`. -/
structure HandlerInfo where
  Name : String
  Package : String
  File : String
  Params : List ParamInfo
  ReturnType : String
  ErrorReturn : Bool

/-- `HandlerAnalyzer.getParamNames`. -/
def getParamNames (param : Field) : List String :=
  match param.names with
  | [] => ["anonymous"]
  | names => names

/-- `HandlerAnalyzer.getTypeName`. -/
def getTypeName : Node → String
  | .ident name => name
  | .starExpr x => "*" ++ getTypeName x
  | .selectorExpr x sel => getTypeName x ++ "." ++ sel
  | .arrayType _ elt => "[]" ++ getTypeName elt
  | .structType _ => "struct\x7b\x7d"
  | _ => "unknown"

/-- The slice `basicTypes` of `isBasicType`. -/
def basicTypes : List String :=
  ["string", "int", "int8", "int16", "int32", "int64",
   "uint", "uint8", "uint16", "uint32", "uint64",
   "float32", "float64", "bool", "byte", "rune"]

/-- `HandlerAnalyzer.isBasicType`. -/
def isBasicType (typeName : String) : Bool :=
  basicTypes.any (fun basicType => typeName = basicType)

/-- `HandlerAnalyzer.determineParameterLocation`. -/
def determineParameterLocation (_name paramType : String) : String :=
  if paramType = "*gin.Context" ∨ paramType = "gin.Context" then "context"
  else if Contains paramType "struct" || !isBasicType paramType then "body"
  else "query"

/-- `HandlerAnalyzer.analyzeStructFields`, as the new value of
`paramInfo.Required`: set for an inline struct type with a tagged field. The
tag the code prints on the console is not part of the embedding. -/
def analyzeStructFields (expr : Node) (required : Bool) : Bool :=
  match expr with
  | .structType (some fields) =>
      if fields.any (fun field => field.tag.isSome) then true else required
  | _ => required

/-- `HandlerAnalyzer.analyzeParameter`. -/
def analyzeParameter (param : Field) : List ParamInfo :=
  (getParamNames param).map fun paramName =>
    let typ := getTypeName param.typ
    let location := determineParameterLocation paramName typ
    let required := if location = "body" then analyzeStructFields param.typ false else false
    ParamInfo.mk paramName typ location required "" []

/-- The field list behind a possibly nil `*ast.FieldList`. -/
def fieldsOf : Option (List Field) → List Field
  | none => []
  | some l => l

/-- `HandlerAnalyzer.analyzeFunctionDeclaration` on the declaration with name
`name`, parameters `params` and results `results`. -/
def analyzeFunctionDeclaration (packageName filePath name : String)
    (params results : Option (List Field)) : HandlerInfo where
  Name := name
  Package := packageName
  File := filePath
  Params := ((fieldsOf params).map analyzeParameter).flatten
  ReturnType :=
    match fieldsOf results with
    | [] => ""
    | r :: _ => getTypeName r.typ
  ErrorReturn := (fieldsOf results).any (fun result => getTypeName result.typ = "error")

/-- `HandlerAnalyzer.isMethodOfStruct` on a declaration with receiver list
`recv`. -/
def isMethodOfStruct (recv : Option (List Field)) (structName : String) : Bool :=
  match recv with
  | none => false
  | some list =>
      list.any (fun r => TrimPrefix (getTypeName r.typ) "*" = structName)

/-- The closure `HandlerAnalyzer.AnalyzeFunction` hands to `ast.Inspect`. -/
def functionVisitor (packageName filePath functionName : String) (n : Node)
    (handlerInfo : Option HandlerInfo) : Bool × Option HandlerInfo :=
  match n with
  | .funcDecl _ name params results _ =>
      if name = functionName then
        (false, some (analyzeFunctionDeclaration packageName filePath name params results))
      else (true, handlerInfo)
  | _ => (true, handlerInfo)

/-- `HandlerAnalyzer.AnalyzeFunction`. -/
def HandlerAnalyzer.AnalyzeFunction (env : Env) (packageName filePath functionName : String) :
    Except String (Option HandlerInfo) :=
  match env.parseFile filePath with
  | .error err => .error err
  | .ok file => .ok (Inspect (functionVisitor packageName filePath functionName) file none)

/-- The closure `HandlerAnalyzer.AnalyzeMethod` hands to `ast.Inspect`. -/
def methodVisitor (packageName filePath structName methodName : String) (n : Node)
    (handlerInfo : Option HandlerInfo) : Bool × Option HandlerInfo :=
  match n with
  | .funcDecl recv name params results _ =>
      if name = methodName ∧ isMethodOfStruct recv structName then
        (false, some (analyzeFunctionDeclaration packageName filePath name params results))
      else (true, handlerInfo)
  | _ => (true, handlerInfo)

/-- `HandlerAnalyzer.AnalyzeMethod`. -/
def HandlerAnalyzer.AnalyzeMethod (env : Env)
    (packageName filePath structName methodName : String) :
    Except String (Option HandlerInfo) :=
  match env.parseFile filePath with
  | .error err => .error err
  | .ok file =>
      .ok (Inspect (methodVisitor packageName filePath structName methodName) file none)

/-! ## `internal/handler/type_inference.go` -/

/-- The loop body of `parseStructTags` for one piece of the tag text. -/
def parseTagPart (tags : GoMap String) (tagPart : String) : GoMap String :=
  let tagPart := TrimSpace tagPart
  if tagPart = "" then tags
  else
    match SplitN2 tagPart ':' with
    | [tagName, rest] => GoMap.set tags tagName (Trim rest "\"")
    | _ => tags

/-- `EnhancedHandlerAnalyzer.parseStructTags`. -/
def parseStructTags (tagLiteral : String) : GoMap String :=
  (Split (Trim tagLiteral "`") ' ').foldl parseTagPart []

/-- `EnhancedHandlerAnalyzer.determineFieldLocation`. -/
def determineFieldLocation (tags : GoMap String) : String :=
  if tags.at "uri" ≠ "" then "path"
  else if tags.at "form" ≠ "" then "form"
  else if tags.at "header" ≠ "" then "header"
  else if tags.at "query" ≠ "" then "query"
  else if tags.at "json" ≠ "" then "body"
  else ""

/-- `EnhancedHandlerAnalyzer.getJSONName`. -/
def getJSONName (tags : GoMap String) (fieldName : String) : String :=
  match tags.find "json" with
  | some jsonTag =>
      match cutBefore jsonTag ',' with
      | some name => name
      | none => jsonTag
  | none => fieldName

/-- `EnhancedHandlerAnalyzer.isFieldRequired`. -/
def isFieldRequired (tags : GoMap String) : Bool :=
  match tags.find "validate" with
  | some validateTag => Contains validateTag "required"
  | none =>
      match tags.find "binding" with
      | some bindingTag => Contains bindingTag "required"
      | none => false

/-- `ast.IsExported`: the name starts with an upper case letter. -/
def IsExported (t : UnicodeTables) (name : String) : Bool :=
  match name.data with
  | [] => false
  | c :: _ => if c.toNat < 128 then c.isUpper else t.isUpper c

/-- The loop body of `extractStructFieldsInfo` for one field: the
sub-parameters after the field, given those before. -/
def extractField (t : UnicodeTables) (subParams : List ParamInfo) (field : Field) :
    List ParamInfo :=
  match field.names with
  | [] => subParams
  | fieldName :: _ =>
      if !IsExported t fieldName then subParams
      else
        let fieldType := getTypeName field.typ
        let tagged : String × String × Bool :=
          match field.tag with
          | some tag =>
              let tags := parseStructTags tag
              (determineFieldLocation tags, getJSONName tags fieldName, isFieldRequired tags)
          | none => ("", "", false)
        let location := tagged.1
        let jsonName := if tagged.2.1 = "" then fieldName else tagged.2.1
        if location ≠ "" ∧ location ≠ "body" then
          subParams ++ [ParamInfo.mk fieldName fieldType location tagged.2.2 jsonName []]
        else subParams

/-- `EnhancedHandlerAnalyzer.extractStructFieldsInfo` on a struct type with
field list `fields`. -/
def extractStructFieldsInfo (t : UnicodeTables) (param : ParamInfo)
    (fields : Option (List Field)) : ParamInfo :=
  match fields with
  | none => param
  | some list =>
      ParamInfo.mk param.Name param.Typ "body" param.Required param.JSONName
        (list.foldl (extractField t) param.SubParams)

/-- The loop of the visitor of `analyzeStructParameter` over the specs of one
type declaration: the struct type of the first spec named `structName` that is
a struct type. -/
def findStructSpec (structName : String) : List Node → Option (Option (List Field))
  | [] => none
  | .typeSpec name (.structType fields) :: rest =>
      if name = structName then some fields else findStructSpec structName rest
  | _ :: rest => findStructSpec structName rest

/-- The closure `analyzeStructParameter` hands to `ast.Inspect`. -/
def structVisitor (t : UnicodeTables) (structName : String) (n : Node) (param : ParamInfo) :
    Bool × ParamInfo :=
  match n with
  | .genDecl tok specs =>
      if tok = Token.TYPE then
        match findStructSpec structName specs with
        | some fields => (false, extractStructFieldsInfo t param fields)
        | none => (true, param)
      else (true, param)
  | _ => (true, param)

/-- `EnhancedHandlerAnalyzer.analyzeStructParameter`. -/
def analyzeStructParameter (env : Env) (param : ParamInfo) (filePath : String) : ParamInfo :=
  match env.parseFile filePath with
  | .error _ => param
  | .ok file => Inspect (structVisitor env.unicode (TrimPrefix param.Typ "*")) file param

/-- `EnhancedHandlerAnalyzer.inferBasicParameterInfo`. -/
def inferBasicParameterInfo (t : UnicodeTables) (param : ParamInfo) : ParamInfo :=
  let lowered := ToLower t param.Name
  if lowered = "id" ∨ lowered = "userid" ∨ lowered = "productid" then
    ParamInfo.mk param.Name param.Typ "path" true param.JSONName param.SubParams
  else if lowered = "limit" ∨ lowered = "offset" ∨ lowered = "page" ∨ lowered = "sort" then
    ParamInfo.mk param.Name param.Typ "query" param.Required param.JSONName param.SubParams
  else
    ParamInfo.mk param.Name param.Typ "query" param.Required param.JSONName param.SubParams

/-- `EnhancedHandlerAnalyzer.enhanceParameterInfo`. -/
def enhanceParameterInfo (env : Env) (param : ParamInfo) (filePath : String) : ParamInfo :=
  let param :=
    if Contains param.Typ "struct" || !isBasicType param.Typ then
      analyzeStructParameter env param filePath
    else param
  if isBasicType param.Typ then inferBasicParameterInfo env.unicode param else param

/-- `EnhancedHandlerAnalyzer.inferReturnType`. -/
def inferReturnType (t : UnicodeTables) (info : HandlerInfo) (_filePath : String) : String :=
  let handlerName := ToLower t info.Name
  if Contains handlerName "get" || Contains handlerName "list" then "array"
  else if Contains handlerName "create" || Contains handlerName "update" then "object"
  else if Contains handlerName "delete" then "boolean"
  else "object"

/-- `EnhancedHandlerAnalyzer.enhanceHandlerInfo`. -/
def enhanceHandlerInfo (env : Env) (info : HandlerInfo) (filePath : String) : HandlerInfo :=
  let info := { info with
    Params := info.Params.map (fun param => enhanceParameterInfo env param filePath) }
  if info.ReturnType = "unknown" ∨ info.ReturnType = "" then
    { info with ReturnType := inferReturnType env.unicode info filePath }
  else info

/-- `EnhancedHandlerAnalyzer.AnalyzeFunction`. -/
def EnhancedHandlerAnalyzer.AnalyzeFunction (env : Env)
    (packageName filePath functionName : String) : Except String (Option HandlerInfo) :=
  match HandlerAnalyzer.AnalyzeFunction env packageName filePath functionName with
  | .error err => .error err
  | .ok none => .ok none
  | .ok (some info) => .ok (some (enhanceHandlerInfo env info filePath))

/-- `EnhancedHandlerAnalyzer.AnalyzeMethod`. -/
def EnhancedHandlerAnalyzer.AnalyzeMethod (env : Env)
    (packageName filePath structName methodName : String) :
    Except String (Option HandlerInfo) :=
  match HandlerAnalyzer.AnalyzeMethod env packageName filePath structName methodName with
  | .error err => .error err
  | .ok none => .ok none
  | .ok (some info) => .ok (some (enhanceHandlerInfo env info filePath))

/-- `EnhancedHandlerAnalyzer.getIntegerFormat`. -/
def getIntegerFormat (goType : String) : String :=
  if goType = "int8" ∨ goType = "uint8" ∨ goType = "byte" then "int32"
  else if goType = "int16" ∨ goType = "uint16" then "int32"
  else if goType = "int32" ∨ goType = "uint32" ∨ goType = "rune" then "int32"
  else if goType = "int64" ∨ goType = "uint64" then "int64"
  else if goType = "int" ∨ goType = "uint" then "int64"
  else "int64"

/-- `EnhancedHandlerAnalyzer.getNumberFormat`. -/
def getNumberFormat (goType : String) : String :=
  if goType = "float32" then "float"
  else if goType = "float64" then "double"
  else "double"

/-- `EnhancedHandlerAnalyzer.GetOpenAPIType`. -/
def GetOpenAPIType (goType : String) : String × String :=
  if goType = "string" then ("string", "")
  else if goType ∈ ["int", "int8", "int16", "int32", "int64",
      "uint", "uint8", "uint16", "uint32", "uint64"] then
    ("integer", getIntegerFormat goType)
  else if goType = "float32" ∨ goType = "float64" then ("number", getNumberFormat goType)
  else if goType = "bool" then ("boolean", "")
  else if goType = "byte" then ("string", "byte")
  else if goType = "rune" then ("string", "")
  else if goType = "time.Time" then ("string", "date-time")
  else if HasPrefix goType "[]" then ("array", "")
  else if HasPrefix goType "map[" then ("object", "")
  else ("object", "")

/-! ## `internal/coordinator.go`, `internal/coordinator_enhanced.go` -/

/-- The record `RouteDescription`. -/
structure RouteDescription where
  Method : String
  Path : String
  Handler : String
  HandlerInfo : Option HandlerInfo
  File : String

/-- The record `APIDescription`. -/
structure APIDescription where
  Routes : List RouteDescription

/-- `EnhancedCoordinator.inferStructName`. -/
def inferStructName (t : UnicodeTables) (handlerVar : String) : String :=
  if handlerVar = "handler" ∨ handlerVar = "h" ∨ handlerVar = "userHandler" then "UserHandler"
  else if handlerVar = "productHandler" then "ProductHandler"
  else if handlerVar.data.length > 0 then Title t handlerVar
  else "Handler"

/-- `EnhancedCoordinator.analyzeHandlerEnhanced`. -/
def analyzeHandlerEnhanced (env : Env) (handlerName filePath : String) :
    Except String (Option HandlerInfo) :=
  let packageName := env.packageOf filePath
  match Split handlerName '.' with
  | [functionName] =>
      EnhancedHandlerAnalyzer.AnalyzeFunction env packageName filePath functionName
  | [handlerVar, methodName] =>
      EnhancedHandlerAnalyzer.AnalyzeMethod env packageName filePath
        (inferStructName env.unicode handlerVar) methodName
  | _ => .ok none

/-- The loop body of `EnhancedCoordinator.AnalyzeAPI` for one route. -/
def describeRoute (env : Env) (route : RouteInfo) : RouteDescription where
  Method := route.Method
  Path := route.Path
  Handler := route.Handler
  File := route.File
  HandlerInfo :=
    match analyzeHandlerEnhanced env route.Handler route.File with
    | .ok (some handlerInfo) => some handlerInfo
    | _ => none

/-- `EnhancedCoordinator.AnalyzeAPI`. -/
def EnhancedCoordinator.AnalyzeAPI (env : Env) (sourceDir : String) :
    Except String APIDescription :=
  match AnalyzeDirectory env sourceDir with
  | .error err => .error err
  | .ok routes => .ok { Routes := routes.map (describeRoute env) }

/-! ## `internal/generator/openapi_generator.go` -/

/-- The record `Schema`. Its field `Example` is left out: no code assigns
it. -/
inductive Schema where
  | mk (Typ Format : String) (Properties : List (String × Schema)) (Items : Option Schema)
      (Required : List String)

/-- The field `Type`. -/
def Schema.Typ : Schema → String
  | .mk t _ _ _ _ => t

/-- The field `Format`. -/
def Schema.Format : Schema → String
  | .mk _ f _ _ _ => f

/-- The field `Properties`. -/
def Schema.Properties : Schema → List (String × Schema)
  | .mk _ _ p _ _ => p

/-- The field `Items`. -/
def Schema.Items : Schema → Option Schema
  | .mk _ _ _ i _ => i

/-- The record `MediaType`. -/
structure MediaType where
  Schema : Option Schema

/-- The record `Parameter`. -/
structure Parameter where
  Name : String
  In : String
  Description : String
  Required : Bool
  Schema : Option Schema

/-- The record `RequestBody`. -/
structure RequestBody where
  Description : String
  Required : Bool
  Content : GoMap MediaType

/-- The record `Response`. -/
structure Response where
  Description : String
  Content : GoMap MediaType

/-- The record `Operation`. -/
structure Operation where
  Summary : String
  Description : String
  Tags : List String
  Parameters : List Parameter
  RequestBody : Option RequestBody
  Responses : GoMap Response

/-- The record `PathItem`. -/
structure PathItem where
  Get : Option Operation
  Post : Option Operation
  Put : Option Operation
  Delete : Option Operation
  Patch : Option Operation

/-- The record `Info`. -/
structure Info where
  Title : String
  Description : String
  Version : String

/-- The record `Components`. -/
structure Components where
  Schemas : GoMap Schema

/-- The record `OpenAPISpec`. -/
structure OpenAPISpec where
  OpenAPI : String
  Info : Info
  Paths : GoMap PathItem
  Components : Components

/-- `OpenAPIGenerator.extractResourceName`. -/
def extractResourceName (t : UnicodeTables) (path : String) : String :=
  match (Split (Trim path "/") '/').getLast? with
  | some resource => Title t (Trim resource "\x7b\x7d")
  | none => "Resource"

/-- `OpenAPIGenerator.generateSummary`. -/
def generateSummary (t : UnicodeTables) (route : RouteDescription) : String :=
  let handlerName :=
    match (Split route.Handler '.').getLast? with
    | some last => last
    | none => route.Handler
  let lowered := ToLower t handlerName
  if Contains lowered "get" then "Get " ++ extractResourceName t route.Path
  else if Contains lowered "create" then "Create " ++ extractResourceName t route.Path
  else if Contains lowered "update" then "Update " ++ extractResourceName t route.Path
  else if Contains lowered "delete" then "Delete " ++ extractResourceName t route.Path
  else if Contains lowered "list" then "List " ++ extractResourceName t route.Path
  else route.Method ++ " operation"

/-- `OpenAPIGenerator.generateDescription`. -/
def generateDescription (route : RouteDescription) : String :=
  "Automatically generated endpoint for " ++ route.Method ++ " " ++ route.Path

/-- `OpenAPIGenerator.generateTags`. -/
def generateTags (route : RouteDescription) : List String :=
  match Split (Trim route.Path "/") '/' with
  | first :: _ => [first]
  | [] => ["api"]

/-- `OpenAPIGenerator.paramToSchema`. -/
def paramToSchema (param : ParamInfo) : Schema :=
  let openAPIType := GetOpenAPIType param.Typ
  if HasPrefix param.Typ "[]" then
    let item := GetOpenAPIType (TrimPrefix param.Typ "[]")
    Schema.mk "array" openAPIType.2 [] (some (Schema.mk item.1 item.2 [] none [])) []
  else Schema.mk openAPIType.1 openAPIType.2 [] none []

/-- `OpenAPIGenerator.returnTypeToSchema`. -/
def returnTypeToSchema (returnType : String) : Schema :=
  let openAPIType := GetOpenAPIType returnType
  if HasPrefix returnType "[]" then
    let item := GetOpenAPIType (TrimPrefix returnType "[]")
    Schema.mk "array" openAPIType.2 [] (some (Schema.mk item.1 item.2 [] none [])) []
  else Schema.mk openAPIType.1 openAPIType.2 [] none []

/-- `OpenAPIGenerator.getParameterName`. -/
def getParameterName (param : ParamInfo) : String :=
  if param.JSONName ≠ "" then param.JSONName else param.Name

/-- `OpenAPIGenerator.generateParamDescription`. -/
def generateParamDescription (param : ParamInfo) : String :=
  param.Name ++ " parameter"

/-- The test of `generateParameters` on a location: does it go into the
parameter list. -/
def isParameterLocation (location : String) : Bool :=
  location = "path" || location = "query" || location = "header"

/-- The `Parameter` that `generateParameters` builds from a parameter or
sub-parameter. -/
def toParameter (param : ParamInfo) : Parameter where
  Name := getParameterName param
  In := param.Location
  Description := generateParamDescription param
  Required := param.Required
  Schema := some (paramToSchema param)

/-- The loop body of `generateParameters` for one parameter of the handler:
the parameters it appends. -/
def parametersOf (param : ParamInfo) : List Parameter :=
  (if isParameterLocation param.Location then [toParameter param] else [])
    ++ (param.SubParams.filter (fun sub => isParameterLocation sub.Location)).map toParameter

/-- `OpenAPIGenerator.generateParameters`. -/
def generateParameters (handlerInfo : HandlerInfo) : List Parameter :=
  (handlerInfo.Params.map parametersOf).flatten

/-- `OpenAPIGenerator.generateRequestBody`. -/
def generateRequestBody (handlerInfo : HandlerInfo) : Option RequestBody :=
  match handlerInfo.Params.filter (fun param => param.Location = "body") with
  | [] => none
  | bodyParam :: _ =>
      some {
        Description := bodyParam.Name ++ " data"
        Required := bodyParam.Required
        Content := [("application/json", { Schema := some (paramToSchema bodyParam) })] }

/-- The schema of the error responses of `generateResponses`. -/
def errorSchema : Schema :=
  Schema.mk "object" ""
    [("error", Schema.mk "string" "" [] none []),
     ("message", Schema.mk "string" "" [] none [])] none []

/-- The response `generateResponses` stores under an error code. -/
def errorResponse (description : String) : Response where
  Description := description
  Content := [("application/json", { Schema := some errorSchema })]

/-- The map `errorResponses` of `generateResponses`. -/
def errorResponses : List (String × String) :=
  [("400", "Bad Request"), ("401", "Unauthorized"), ("403", "Forbidden"),
   ("404", "Not Found"), ("500", "Internal Server Error")]

/-- `OpenAPIGenerator.generateResponses`. -/
def generateResponses (route : RouteDescription) : GoMap Response :=
  let successCode :=
    if route.Method = "POST" then "201"
    else if route.Method = "DELETE" then "204"
    else "200"
  let responseSchema : Option Schema :=
    match route.HandlerInfo with
    | some info => if info.ReturnType ≠ "" then some (returnTypeToSchema info.ReturnType) else none
    | none => none
  let successResponse : Response :=
    { Description := "Success"
      Content :=
        match responseSchema with
        | some schema => [("application/json", { Schema := some schema })]
        | none => [] }
  errorResponses.foldl (fun responses entry => GoMap.set responses entry.1 (errorResponse entry.2))
    (GoMap.set [] successCode successResponse)

/-- `OpenAPIGenerator.routeToOperation`. -/
def routeToOperation (t : UnicodeTables) (route : RouteDescription) : Operation where
  Summary := generateSummary t route
  Description := generateDescription route
  Tags := generateTags route
  Responses := generateResponses route
  Parameters :=
    match route.HandlerInfo with
    | some info => generateParameters info
    | none => []
  RequestBody :=
    match route.HandlerInfo with
    | some info => generateRequestBody info
    | none => none

/-- The switch of `generatePaths` that assigns the operation to the field of
the path item named by the verb. -/
def assignOperation (pathItem : PathItem) (method : String) (operation : Operation) : PathItem :=
  if method = "GET" then { pathItem with Get := some operation }
  else if method = "POST" then { pathItem with Post := some operation }
  else if method = "PUT" then { pathItem with Put := some operation }
  else if method = "DELETE" then { pathItem with Delete := some operation }
  else if method = "PATCH" then { pathItem with Patch := some operation }
  else pathItem

/-- The loop body of `generatePaths` for one route. -/
def generatePath (t : UnicodeTables) (paths : GoMap PathItem) (route : RouteDescription) :
    GoMap PathItem :=
  let pathItem : PathItem :=
    match paths.find route.Path with
    | some item => item
    | none => { Get := none, Post := none, Put := none, Delete := none, Patch := none }
  GoMap.set paths route.Path (assignOperation pathItem route.Method (routeToOperation t route))

/-- `OpenAPIGenerator.generatePaths`, as the new value of `spec.Paths`. -/
def generatePaths (t : UnicodeTables) (paths : GoMap PathItem) (apiDesc : APIDescription) :
    GoMap PathItem :=
  apiDesc.Routes.foldl (generatePath t) paths

/-- `OpenAPIGenerator.generateSchemas`, as the new value of
`spec.Components.Schemas`. -/
def generateSchemas (schemas : GoMap Schema) (_apiDesc : APIDescription) : GoMap Schema :=
  GoMap.set schemas "Error"
    (Schema.mk "object" ""
      [("error", Schema.mk "string" "" [] none []),
       ("message", Schema.mk "string" "" [] none []),
       ("code", Schema.mk "integer" "" [] none [])] none [])

/-- `OpenAPIGenerator.Generate`. -/
def Generate (t : UnicodeTables) (apiDesc : APIDescription) (title version : String) :
    OpenAPISpec where
  OpenAPI := "3.0.3"
  Info := { Title := title, Description := "", Version := version }
  Paths := generatePaths t [] apiDesc
  Components := { Schemas := generateSchemas [] apiDesc }

/-- The field of a path item that holds the operation of a verb, for the
five verbs a path item has a field for. -/
def PathItem.operation (pathItem : PathItem) (method : String) : Option Operation :=
  if method = "GET" then pathItem.Get
  else if method = "POST" then pathItem.Post
  else if method = "PUT" then pathItem.Put
  else if method = "DELETE" then pathItem.Delete
  else if method = "PATCH" then pathItem.Patch
  else none

/-! ## Auxiliary definitions of the statements -/

/-- What a call node yields as a route, nothing for any other node. -/
def routeOfNode (env : Env) (filePath : String) : Node → Option RouteInfo
  | .callExpr line fn args => analyzeCallExpression env line fn args filePath
  | _ => none

/-- Is the node a call expression. -/
def isCallExpr : Node → Bool
  | .callExpr _ _ _ => true
  | _ => false

/-- The file of `TestGinAnalyzer`. -/
def ginTestFile : Node :=
  .file "main" [
    .genDecl .IMPORT [.other [.basicLit .STRING "\"github.com/gin-gonic/gin\""]],
    .genDecl .TYPE [.typeSpec "UserHandler" (.structType (some []))],
    .funcDecl (some [.mk ["h"] (.starExpr (.ident "UserHandler")) none]) "GetUser"
      (some [.mk ["c"] (.starExpr (.selectorExpr (.ident "gin") "Context")) none])
      none (some (.other [])),
    .funcDecl none "CreateUser"
      (some [.mk ["c"] (.starExpr (.selectorExpr (.ident "gin") "Context")) none])
      none (some (.other [])),
    .funcDecl none "main" (some []) none (some (.other [
      .other [.ident "r", .callExpr 13 (.selectorExpr (.ident "gin") "Default") []],
      .other [.ident "handler", .other [.other [.ident "UserHandler"]]],
      .other [.callExpr 17 (.selectorExpr (.ident "r") "GET")
        [.basicLit .STRING "\"/users/:id\"", .selectorExpr (.ident "handler") "GetUser"]],
      .other [.callExpr 18 (.selectorExpr (.ident "r") "POST")
        [.basicLit .STRING "\"/users\"", .ident "CreateUser"]],
      .other [.callExpr 19 (.selectorExpr (.ident "r") "PUT")
        [.basicLit .STRING "\"/users/:id\"", .selectorExpr (.ident "handler") "GetUser"]],
      .other [.callExpr 20 (.selectorExpr (.ident "r") "DELETE")
        [.basicLit .STRING "\"/users/:id\"",
         .funcLit
           (.other [.other [.ident "c", .starExpr (.selectorExpr (.ident "gin") "Context")]])
           (.other [])]]]))]

/-- An environment whose parser returns `file` for the path `path` and fails
on every other path, with a listing of `files` for every directory. -/
def singleFileEnv (t : UnicodeTables) (path : String) (file : Node) (files : List String) :
    Env where
  unicode := t
  glob := fun _ => .ok files
  parseFile := fun p => if p = path then .ok file else .error "no such file"
  packageOf := fun _ => "main"

/-- Unicode tables that leave every code point outside ASCII alone. -/
def plainTables : UnicodeTables where
  upper := id
  lower := id
  title := id
  letterOrDigit := fun _ => false
  isUpper := fun _ => false

/-- Does the text contain a `:` directly followed by a `\w` character, the
start of a match of `:(\w+)`. -/
def hasParam : List Char → Bool
  | [] => false
  | c :: rest => (c == ':' && startsWithWord rest) || hasParam rest

/-- The upper case ASCII letters other than `K`. -/
def upperLettersNoK : List Char := "ABCDEFGHIJLMNOPQRSTUVWXYZ".data

/-- The priority of the annotation keys as an ordered list of rules: key and
the location it stands for. -/
def locationRules : List (String × String) :=
  [("uri", "path"), ("form", "form"), ("header", "header"), ("query", "query"),
   ("json", "body")]

/-- A file that declares a free function `GetUser` and, after it, a method
`GetUser` on `UserHandler`, and registers the free function:
`func GetUser(c *gin.Context) {}`,
`func (h *UserHandler) GetUser(c *gin.Context, id int) {}`,
`r.GET("/users/:id", GetUser)`. -/
def sameNameFile : Node :=
  .file "main" [
    .genDecl .IMPORT [.other [.basicLit .STRING "\"github.com/gin-gonic/gin\""]],
    .genDecl .TYPE [.typeSpec "UserHandler" (.structType (some []))],
    .funcDecl none "GetUser"
      (some [.mk ["c"] (.starExpr (.selectorExpr (.ident "gin") "Context")) none])
      none (some (.other [])),
    .funcDecl (some [.mk ["h"] (.starExpr (.ident "UserHandler")) none]) "GetUser"
      (some [.mk ["c"] (.starExpr (.selectorExpr (.ident "gin") "Context")) none,
             .mk ["id"] (.ident "int") none])
      none (some (.other [])),
    .funcDecl none "main" (some []) none (some (.other [
      .other [.ident "r", .callExpr 13 (.selectorExpr (.ident "gin") "Default") []],
      .other [.callExpr 14 (.selectorExpr (.ident "r") "GET")
        [.basicLit .STRING "\"/users/:id\"", .ident "GetUser"]]]))]

/-- The file of scenario A, the request declared inline:
`type UserHandler struct{}`,
`func (h *UserHandler) GetUser(ctx *gin.Context, req struct{ ID int TAG }) {}`
where `TAG` is the raw string literal with the text `uri:"id"`, and in `main`: `router := gin.Default()`, `handler := &UserHandler{}`,
`router.GET("/users/:id", handler.GetUser)`. -/
def scenarioAFile : Node :=
  .file "main" [
    .genDecl .IMPORT [.other [.basicLit .STRING "\"github.com/gin-gonic/gin\""]],
    .genDecl .TYPE [.typeSpec "UserHandler" (.structType (some []))],
    .funcDecl (some [.mk ["h"] (.starExpr (.ident "UserHandler")) none]) "GetUser"
      (some [.mk ["ctx"] (.starExpr (.selectorExpr (.ident "gin") "Context")) none,
             .mk ["req"] (.structType (some [.mk ["ID"] (.ident "int") (some "`uri:\"id\"`")]))
               none])
      none (some (.other [])),
    .funcDecl none "main" (some []) none (some (.other [
      .other [.ident "router", .callExpr 11 (.selectorExpr (.ident "gin") "Default") []],
      .other [.ident "handler", .other [.other [.ident "UserHandler"]]],
      .other [.callExpr 13 (.selectorExpr (.ident "router") "GET")
        [.basicLit .STRING "\"/users/:id\"", .selectorExpr (.ident "handler") "GetUser"]]]))]

/-- The file of scenario A with the request type declared by name:
`type GetUserRequest struct { ID int TAG }`, `TAG` being the raw string literal
with the text `uri:"id"`, and
`func (h *UserHandler) GetUser(ctx *gin.Context, req GetUserRequest) {}`. -/
def scenarioANamedFile : Node :=
  .file "main" [
    .genDecl .IMPORT [.other [.basicLit .STRING "\"github.com/gin-gonic/gin\""]],
    .genDecl .TYPE [.typeSpec "UserHandler" (.structType (some []))],
    .genDecl .TYPE [.typeSpec "GetUserRequest"
      (.structType (some [.mk ["ID"] (.ident "int") (some "`uri:\"id\"`")]))],
    .funcDecl (some [.mk ["h"] (.starExpr (.ident "UserHandler")) none]) "GetUser"
      (some [.mk ["ctx"] (.starExpr (.selectorExpr (.ident "gin") "Context")) none,
             .mk ["req"] (.ident "GetUserRequest") none])
      none (some (.other [])),
    .funcDecl none "main" (some []) none (some (.other [
      .other [.ident "router", .callExpr 15 (.selectorExpr (.ident "gin") "Default") []],
      .other [.ident "handler", .other [.other [.ident "UserHandler"]]],
      .other [.callExpr 17 (.selectorExpr (.ident "router") "GET")
        [.basicLit .STRING "\"/users/:id\"", .selectorExpr (.ident "handler") "GetUser"]]]))]

/-- A file that registers the handler `CreateUser` under the verb `verb` and
declares no `CreateUser`: in `main`, `router := gin.Default()` and
`router.<verb>("/users", CreateUser)`. With `POST` it is the file of
scenario B. -/
def scenarioBFile (verb : String) : Node :=
  .file "main" [
    .genDecl .IMPORT [.other [.basicLit .STRING "\"github.com/gin-gonic/gin\""]],
    .funcDecl none "main" (some []) none (some (.other [
      .other [.ident "router", .callExpr 6 (.selectorExpr (.ident "gin") "Default") []],
      .other [.callExpr 7 (.selectorExpr (.ident "router") verb)
        [.basicLit .STRING "\"/users\"", .ident "CreateUser"]]]))]

/-- Is the node a function declaration named `name`, with or without
receiver. -/
def isFuncDeclNamed (name : String) : Node → Bool
  | .funcDecl _ n _ _ _ => n = name
  | _ => false

/-- Is the node a function declaration named `name` with a receiver of type
`structName` or `*structName`. -/
def isMethodDeclOf (structName name : String) : Node → Bool
  | .funcDecl recv n _ _ _ => n = name && isMethodOfStruct recv structName
  | _ => false

/-- Does the handler reference match a declaration of its file: for a bare
name, a function declaration of that name; for `v.M`, a declaration named `M`
with a receiver of the type the resolver maps `v` to. A reference of three or
more parts, and a file that does not parse, match nothing. -/
def matchesDeclaration (env : Env) (filePath handlerName : String) : Bool :=
  match env.parseFile filePath with
  | .error _ => false
  | .ok file =>
      match Split handlerName '.' with
      | [functionName] => (subnodes file).any (isFuncDeclNamed functionName)
      | [handlerVar, methodName] =>
          (subnodes file).any (isMethodDeclOf (inferStructName env.unicode handlerVar) methodName)
      | _ => false

/-- The path item without operations. -/
def emptyPathItem : PathItem :=
  { Get := none, Post := none, Put := none, Delete := none, Patch := none }

/-- What the statements show of a generated parameter: name, location,
required, and type and format of its schema. -/
structure ParameterView where
  Name : String
  In : String
  Required : Bool
  SchemaType : Option String
  SchemaFormat : Option String
  deriving DecidableEq, Repr

/-- The view of a generated parameter. -/
def Parameter.view (p : Parameter) : ParameterView where
  Name := p.Name
  In := p.In
  Required := p.Required
  SchemaType := p.Schema.map Schema.Typ
  SchemaFormat := p.Schema.map Schema.Format

/-- What the statements show of a parameter of a handler: name, type text,
location and the names of its sub-parameters. -/
structure ParamView where
  Name : String
  Typ : String
  Location : String
  SubParams : List String
  deriving DecidableEq, Repr

/-- The view of a parameter of a handler. -/
def ParamInfo.view (p : ParamInfo) : ParamView where
  Name := p.Name
  Typ := p.Typ
  Location := p.Location
  SubParams := p.SubParams.map ParamInfo.Name

/-- What the statements show of a described route: verb, path, handler text,
file, and whether the handler was resolved. -/
structure RouteView where
  Method : String
  Path : String
  Handler : String
  File : String
  Resolved : Bool
  deriving DecidableEq, Repr

/-- The view of a described route. -/
def RouteDescription.view (r : RouteDescription) : RouteView where
  Method := r.Method
  Path := r.Path
  Handler := r.Handler
  File := r.File
  Resolved := r.HandlerInfo.isSome

/-- The views of the routes of an analysis that succeeded. -/
def routeViews (result : Except String APIDescription) : Option (List RouteView) :=
  match result with
  | .ok desc => some (desc.Routes.map RouteDescription.view)
  | .error _ => none

/-- The handler information of the first route of an analysis. -/
def firstHandler (result : Except String APIDescription) : Option HandlerInfo :=
  match result with
  | .ok desc =>
      match desc.Routes with
      | route :: _ => route.HandlerInfo
      | [] => none
  | .error _ => none

/-- The operations of a path item under the keys its JSON form gives them,
the fields without operation left out. -/
def PathItem.entries (pathItem : PathItem) : List (String × Operation) :=
  [("get", pathItem.Get), ("post", pathItem.Post), ("put", pathItem.Put),
   ("delete", pathItem.Delete), ("patch", pathItem.Patch)].filterMap
    (fun entry => entry.2.map (fun operation => (entry.1, operation)))

/-- What the statements show of a stored operation: path, key of the verb,
number of parameters, and whether it has a request body. -/
structure OperationView where
  Path : String
  Verb : String
  Parameters : Nat
  HasRequestBody : Bool
  deriving DecidableEq, Repr

/-- The views of all operations stored in a map of paths. -/
def operationViews (paths : GoMap PathItem) : List OperationView :=
  (paths.map (fun entry => entry.2.entries.map (fun op =>
    ({ Path := entry.1, Verb := op.1, Parameters := op.2.Parameters.length,
       HasRequestBody := op.2.RequestBody.isSome } : OperationView)))).flatten

/-- The document generated from an analysis that succeeded, as the views of
its operations. -/
def generatedOperations (t : UnicodeTables) (result : Except String APIDescription) :
    Option (List OperationView) :=
  match result with
  | .ok desc => some (operationViews (Generate t desc "Auto-Generated API" "1.0.0").Paths)
  | .error _ => none

/-- A state transformer that, on the nodes `L`, behaves like a visitor that
stops at the nodes satisfying `stop` and there sets the state to `h` of the
node: either no node of `L` satisfies `stop` and the state is left as it was,
or the state becomes `h m` for a node `m` of `L` that satisfies `stop`. -/
def SetsAtStop {σ : Type} (stop : Node → Bool) (h : Node → σ) (F : σ → σ)
    (L : List Node) : Prop :=
  ∀ s, (L.any stop = false ∧ F s = s) ∨ (∃ m ∈ L, stop m = true ∧ F s = h m)

/-- What `analyzeFunctionDeclaration` makes of a node that is a function
declaration. -/
def declInfo (packageName filePath : String) : Node → Option HandlerInfo
  | .funcDecl _ name params results _ =>
      some (analyzeFunctionDeclaration packageName filePath name params results)
  | _ => none

/-- The names `analyzeParameter` gives the entries of one parameter field:
its declared names, or the placeholder for a field without name. -/
def declaredNames (field : Field) : List String :=
  if field.names = [] then ["anonymous"] else field.names

/-- A file with a function whose parameters are all unnamed, each a field
without names, and a function whose parameters are all named, two of them in
one field:
`func Search(*gin.Context, int, string) {}` and
`func Between(c *gin.Context, from, to int, verbose bool) {}`. -/
def unnamedParamFile : Node :=
  .file "main" [
    .genDecl .IMPORT [.other [.basicLit .STRING "\"github.com/gin-gonic/gin\""]],
    .funcDecl none "Search"
      (some [.mk [] (.starExpr (.selectorExpr (.ident "gin") "Context")) none,
             .mk [] (.ident "int") none,
             .mk [] (.ident "string") none])
      none (some (.other [])),
    .funcDecl none "Between"
      (some [.mk ["c"] (.starExpr (.selectorExpr (.ident "gin") "Context")) none,
             .mk ["from", "to"] (.ident "int") none,
             .mk ["verbose"] (.ident "bool") none])
      none (some (.other []))]

/-- The file declares a method `M` on `S`: a function declaration named `M`
with a receiver whose type text is `S` or `*S`. -/
def declaresMethod (file : Node) (S M : String) : Prop :=
  ∃ recv params results body,
    Node.funcDecl recv M params results body ∈ subnodes file ∧
    ∃ r ∈ fieldsOf recv, getTypeName r.typ = S ∨ getTypeName r.typ = "*" ++ S

/-- A file with a handler that returns a map:
`func GetSettings(c *gin.Context) map[string]string`, and one that returns a
pointer and an error: `func GetUser(c *gin.Context) (*User, error)`. -/
def returnTypesFile : Node :=
  .file "main" [
    .genDecl .IMPORT [.other [.basicLit .STRING "\"github.com/gin-gonic/gin\""]],
    .funcDecl none "GetSettings"
      (some [.mk ["c"] (.starExpr (.selectorExpr (.ident "gin") "Context")) none])
      (some [.mk [] (.other [.ident "string", .ident "string"]) none])
      (some (.other [])),
    .funcDecl none "GetUser"
      (some [.mk ["c"] (.starExpr (.selectorExpr (.ident "gin") "Context")) none])
      (some [.mk [] (.starExpr (.ident "User")) none, .mk [] (.ident "error") none])
      (some (.other []))]

/-- The selector chain `x.x1.….xn` of identifiers, `xs` being `x1, …, xn`. -/
def selectorChain (x : String) (xs : List String) : Node :=
  xs.foldl (fun e name => .selectorExpr e name) (.ident x)

/-- The file `examples/complex-app/mian.go`, the bodies of the five handlers
left out. Its `main` binds `handler := &APIHandler{}` and registers five
methods of `handler`. -/
def complexAppFile : Node :=
  .file "main" [
    .genDecl .IMPORT [.other [.basicLit .STRING "\"github.com/gin-gonic/gin\""]],
    .genDecl .TYPE [.typeSpec "User" (.structType (some [
      .mk ["ID"] (.ident "int") (some "`json:\"id\"`"),
      .mk ["Name"] (.ident "string") (some "`json:\"name\"`"),
      .mk ["Email"] (.ident "string") (some "`json:\"email\"`"),
      .mk ["Age"] (.ident "int") (some "`json:\"age\"`"),
      .mk ["IsActive"] (.ident "bool") (some "`json:\"is_active\"`")]))],
    .genDecl .TYPE [.typeSpec "Product" (.structType (some [
      .mk ["ID"] (.ident "int") (some "`json:\"id\"`"),
      .mk ["Name"] (.ident "string") (some "`json:\"name\"`"),
      .mk ["Price"] (.ident "float64") (some "`json:\"price\"`"),
      .mk ["Stock"] (.ident "int") (some "`json:\"stock\"`")]))],
    .genDecl .TYPE [.typeSpec "CreateUserRequest" (.structType (some [
      .mk ["Name"] (.ident "string") (some "`json:\"name\" binding:\"required\"`"),
      .mk ["Email"] (.ident "string") (some "`json:\"email\" binding:\"required,email\"`"),
      .mk ["Age"] (.ident "int") (some "`json:\"age\" binding:\"min=0\"`")]))],
    .genDecl .TYPE [.typeSpec "UpdateProductRequest" (.structType (some [
      .mk ["Name"] (.ident "string") (some "`json:\"name\"`"),
      .mk ["Price"] (.ident "float64") (some "`json:\"price\" binding:\"min=0\"`"),
      .mk ["Stock"] (.ident "int") (some "`json:\"stock\" binding:\"min=0\"`")]))],
    .genDecl .TYPE [.typeSpec "QueryFilters" (.structType (some [
      .mk ["Limit"] (.ident "int") (some "`form:\"limit\" binding:\"min=1,max=100\"`"),
      .mk ["Offset"] (.ident "int") (some "`form:\"offset\" binding:\"min=0\"`"),
      .mk ["Search"] (.ident "string") (some "`form:\"search\"`"),
      .mk ["SortBy"] (.ident "string") (some "`form:\"sort_by\"`"),
      .mk ["SortDir"] (.ident "string")
        (some "`form:\"sort_dir\" binding:\"oneof=asc desc\"`")]))],
    .genDecl .TYPE [.typeSpec "APIHandler" (.structType (some []))],
    .funcDecl (some [.mk ["h"] (.starExpr (.ident "APIHandler")) none]) "GetUserByID"
      (some [.mk ["c"] (.starExpr (.selectorExpr (.ident "gin") "Context")) none])
      none (some (.other [])),
    .funcDecl (some [.mk ["h"] (.starExpr (.ident "APIHandler")) none]) "CreateUser"
      (some [.mk ["c"] (.starExpr (.selectorExpr (.ident "gin") "Context")) none])
      none (some (.other [])),
    .funcDecl (some [.mk ["h"] (.starExpr (.ident "APIHandler")) none]) "ListUsers"
      (some [.mk ["c"] (.starExpr (.selectorExpr (.ident "gin") "Context")) none])
      none (some (.other [])),
    .funcDecl (some [.mk ["h"] (.starExpr (.ident "APIHandler")) none]) "UpdateProduct"
      (some [.mk ["c"] (.starExpr (.selectorExpr (.ident "gin") "Context")) none])
      none (some (.other [])),
    .funcDecl (some [.mk ["h"] (.starExpr (.ident "APIHandler")) none]) "GetProductByID"
      (some [.mk ["c"] (.starExpr (.selectorExpr (.ident "gin") "Context")) none])
      none (some (.other [])),
    .funcDecl none "main" (some []) none (some (.other [
      .other [.ident "r", .callExpr 134 (.selectorExpr (.ident "gin") "Default") []],
      .other [.ident "handler", .other [.other [.ident "APIHandler"]]],
      .other [.callExpr 138 (.selectorExpr (.ident "r") "GET")
        [.basicLit .STRING "\"/users/:id\"", .selectorExpr (.ident "handler") "GetUserByID"]],
      .other [.callExpr 139 (.selectorExpr (.ident "r") "POST")
        [.basicLit .STRING "\"/users\"", .selectorExpr (.ident "handler") "CreateUser"]],
      .other [.callExpr 140 (.selectorExpr (.ident "r") "GET")
        [.basicLit .STRING "\"/users\"", .selectorExpr (.ident "handler") "ListUsers"]],
      .other [.callExpr 143 (.selectorExpr (.ident "r") "GET")
        [.basicLit .STRING "\"/products/:id\"",
         .selectorExpr (.ident "handler") "GetProductByID"]],
      .other [.callExpr 144 (.selectorExpr (.ident "r") "PUT")
        [.basicLit .STRING "\"/products/:id\"",
         .selectorExpr (.ident "handler") "UpdateProduct"]],
      .other [.callExpr 146 (.selectorExpr (.ident "r") "Run")
        [.basicLit .STRING "\":8080\""]]]))]

/-- A file that declares a function named `anonymous` and registers an inline
function literal: `func anonymous(c *gin.Context, id int) {}` and, in `main`,
`r.DELETE("/users/:id", func(c *gin.Context) {})`. -/
def anonymousNameFile : Node :=
  .file "main" [
    .genDecl .IMPORT [.other [.basicLit .STRING "\"github.com/gin-gonic/gin\""]],
    .funcDecl none "anonymous"
      (some [.mk ["c"] (.starExpr (.selectorExpr (.ident "gin") "Context")) none,
             .mk ["id"] (.ident "int") none])
      none (some (.other [])),
    .funcDecl none "main" (some []) none (some (.other [
      .other [.ident "r", .callExpr 8 (.selectorExpr (.ident "gin") "Default") []],
      .other [.callExpr 9 (.selectorExpr (.ident "r") "DELETE")
        [.basicLit .STRING "\"/users/:id\"",
         .funcLit
           (.other [.other [.ident "c", .starExpr (.selectorExpr (.ident "gin") "Context")]])
           (.other [])]]]))]

/-- The part of a text before its first comma, the whole text when it has no
comma. -/
def beforeComma (value : String) : String :=
  ⟨value.data.takeWhile (· != ',')⟩

/-- The external name of a field named `F` with the tag literal `tag`: the
part of the value of its json annotation before the first comma when the field
has a json annotation and that part is not empty, and `F` otherwise. -/
def externalName (tag F : String) : String :=
  match (parseStructTags tag).find "json" with
  | some value => if beforeComma value = "" then F else beforeComma value
  | none => F

/-- The back quote, the delimiter of a raw string literal. -/
def backquote : Char := Char.ofNat 0x60

/-- The token `k:"v"` of an annotation. -/
def tagToken (k v : String) : List Char :=
  k.data ++ ':' :: '"' :: (v.data ++ ['"'])

/-- The tokens of a list of entries `(k, v, n)`, each token but the last
followed by `n + 1` spaces. -/
def tagBody : List (String × String × Nat) → List Char
  | [] => []
  | [(k, v, _)] => tagToken k v
  | (k, v, n) :: e :: rest =>
      tagToken k v ++ ' ' :: (List.replicate n ' ' ++ tagBody (e :: rest))

/-- The back-quoted annotation made of the tokens of the entries. -/
def tagLiteralOf (entries : List (String × String × Nat)) : String :=
  ⟨backquote :: (tagBody entries ++ [backquote])⟩

/-- The names for which `inferBasicParameterInfo` places a parameter in the
path, compared with the lower case form of the name of the parameter. -/
def pathParameterNames : List String := ["id", "userid", "productid"]

/-- The type names that have a case of their own in the switch of
`GetOpenAPIType`. -/
def mappedTypeNames : List String :=
  ["string", "int", "int8", "int16", "int32", "int64",
   "uint", "uint8", "uint16", "uint32", "uint64",
   "float32", "float64", "bool", "byte", "rune", "time.Time"]

/-- The files of a listing that `AnalyzeDirectory` analyses: those whose name
does not end in `_test.go`. -/
def analysedFiles (files : List String) : List String :=
  files.filter (fun file => !HasSuffix file "_test.go")

mutual
/-- The nodes that a walk visits which does not descend below the nodes
satisfying `stop`, in the order of the visits. -/
def visited (stop : Node → Bool) : Node → List Node
  | .file nm decls =>
      .file nm decls :: (if stop (.file nm decls) then [] else visitedList stop decls)
  | .ident nm => [.ident nm]
  | .basicLit k v => [.basicLit k v]
  | .selectorExpr x sel =>
      .selectorExpr x sel :: (if stop (.selectorExpr x sel) then [] else visited stop x)
  | .callExpr l fn args =>
      .callExpr l fn args ::
        (if stop (.callExpr l fn args) then [] else visited stop fn ++ visitedList stop args)
  | .starExpr x => .starExpr x :: (if stop (.starExpr x) then [] else visited stop x)
  | .arrayType len elt =>
      .arrayType len elt ::
        (if stop (.arrayType len elt) then [] else visitedOpt stop len ++ visited stop elt)
  | .structType fields =>
      .structType fields ::
        (if stop (.structType fields) then [] else visitedFieldsOpt stop fields)
  | .funcLit t b =>
      .funcLit t b :: (if stop (.funcLit t b) then [] else visited stop t ++ visited stop b)
  | .funcDecl recv nm ps rs body =>
      .funcDecl recv nm ps rs body ::
        (if stop (.funcDecl recv nm ps rs body) then []
         else visitedFieldsOpt stop recv ++ (visitedFieldsOpt stop ps ++
           (visitedFieldsOpt stop rs ++ visitedOpt stop body)))
  | .genDecl tok specs =>
      .genDecl tok specs :: (if stop (.genDecl tok specs) then [] else visitedList stop specs)
  | .typeSpec nm t => .typeSpec nm t :: (if stop (.typeSpec nm t) then [] else visited stop t)
  | .other cs => .other cs :: (if stop (.other cs) then [] else visitedList stop cs)
/-- The nodes visited in a list of trees. -/
def visitedList (stop : Node → Bool) : List Node → List Node
  | [] => []
  | n :: ns => visited stop n ++ visitedList stop ns
/-- The nodes visited in an optional tree. -/
def visitedOpt (stop : Node → Bool) : Option Node → List Node
  | none => []
  | some n => visited stop n
/-- The nodes visited below a field. -/
def visitedField (stop : Node → Bool) : Field → List Node
  | .mk _ t _ => visited stop t
/-- The nodes visited below the fields of a field list. -/
def visitedFields (stop : Node → Bool) : List Field → List Node
  | [] => []
  | n :: ns => visitedField stop n ++ visitedFields stop ns
/-- The nodes visited below an optional field list. -/
def visitedFieldsOpt (stop : Node → Bool) : Option (List Field) → List Node
  | none => []
  | some l => visitedFields stop l
end

/-- Is the node a type declaration at which the visitor of
`analyzeStructParameter` stops for the name `structName`: one of its specs
declares a struct type under that name. -/
def isStructDeclOf (structName : String) : Node → Bool
  | .genDecl tok specs => decide (tok = Token.TYPE) && (findStructSpec structName specs).isSome
  | _ => false

/-- The fields of the struct type that a type declaration declares under the
name `structName`, those of the first such spec; no fields for any other
node. -/
def declaredFields (structName : String) : Node → List Field
  | .genDecl tok specs =>
      if tok = Token.TYPE then
        match findStructSpec structName specs with
        | some (some fields) => fields
        | _ => []
      else []
  | _ => []

/-- Does a struct field stand for a parameter of its own: its first name is
exported and its tag has a non-empty `uri`, `form`, `header` or `query`
value. -/
def isParameterField (t : UnicodeTables) (field : Field) : Bool :=
  match field.names, field.tag with
  | fieldName :: _, some tag =>
      IsExported t fieldName &&
        ["uri", "form", "header", "query"].any (fun key => (parseStructTags tag).at key != "")
  | _, _ => false

/-- The sub-parameters that stand for the fields of a struct: one for each
field that stands for a parameter of its own, in declaration order, with the
first name of the field, the type text of the field, and the location, the
requirement and the external name that the tag of the field gives. -/
def fieldEntries (t : UnicodeTables) (fields : List Field) : List ParamInfo :=
  (fields.filter (isParameterField t)).filterMap fun field =>
    match field.names, field.tag with
    | fieldName :: _, some tag =>
        some (ParamInfo.mk fieldName (getTypeName field.typ)
          (determineFieldLocation (parseStructTags tag)) (isFieldRequired (parseStructTags tag))
          (externalName tag fieldName) [])
    | _, _ => none

/-- What the claims state on the sub-parameters of a parameter `p` of a
handler of the file `file`: a parameter of basic type has none; the
sub-parameters of a parameter of another type are, for each type declaration
that the walk of `analyzeStructParameter` visits, in the order of the visits,
the entries of the fields of the struct that the declaration declares under the
type name of the parameter without leading star; so the parameter has
sub-parameters exactly when its type is not basic and such a declaration
declares a struct with a field that stands for a parameter of its own; such a
declaration is a node of the file. -/
def SubParamsExpanded (t : UnicodeTables) (file : Node) (p : ParamInfo) : Prop :=
  (isBasicType p.Typ = true → p.SubParams = []) ∧
  (isBasicType p.Typ = false →
    p.SubParams
      = ((visited (isStructDeclOf (TrimPrefix p.Typ "*")) file).map
          (fun d => fieldEntries t (declaredFields (TrimPrefix p.Typ "*") d))).flatten) ∧
  (p.SubParams ≠ [] ↔
    isBasicType p.Typ = false ∧
    ∃ d ∈ visited (isStructDeclOf (TrimPrefix p.Typ "*")) file,
      ∃ field ∈ declaredFields (TrimPrefix p.Typ "*") d, isParameterField t field = true) ∧
  (p.SubParams ≠ [] →
    ∃ d ∈ subnodes file, isStructDeclOf (TrimPrefix p.Typ "*") d = true ∧
      ∃ field ∈ declaredFields (TrimPrefix p.Typ "*") d, isParameterField t field = true)

/-- The request structs `CreateUserRequest`, `UpdateUserRequest` and
`QueryParams` of `examples/basic-app/main.go`, with handlers that take them as
parameters:
`func CreateUser(c *gin.Context, req CreateUserRequest)`,
`func UpdateUser(c *gin.Context, req UpdateUserRequest)`,
`func ListUsers(c *gin.Context, query QueryParams)`. -/
def requestStructsFile : Node :=
  .file "main" [
    .genDecl .IMPORT [.other [.basicLit .STRING "\"github.com/gin-gonic/gin\""]],
    .genDecl .TYPE [.typeSpec "CreateUserRequest" (.structType (some [
      .mk ["Name"] (.ident "string")
        (some "`json:\"name\" binding:\"required\" example:\"John Doe\"`"),
      .mk ["Email"] (.ident "string")
        (some "`json:\"email\" binding:\"required,email\" example:\"john@example.com\"`"),
      .mk ["Age"] (.ident "int") (some "`json:\"age\" example:\"30\"`")]))],
    .genDecl .TYPE [.typeSpec "UpdateUserRequest" (.structType (some [
      .mk ["ID"] (.ident "int") (some "`uri:\"id\" binding:\"required\"`"),
      .mk ["Name"] (.ident "string") (some "`json:\"name\" example:\"John Doe Updated\"`"),
      .mk ["Email"] (.ident "string")
        (some "`json:\"email\" example:\"john.updated@example.com\"`")]))],
    .genDecl .TYPE [.typeSpec "QueryParams" (.structType (some [
      .mk ["Limit"] (.ident "int") (some "`form:\"limit\" example:\"10\"`"),
      .mk ["Offset"] (.ident "int") (some "`form:\"offset\" example:\"0\"`"),
      .mk ["Search"] (.ident "string") (some "`form:\"search\" example:\"john\"`")]))],
    .funcDecl none "CreateUser"
      (some [.mk ["c"] (.starExpr (.selectorExpr (.ident "gin") "Context")) none,
             .mk ["req"] (.ident "CreateUserRequest") none])
      none (some (.other [])),
    .funcDecl none "UpdateUser"
      (some [.mk ["c"] (.starExpr (.selectorExpr (.ident "gin") "Context")) none,
             .mk ["req"] (.ident "UpdateUserRequest") none])
      none (some (.other [])),
    .funcDecl none "ListUsers"
      (some [.mk ["c"] (.starExpr (.selectorExpr (.ident "gin") "Context")) none,
             .mk ["query"] (.ident "QueryParams") none])
      none (some (.other []))]

/-- The table `TypeMapping` of `internal/handler/types.go`, the pair of a key
being the fields `Type` and `Format` of its entry. -/
def TypeMapping : GoMap (String × String) :=
  [("string", ("string", "")),
   ("int", ("integer", "int64")),
   ("int8", ("integer", "int32")),
   ("int16", ("integer", "int32")),
   ("int32", ("integer", "int32")),
   ("int64", ("integer", "int64")),
   ("uint", ("integer", "int64")),
   ("uint8", ("integer", "int32")),
   ("uint16", ("integer", "int32")),
   ("uint32", ("integer", "int32")),
   ("uint64", ("integer", "int64")),
   ("float32", ("number", "float")),
   ("float64", ("number", "double")),
   ("bool", ("boolean", "")),
   ("byte", ("string", "byte")),
   ("time.Time", ("string", "date-time"))]

/-- A file with a struct whose field declarations list several names:
`type Filter struct { A, B int TAG; c, D int TAG }`, `TAG` being the raw string
literal with the text `query:"x"`, and the handler
`func List(c *gin.Context, f Filter) {}`. -/
def severalNamesFile : Node :=
  .file "main" [
    .genDecl .IMPORT [.other [.basicLit .STRING "\"github.com/gin-gonic/gin\""]],
    .genDecl .TYPE [.typeSpec "Filter" (.structType (some [
      .mk ["A", "B"] (.ident "int") (some "`query:\"x\"`"),
      .mk ["c", "D"] (.ident "int") (some "`query:\"x\"`")]))],
    .funcDecl none "List"
      (some [.mk ["c"] (.starExpr (.selectorExpr (.ident "gin") "Context")) none,
             .mk ["f"] (.ident "Filter") none])
      none (some (.other []))]

/-- The key under which `generateResponses` stores the success response of a
route with the verb `method`. -/
def successCode (method : String) : String :=
  if method = "POST" then "201"
  else if method = "DELETE" then "204"
  else "200"

/-! ## Lemmas on `ast.Inspect` -/

mutual
/-- A visitor that always descends folds over the nodes in depth-first
order. -/
theorem Inspect_eq_foldl {σ : Type} (f : Node → σ → Bool × σ)
    (hf : ∀ n s, (f n s).1 = true) :
    ∀ (n : Node) (s : σ), Inspect f n s = (subnodes n).foldl (fun s n => (f n s).2) s
  | .file nm decls, s => by
      simp [Inspect, subnodes, hf, InspectList_eq_foldl f hf decls]
  | .ident nm, s => by simp [Inspect, subnodes]
  | .basicLit k v, s => by simp [Inspect, subnodes]
  | .selectorExpr x sel, s => by
      simp [Inspect, subnodes, hf, Inspect_eq_foldl f hf x]
  | .callExpr l fn args, s => by
      simp [Inspect, subnodes, hf, Inspect_eq_foldl f hf fn, InspectList_eq_foldl f hf args]
  | .starExpr x, s => by
      simp [Inspect, subnodes, hf, Inspect_eq_foldl f hf x]
  | .arrayType len elt, s => by
      simp [Inspect, subnodes, hf, Inspect_eq_foldl f hf elt, InspectOpt_eq_foldl f hf len]
  | .structType fields, s => by
      simp [Inspect, subnodes, hf, InspectFieldsOpt_eq_foldl f hf fields]
  | .funcLit t b, s => by
      simp [Inspect, subnodes, hf, Inspect_eq_foldl f hf t, Inspect_eq_foldl f hf b]
  | .funcDecl recv nm ps rs body, s => by
      simp [Inspect, subnodes, hf, InspectFieldsOpt_eq_foldl f hf recv,
        InspectFieldsOpt_eq_foldl f hf ps, InspectFieldsOpt_eq_foldl f hf rs,
        InspectOpt_eq_foldl f hf body]
  | .genDecl tok specs, s => by
      simp [Inspect, subnodes, hf, InspectList_eq_foldl f hf specs]
  | .typeSpec nm t, s => by
      simp [Inspect, subnodes, hf, Inspect_eq_foldl f hf t]
  | .other cs, s => by
      simp [Inspect, subnodes, hf, InspectList_eq_foldl f hf cs]
/-- The list form of `Inspect_eq_foldl`. -/
theorem InspectList_eq_foldl {σ : Type} (f : Node → σ → Bool × σ)
    (hf : ∀ n s, (f n s).1 = true) :
    ∀ (l : List Node) (s : σ),
      InspectList f l s = (subnodesList l).foldl (fun s n => (f n s).2) s
  | [], s => by simp [InspectList, subnodesList]
  | n :: ns, s => by
      simp [InspectList, subnodesList, Inspect_eq_foldl f hf n, InspectList_eq_foldl f hf ns]
/-- The optional form of `Inspect_eq_foldl`. -/
theorem InspectOpt_eq_foldl {σ : Type} (f : Node → σ → Bool × σ)
    (hf : ∀ n s, (f n s).1 = true) :
    ∀ (o : Option Node) (s : σ),
      InspectOpt f o s = (subnodesOpt o).foldl (fun s n => (f n s).2) s
  | none, s => by simp [InspectOpt, subnodesOpt]
  | some n, s => by simp [InspectOpt, subnodesOpt, Inspect_eq_foldl f hf n]
/-- The field form of `Inspect_eq_foldl`. -/
theorem InspectField_eq_foldl {σ : Type} (f : Node → σ → Bool × σ)
    (hf : ∀ n s, (f n s).1 = true) :
    ∀ (fd : Field) (s : σ),
      InspectField f fd s = (subnodesField fd).foldl (fun s n => (f n s).2) s
  | .mk _ t _, s => by simp [InspectField, subnodesField, Inspect_eq_foldl f hf t]
/-- The field list form of `Inspect_eq_foldl`. -/
theorem InspectFields_eq_foldl {σ : Type} (f : Node → σ → Bool × σ)
    (hf : ∀ n s, (f n s).1 = true) :
    ∀ (l : List Field) (s : σ),
      InspectFields f l s = (subnodesFields l).foldl (fun s n => (f n s).2) s
  | [], s => by simp [InspectFields, subnodesFields]
  | n :: ns, s => by
      simp [InspectFields, subnodesFields, InspectField_eq_foldl f hf n,
        InspectFields_eq_foldl f hf ns]
/-- The optional field list form of `Inspect_eq_foldl`. -/
theorem InspectFieldsOpt_eq_foldl {σ : Type} (f : Node → σ → Bool × σ)
    (hf : ∀ n s, (f n s).1 = true) :
    ∀ (o : Option (List Field)) (s : σ),
      InspectFieldsOpt f o s = (subnodesFieldsOpt o).foldl (fun s n => (f n s).2) s
  | none, s => by simp [InspectFieldsOpt, subnodesFieldsOpt]
  | some l, s => by simp [InspectFieldsOpt, subnodesFieldsOpt, InspectFields_eq_foldl f hf l]
end

mutual
/-- A visitor that changes the state at no node of the tree leaves the state
as it was, whatever it says about descending. -/
theorem Inspect_unchanged {σ : Type} (f : Node → σ → Bool × σ) :
    ∀ (n : Node), (∀ m ∈ subnodes n, ∀ s, (f m s).2 = s) → ∀ s, Inspect f n s = s
  | .file nm decls, h, s => by
      have h0 := h (.file nm decls) (by simp [subnodes]) s
      have h1 := InspectList_unchanged f decls (fun m hm => h m (by simp [subnodes, hm]))
      simp [Inspect, h0, h1]
  | .ident nm, h, s => by
      have h0 := h (.ident nm) (by simp [subnodes]) s
      simp [Inspect, h0]
  | .basicLit k v, h, s => by
      have h0 := h (.basicLit k v) (by simp [subnodes]) s
      simp [Inspect, h0]
  | .selectorExpr x sel, h, s => by
      have h0 := h (.selectorExpr x sel) (by simp [subnodes]) s
      have h1 := Inspect_unchanged f x (fun m hm => h m (by simp [subnodes, hm]))
      simp [Inspect, h0, h1]
  | .callExpr l fn args, h, s => by
      have h0 := h (.callExpr l fn args) (by simp [subnodes]) s
      have h1 := Inspect_unchanged f fn (fun m hm => h m (by simp [subnodes, hm]))
      have h2 := InspectList_unchanged f args (fun m hm => h m (by simp [subnodes, hm]))
      simp [Inspect, h0, h1, h2]
  | .starExpr x, h, s => by
      have h0 := h (.starExpr x) (by simp [subnodes]) s
      have h1 := Inspect_unchanged f x (fun m hm => h m (by simp [subnodes, hm]))
      simp [Inspect, h0, h1]
  | .arrayType len elt, h, s => by
      have h0 := h (.arrayType len elt) (by simp [subnodes]) s
      have h1 := InspectOpt_unchanged f len (fun m hm => h m (by simp [subnodes, hm]))
      have h2 := Inspect_unchanged f elt (fun m hm => h m (by simp [subnodes, hm]))
      simp [Inspect, h0, h1, h2]
  | .structType fields, h, s => by
      have h0 := h (.structType fields) (by simp [subnodes]) s
      have h1 := InspectFieldsOpt_unchanged f fields (fun m hm => h m (by simp [subnodes, hm]))
      simp [Inspect, h0, h1]
  | .funcLit t b, h, s => by
      have h0 := h (.funcLit t b) (by simp [subnodes]) s
      have h1 := Inspect_unchanged f t (fun m hm => h m (by simp [subnodes, hm]))
      have h2 := Inspect_unchanged f b (fun m hm => h m (by simp [subnodes, hm]))
      simp [Inspect, h0, h1, h2]
  | .funcDecl recv nm ps rs body, h, s => by
      have h0 := h (.funcDecl recv nm ps rs body) (by simp [subnodes]) s
      have h1 := InspectFieldsOpt_unchanged f recv (fun m hm => h m (by simp [subnodes, hm]))
      have h2 := InspectFieldsOpt_unchanged f ps (fun m hm => h m (by simp [subnodes, hm]))
      have h3 := InspectFieldsOpt_unchanged f rs (fun m hm => h m (by simp [subnodes, hm]))
      have h4 := InspectOpt_unchanged f body (fun m hm => h m (by simp [subnodes, hm]))
      simp [Inspect, h0, h1, h2, h3, h4]
  | .genDecl tok specs, h, s => by
      have h0 := h (.genDecl tok specs) (by simp [subnodes]) s
      have h1 := InspectList_unchanged f specs (fun m hm => h m (by simp [subnodes, hm]))
      simp [Inspect, h0, h1]
  | .typeSpec nm t, h, s => by
      have h0 := h (.typeSpec nm t) (by simp [subnodes]) s
      have h1 := Inspect_unchanged f t (fun m hm => h m (by simp [subnodes, hm]))
      simp [Inspect, h0, h1]
  | .other cs, h, s => by
      have h0 := h (.other cs) (by simp [subnodes]) s
      have h1 := InspectList_unchanged f cs (fun m hm => h m (by simp [subnodes, hm]))
      simp [Inspect, h0, h1]
/-- The list form of `Inspect_unchanged`. -/
theorem InspectList_unchanged {σ : Type} (f : Node → σ → Bool × σ) :
    ∀ (l : List Node), (∀ m ∈ subnodesList l, ∀ s, (f m s).2 = s) →
      ∀ s, InspectList f l s = s
  | [], _, s => by simp [InspectList]
  | n :: ns, h, s => by
      have h1 := Inspect_unchanged f n (fun m hm => h m (by simp [subnodesList, hm]))
      have h2 := InspectList_unchanged f ns (fun m hm => h m (by simp [subnodesList, hm]))
      simp [InspectList, h1, h2]
/-- The optional form of `Inspect_unchanged`. -/
theorem InspectOpt_unchanged {σ : Type} (f : Node → σ → Bool × σ) :
    ∀ (o : Option Node), (∀ m ∈ subnodesOpt o, ∀ s, (f m s).2 = s) →
      ∀ s, InspectOpt f o s = s
  | none, _, s => by simp [InspectOpt]
  | some n, h, s => by
      have h1 := Inspect_unchanged f n (fun m hm => h m (by simp [subnodesOpt, hm]))
      simp [InspectOpt, h1]
/-- The field form of `Inspect_unchanged`. -/
theorem InspectField_unchanged {σ : Type} (f : Node → σ → Bool × σ) :
    ∀ (fd : Field), (∀ m ∈ subnodesField fd, ∀ s, (f m s).2 = s) →
      ∀ s, InspectField f fd s = s
  | .mk _ t _, h, s => by
      have h1 := Inspect_unchanged f t (fun m hm => h m (by simp [subnodesField, hm]))
      simp [InspectField, h1]
/-- The field list form of `Inspect_unchanged`. -/
theorem InspectFields_unchanged {σ : Type} (f : Node → σ → Bool × σ) :
    ∀ (l : List Field), (∀ m ∈ subnodesFields l, ∀ s, (f m s).2 = s) →
      ∀ s, InspectFields f l s = s
  | [], _, s => by simp [InspectFields]
  | n :: ns, h, s => by
      have h1 := InspectField_unchanged f n (fun m hm => h m (by simp [subnodesFields, hm]))
      have h2 := InspectFields_unchanged f ns (fun m hm => h m (by simp [subnodesFields, hm]))
      simp [InspectFields, h1, h2]
/-- The optional field list form of `Inspect_unchanged`. -/
theorem InspectFieldsOpt_unchanged {σ : Type} (f : Node → σ → Bool × σ) :
    ∀ (o : Option (List Field)), (∀ m ∈ subnodesFieldsOpt o, ∀ s, (f m s).2 = s) →
      ∀ s, InspectFieldsOpt f o s = s
  | none, _, s => by simp [InspectFieldsOpt]
  | some l, h, s => by
      have h1 := InspectFields_unchanged f l (fun m hm => h m (by simp [subnodesFieldsOpt, hm]))
      simp [InspectFieldsOpt, h1]
end

/-! ## The route extractor -/

/-- The visitor of `AnalyzeFile` always descends. -/
theorem routeVisitor_descends (env : Env) (filePath : String) (n : Node)
    (routes : List RouteInfo) : (routeVisitor env filePath n routes).1 = true := by
  unfold routeVisitor
  split
  · split <;> rfl
  · rfl

/-- The visitor of `AnalyzeFile` appends the route of the node, if any. -/
theorem routeVisitor_snd (env : Env) (filePath : String) (n : Node)
    (routes : List RouteInfo) :
    (routeVisitor env filePath n routes).2 = routes ++ (routeOfNode env filePath n).toList := by
  unfold routeVisitor routeOfNode
  split
  · split <;> simp [*]
  · simp

/-- Folding the visitor of `AnalyzeFile` over nodes collects their routes in
order. -/
theorem foldl_routeVisitor (env : Env) (filePath : String) (l : List Node)
    (routes : List RouteInfo) :
    l.foldl (fun s n => (routeVisitor env filePath n s).2) routes
      = routes ++ l.filterMap (routeOfNode env filePath) := by
  induction l generalizing routes with
  | nil => simp
  | cons n ns ih =>
      rw [List.foldl_cons, ih, routeVisitor_snd, List.filterMap_cons]
      cases routeOfNode env filePath n <;> simp

/-- The walk of `AnalyzeFile` yields the routes of the nodes of the file in
depth-first order. -/
theorem Inspect_routeVisitor (env : Env) (filePath : String) (file : Node) :
    Inspect (routeVisitor env filePath) file []
      = (subnodes file).filterMap (routeOfNode env filePath) := by
  rw [Inspect_eq_foldl _ (routeVisitor_descends env filePath), foldl_routeVisitor]
  simp

/-- Only call expressions yield a route. -/
theorem filterMap_routeOfNode_calls (env : Env) (filePath : String) (l : List Node) :
    (l.filter isCallExpr).filterMap (routeOfNode env filePath)
      = l.filterMap (routeOfNode env filePath) := by
  induction l with
  | nil => rfl
  | cons n ns ih =>
      cases n <;> simp [List.filter_cons, isCallExpr, routeOfNode, List.filterMap_cons, ih]

/-! ## The path conversion -/

/-- A `\w` character is not a colon. -/
theorem isWordChar_ne_colon {c : Char} (h : isWordChar c = true) : c ≠ ':' := by
  rintro rfl
  revert h
  decide

/-- Inside a match, text that does not go on with a `\w` character closes the
brace and is scanned afresh. -/
theorem replaceAllParams_true_eq (l : List Char) (h : startsWithWord l = false) :
    replaceAllParams true l = '\x7d' :: replaceAllParams false l := by
  cases l with
  | nil => simp [replaceAllParams]
  | cons c rest =>
      have h1 : isWordChar c = false := h
      by_cases hc : c = ':' ∧ startsWithWord rest = true
      · rw [replaceAllParams, replaceAllParams, if_pos hc, if_pos hc]
        simp [h1]
      · rw [replaceAllParams, replaceAllParams, if_neg hc, if_neg hc]
        simp [h1]

/-- Inside a match, a run of `\w` characters is copied. -/
theorem replaceAllParams_true_append (name post : List Char)
    (h : name.all isWordChar = true) :
    replaceAllParams true (name ++ post) = name ++ replaceAllParams true post := by
  induction name with
  | nil => rfl
  | cons c cs ih =>
      simp only [List.all_cons, Bool.and_eq_true] at h
      simp [replaceAllParams, h.1, ih h.2]

/-- A colon followed by a run of `\w` characters that ends there becomes the
run in braces. -/
theorem replaceAllParams_param (name post : List Char) (hne : name ≠ [])
    (h : name.all isWordChar = true) (hpost : startsWithWord post = false) :
    replaceAllParams false (':' :: (name ++ post))
      = '\x7b' :: (name ++ '\x7d' :: replaceAllParams false post) := by
  have hs : startsWithWord (name ++ post) = true := by
    cases name with
    | nil => exact absurd rfl hne
    | cons c cs =>
        simp only [List.all_cons, Bool.and_eq_true] at h
        simpa [startsWithWord] using h.1
  simp [replaceAllParams, hs, replaceAllParams_true_append name post h,
    replaceAllParams_true_eq post hpost]

/-- Text without a match before text that does not start with a `\w`
character is copied. -/
theorem replaceAllParams_append_clean (pre l : List Char) (hpre : hasParam pre = false)
    (hl : startsWithWord l = false) :
    replaceAllParams false (pre ++ l) = pre ++ replaceAllParams false l := by
  induction pre with
  | nil => rfl
  | cons c cs ih =>
      simp only [hasParam, Bool.or_eq_false_iff, Bool.and_eq_false_imp, beq_iff_eq] at hpre
      have hcs : c = ':' → startsWithWord (cs ++ l) = false := by
        intro hc
        have h1 := hpre.1 hc
        cases cs with
        | nil => simpa using hl
        | cons d ds => simpa [startsWithWord] using h1
      by_cases hc : c = ':'
      · simp [replaceAllParams, hcs hc, ih hpre.2]
      · simp [replaceAllParams, hc, ih hpre.2]

/-- Text without a match is returned as it is. -/
theorem replaceAllParams_of_not_hasParam (p : List Char) (h : hasParam p = false) :
    replaceAllParams false p = p := by
  have := replaceAllParams_append_clean p [] h rfl
  simpa [replaceAllParams] using this

/-- A slash is copied and separates the scan of what is before it from the
scan of what is after it. -/
theorem replaceAllParams_slash (flag : Bool) (a b : List Char) :
    replaceAllParams flag (a ++ '/' :: b)
      = replaceAllParams flag a ++ '/' :: replaceAllParams false b := by
  induction a generalizing flag with
  | nil =>
      cases flag
      · simp [replaceAllParams]
      · have : isWordChar '/' = false := by decide
        simp [replaceAllParams, this]
  | cons c cs ih =>
      have hs : startsWithWord (cs ++ '/' :: b) = startsWithWord cs := by
        cases cs with
        | nil =>
            have : isWordChar '/' = false := by decide
            simp [startsWithWord, this]
        | cons d ds => simp [startsWithWord]
      cases flag
      · by_cases hc : c = ':' ∧ startsWithWord cs = true
        · simp [replaceAllParams, hs, hc, ih]
        · simp [replaceAllParams, hs, hc, ih]
      · by_cases hw : isWordChar c = true
        · simp [replaceAllParams, hw, ih]
        · have hw1 : isWordChar c = false := by simpa using hw
          by_cases hc : c = ':' ∧ startsWithWord cs = true
          · have hc2 : c = ':' ∧ startsWithWord (cs ++ '/' :: b) = true := by rw [hs]; exact hc
            rw [List.cons_append, replaceAllParams, replaceAllParams, if_pos hc, if_pos hc2]
            simp [hw1, ih]
          · have hc2 : ¬ (c = ':' ∧ startsWithWord (cs ++ '/' :: b) = true) := by
              rw [hs]; exact hc
            rw [List.cons_append, replaceAllParams, replaceAllParams, if_neg hc, if_neg hc2]
            simp [hw1, ih]

/-- The converted text starts with a `\w` character only if the text did. -/
theorem startsWithWord_replaceAllParams (l : List Char) (h : startsWithWord l = false) :
    startsWithWord (replaceAllParams false l) = false := by
  cases l with
  | nil => rfl
  | cons c rest =>
      have h1 : isWordChar c = false := h
      by_cases hc : c = ':' ∧ startsWithWord rest = true
      · rw [replaceAllParams, if_pos hc]
        show isWordChar '\x7b' = false
        decide
      · rw [replaceAllParams, if_neg hc]
        exact h1

/-- No match of `:(\w+)` is left in the converted text. -/
theorem hasParam_replaceAllParams (flag : Bool) (l : List Char) :
    hasParam (replaceAllParams flag l) = false := by
  induction l generalizing flag with
  | nil => cases flag <;> simp [replaceAllParams, hasParam, startsWithWord]
  | cons c rest ih =>
      have hclose : ('\x7d' : Char) ≠ ':' := by decide
      have hopen : ('\x7b' : Char) ≠ ':' := by decide
      have key : ¬ (c = ':' ∧ startsWithWord rest = true) →
          hasParam (c :: replaceAllParams false rest) = false := by
        intro hc
        simp only [hasParam, ih, Bool.or_false, Bool.and_eq_false_imp, beq_iff_eq]
        intro h1
        apply startsWithWord_replaceAllParams
        by_contra h2
        exact hc ⟨h1, by simpa using h2⟩
      cases flag
      · by_cases hc : c = ':' ∧ startsWithWord rest = true
        · simp [replaceAllParams, hc, hasParam, hopen, ih]
        · simpa [replaceAllParams, hc] using key hc
      · by_cases hw : isWordChar c = true
        · simp [replaceAllParams, hw, hasParam, isWordChar_ne_colon hw, ih]
        · by_cases hc : c = ':' ∧ startsWithWord rest = true
          · simp [replaceAllParams, hw, hc, hasParam, hopen, hclose, ih]
          · have := key hc
            simp only [hasParam] at this
            simp [replaceAllParams, hw, hc, hasParam, hclose, this]

/-- The test `hasParam` in elementary terms. -/
theorem hasParam_eq_false_iff (l : List Char) :
    hasParam l = false ↔
      ∀ pre c post, l = pre ++ ':' :: c :: post → isWordChar c = false := by
  induction l with
  | nil =>
      simp only [hasParam, true_iff]
      intro pre c post h
      simp at h
  | cons d rest ih =>
      simp only [hasParam, Bool.or_eq_false_iff, Bool.and_eq_false_imp, beq_iff_eq, ih]
      constructor
      · rintro ⟨h1, h2⟩ pre c post h
        cases pre with
        | nil =>
            simp only [List.nil_append, List.cons.injEq] at h
            obtain ⟨hd, hrest⟩ := h
            have := h1 hd
            rw [hrest] at this
            simpa [startsWithWord] using this
        | cons e es =>
            simp only [List.cons_append, List.cons.injEq] at h
            exact h2 es c post h.2
      · intro h
        refine ⟨?_, fun pre c post hp => h (d :: pre) c post (by simp [hp])⟩
        intro hd
        cases rest with
        | nil => rfl
        | cons e es =>
            simp only [startsWithWord]
            exact h [] e es (by simp [hd])

/-! ## Case folding of the verbs -/

/-- The facts on an upper case letter other than `K` that `foldEq` and
`toUpperRune` depend on. -/
theorem upperLettersNoK_facts :
    ∀ t ∈ upperLettersNoK,
      t.toNat < 128 ∧ t.toUpper = t ∧ t.toLower.toNat < 128 ∧ t.toLower.toUpper = t
        ∧ t.isLower = false ∧ t ≠ 's' ∧ t ≠ 'K' ∧ t ≠ 'k' := by
  decide

/-- A rune that equals an upper case letter other than `K` under case folding
has that letter as its upper case. -/
theorem toUpperRune_of_foldEq (tbl : UnicodeTables) (r t : Char) (ht : t ∈ upperLettersNoK)
    (h : foldEq r t = true) : toUpperRune tbl r = t := by
  obtain ⟨h1, h2, h3, h4, h5, h6, h7, h8⟩ := upperLettersNoK_facts t ht
  have hlong : toUpperRune tbl longS = 'S' := by
    have : ¬ (longS.toNat < 128) := by decide
    simp [toUpperRune, this]
  simp only [foldEq, h5, Bool.false_and, Bool.or_false, Bool.or_eq_true, Bool.and_eq_true,
    beq_iff_eq, h6, h7, h8, or_false, false_and] at h
  rcases h with (h | h) | h
  · subst h
    simp [toUpperRune, h1, h2]
  · rw [h.2]
    simp [toUpperRune, h3, h4]
  · rw [h.2, hlong, h.1]

/-- A string that equals, under case folding, a string of upper case letters
other than `K` has that string as its upper case. -/
theorem map_toUpperRune_of_EqualFold (tbl : UnicodeTables) (s m : List Char)
    (hm : ∀ c ∈ m, c ∈ upperLettersNoK) (h : EqualFold s m = true) :
    s.map (toUpperRune tbl) = m := by
  induction s generalizing m with
  | nil =>
      cases m with
      | nil => rfl
      | cons t ts => simp [EqualFold] at h
  | cons r rs ih =>
      cases m with
      | nil => simp [EqualFold] at h
      | cons t ts =>
          simp only [EqualFold, Bool.and_eq_true] at h
          simp only [List.map_cons, List.cons.injEq]
          exact ⟨toUpperRune_of_foldEq tbl r t (hm t (by simp)) h.1,
            ih ts (fun c hc => hm c (by simp [hc])) h.2⟩

/-- On an ASCII rune and an upper case letter other than `K`, case folding
equality is equality of the upper case. -/
theorem foldEq_ascii_iff :
    ∀ t ∈ upperLettersNoK, ∀ n, n < 128 →
      (foldEq (Char.ofNat n) t = true ↔ (Char.ofNat n).toUpper = t) := by
  decide!

/-- On an ASCII string and a string of upper case letters other than `K`,
`EqualFold` is equality of the upper case. -/
theorem EqualFold_ascii_iff (s m : List Char) (hm : ∀ c ∈ m, c ∈ upperLettersNoK)
    (hs : ∀ c ∈ s, c.toNat < 128) :
    EqualFold s m = true ↔ s.map Char.toUpper = m := by
  induction s generalizing m with
  | nil =>
      cases m with
      | nil => simp [EqualFold]
      | cons t ts => simp [EqualFold]
  | cons r rs ih =>
      cases m with
      | nil => simp [EqualFold]
      | cons t ts =>
          have h1 := foldEq_ascii_iff t (hm t (by simp)) r.toNat (hs r (by simp))
          rw [Char.ofNat_toNat] at h1
          have h2 := ih ts (fun c hc => hm c (by simp [hc])) (fun c hc => hs c (by simp [hc]))
          simp only [EqualFold, Bool.and_eq_true, List.map_cons, List.cons.injEq, h1, h2]

/-- The verbs consist of upper case letters other than `K`. -/
theorem ginMethod_letters : ∀ m ∈ ginMethod, ∀ c ∈ m.data, c ∈ upperLettersNoK := by
  decide

/-- A method name the extractor accepts has one of the verbs as its upper
case. -/
theorem ToUpper_mem_ginMethod (tbl : UnicodeTables) (methodName : String)
    (h : isGinHTTPMethod methodName = true) : ToUpper tbl methodName ∈ ginMethod := by
  simp only [isGinHTTPMethod, List.any_eq_true] at h
  obtain ⟨m, hm, hfold⟩ := h
  have := map_toUpperRune_of_EqualFold tbl methodName.data m.data (ginMethod_letters m hm) hfold
  have hEq : ToUpper tbl methodName = m := by
    simp only [ToUpper, this]
  rw [hEq]
  exact hm

/-- What `analyzeCallExpression` returns on a recognised registration. -/
theorem analyzeCallExpression_eq_some (env : Env) (line : Nat) (fn : Node) (args : List Node)
    (filePath : String) (r : RouteInfo)
    (h : analyzeCallExpression env line fn args filePath = some r) :
    ∃ x methodName a0 a1 rest path,
      fn = .selectorExpr x methodName ∧ isGinHTTPMethod methodName = true ∧
      args = a0 :: a1 :: rest ∧ extractStringLiteral a0 = some path ∧
      r = { Method := ToUpper env.unicode methodName
            Path := convertGinPathToOpenAPI path
            Handler := extractHandlerName a1
            HandlerType := determineHandlerType a1
            File := filePath
            Line := line } := by
  unfold analyzeCallExpression at h
  split at h
  · rename_i x methodName
    split at h
    · exact absurd h (by simp)
    · rename_i hm
      split at h
      · rename_i a0 a1 rest
        split at h
        · exact absurd h (by simp)
        · rename_i path hp
          refine ⟨x, methodName, a0, a1, rest, path, rfl, by simpa using hm, rfl, hp, ?_⟩
          exact (Option.some.inj h).symm
      · exact absurd h (by simp)
  · exact absurd h (by simp)

/-- The invariant of a route: its method is one of the verbs and no `:name`
is left in its path. -/
theorem analyzeCallExpression_invariant (env : Env) (line : Nat) (fn : Node)
    (args : List Node) (filePath : String) (r : RouteInfo)
    (h : analyzeCallExpression env line fn args filePath = some r) :
    r.Method ∈ ginMethod ∧ hasParam r.Path.data = false := by
  obtain ⟨x, methodName, a0, a1, rest, path, -, hm, -, -, hr⟩ :=
    analyzeCallExpression_eq_some env line fn args filePath r h
  subst hr
  exact ⟨ToUpper_mem_ginMethod env.unicode methodName hm,
    hasParam_replaceAllParams false path.data⟩

/-- Every route of `AnalyzeFile` comes from a call of the file. -/
theorem AnalyzeFile_mem (env : Env) (filePath : String) (routes : List RouteInfo)
    (h : AnalyzeFile env filePath = .ok routes) (r : RouteInfo) (hr : r ∈ routes) :
    ∃ line fn args, analyzeCallExpression env line fn args filePath = some r := by
  unfold AnalyzeFile at h
  split at h
  · exact absurd h (by simp)
  · rename_i file hfile
    have h1 := Except.ok.inj h
    rw [Inspect_routeVisitor] at h1
    rw [← h1, List.mem_filterMap] at hr
    obtain ⟨n, -, hn⟩ := hr
    cases n <;> simp only [routeOfNode] at hn <;> first | exact absurd hn (by simp) | skip
    exact ⟨_, _, _, hn⟩

/-- Every route of the loop of `AnalyzeDirectory` was there before or comes
from a call of one of the files. -/
theorem analyzeFiles_mem (env : Env) (files : List String) (acc routes : List RouteInfo)
    (h : analyzeFiles env files acc = .ok routes) (r : RouteInfo) (hr : r ∈ routes) :
    r ∈ acc ∨ ∃ filePath line fn args,
      analyzeCallExpression env line fn args filePath = some r := by
  induction files generalizing acc with
  | nil =>
      simp only [analyzeFiles] at h
      have := Except.ok.inj h
      subst this
      exact Or.inl hr
  | cons file rest ih =>
      simp only [analyzeFiles] at h
      split at h
      · exact ih acc h
      · split at h
        · exact absurd h (by simp)
        · rename_i fileRoutes hfile
          rcases ih _ h with hmem | hex
          · rcases List.mem_append.mp hmem with h1 | h1
            · exact Or.inl h1
            · obtain ⟨line, fn, args, hcall⟩ := AnalyzeFile_mem env file fileRoutes hfile r h1
              exact Or.inr ⟨file, line, fn, args, hcall⟩
          · exact Or.inr hex

/-! ## Claims on the route extractor -/

/-- C1, as stated, fails: no segment of `/v1:get` starts with a colon, yet the
conversion rewrites the path; and the segment `:id.json`, which is not a colon
followed by a name only, is rewritten in part. -/
theorem convertGinPathToOpenAPI_rewrites_inside_segment :
    (splitChars '/' "/v1:get".data).all (fun seg => seg.head? != some ':') = true ∧
    convertGinPathToOpenAPI "/v1:get" = "/v1\x7bget\x7d" ∧
    convertGinPathToOpenAPI "/v1:get" ≠ "/v1:get" ∧
    convertGinPathToOpenAPI "/:id.json" = "/\x7bid\x7d.json" := by
  decide

/-- C1, amended: `convertGinPathToOpenAPI` replaces every colon that is
directly followed by a `\w` character, together with the longest run of `\w`
characters after it, by that run in braces, wherever in the path it stands,
and copies everything else. So (1) the first such occurrence after text
without one is replaced and the scan goes on behind it, (2) a slash is copied
and the parts before and after it are converted independently, (3) a whole
segment `:name` becomes `{name}`, and (4) a path without a colon directly
followed by a `\w` character is returned as it is. -/
theorem convertGinPathToOpenAPI_occurrences :
    (∀ pre name post : List Char, hasParam pre = false → name ≠ [] →
        name.all isWordChar = true → startsWithWord post = false →
        convertGinPathToOpenAPI ⟨pre ++ ':' :: (name ++ post)⟩
          = ⟨pre ++ '\x7b' :: (name ++ '\x7d' :: (convertGinPathToOpenAPI ⟨post⟩).data)⟩) ∧
    (∀ a b : String,
        convertGinPathToOpenAPI (a ++ "/" ++ b)
          = convertGinPathToOpenAPI a ++ "/" ++ convertGinPathToOpenAPI b) ∧
    (∀ name : List Char, name ≠ [] → name.all isWordChar = true →
        convertGinPathToOpenAPI ⟨':' :: name⟩ = ⟨'\x7b' :: (name ++ ['\x7d'])⟩) ∧
    (∀ p : String, hasParam p.data = false → convertGinPathToOpenAPI p = p) := by
  refine ⟨?_, ?_, ?_, ?_⟩
  · intro pre name post hpre hne hname hpost
    have hcolon : startsWithWord (':' :: (name ++ post)) = false := by
      show isWordChar ':' = false
      decide
    simp only [convertGinPathToOpenAPI]
    rw [replaceAllParams_append_clean pre _ hpre hcolon,
      replaceAllParams_param name post hne hname hpost]
  · intro a b
    apply String.ext
    simp only [convertGinPathToOpenAPI, String.data_append]
    have h := replaceAllParams_slash false a.data b.data
    simpa [List.append_assoc] using h
  · intro name hne hname
    have := replaceAllParams_param name [] hne hname rfl
    simp only [List.append_nil] at this
    simp only [convertGinPathToOpenAPI, this]
    rfl
  · intro p hp
    apply String.ext
    simp only [convertGinPathToOpenAPI]
    exact replaceAllParams_of_not_hasParam p.data hp

/-- C1, amended, at the path `/users/:id` of the test. -/
theorem convertGinPathToOpenAPI_occurrences_witness :
    convertGinPathToOpenAPI "/users/:id" = "/users/\x7bid\x7d" := by
  have h := convertGinPathToOpenAPI_occurrences.1 "/users/".data "id".data [] (by decide)
    (by decide) (by decide) (by decide)
  exact h

/-- When `analyzeCallExpression` returns a route. -/
theorem analyzeCallExpression_recognises (env : Env) (line : Nat) (fn : Node)
    (args : List Node) (filePath : String) :
    (analyzeCallExpression env line fn args filePath).isSome = true ↔
      (∃ x sel, fn = .selectorExpr x sel ∧
        ∃ m ∈ ["GET", "POST", "PUT", "DELETE", "PATCH", "OPTIONS", "HEAD", "ANY"],
          EqualFold sel.data m.data = true) ∧
      2 ≤ args.length ∧
      ∃ a0, args.head? = some a0 ∧
        ((∃ value, a0 = .basicLit Token.STRING value) ∨ ∃ name, a0 = .ident name) := by
  have hfold : ∀ sel : String,
      (∃ m ∈ ["GET", "POST", "PUT", "DELETE", "PATCH", "OPTIONS", "HEAD", "ANY"],
        EqualFold sel.data m.data = true) ↔ isGinHTTPMethod sel = true := by
    intro sel
    simp only [isGinHTTPMethod, ginMethod, List.any_eq_true]
  have hlit : ∀ a0 : Node, (extractStringLiteral a0).isSome = true ↔
      ((∃ value, a0 = .basicLit Token.STRING value) ∨ ∃ name, a0 = .ident name) := by
    intro a0
    cases a0 <;> simp [extractStringLiteral]
  constructor
  · intro h
    obtain ⟨r, hr⟩ := Option.isSome_iff_exists.mp h
    obtain ⟨x, methodName, a0, a1, rest, path, hfn, hm, hargs, hp, -⟩ :=
      analyzeCallExpression_eq_some env line fn args filePath r hr
    refine ⟨⟨x, methodName, hfn, (hfold methodName).mpr hm⟩, by simp [hargs], a0,
      by simp [hargs], (hlit a0).mp (by simp [hp])⟩
  · rintro ⟨⟨x, sel, hfn, hm⟩, hlen, a0, hhead, ha0⟩
    have hm2 := (hfold sel).mp hm
    obtain ⟨path, hpath⟩ := Option.isSome_iff_exists.mp ((hlit a0).mpr ha0)
    cases args with
    | nil => simp at hhead
    | cons b0 rest =>
        cases rest with
        | nil => simp at hlen
        | cons b1 rest2 =>
            simp only [List.head?_cons, Option.some.injEq] at hhead
            subst hhead
            simp [analyzeCallExpression, hfn, hm2, hpath]

/-- A method name in ASCII is accepted exactly when its upper case is one of
the verbs. -/
theorem isGinHTTPMethod_ascii_iff (sel : String) (hs : ∀ c ∈ sel.data, c.toNat < 128) :
    (∃ m ∈ ["GET", "POST", "PUT", "DELETE", "PATCH", "OPTIONS", "HEAD", "ANY"],
        EqualFold sel.data m.data = true)
      ↔ String.mk (sel.data.map Char.toUpper)
          ∈ ["GET", "POST", "PUT", "DELETE", "PATCH", "OPTIONS", "HEAD", "ANY"] := by
  constructor
  · rintro ⟨m, hm, h⟩
    have h1 := (EqualFold_ascii_iff sel.data m.data (ginMethod_letters m hm) hs).mp h
    rw [h1]
    exact hm
  · intro h
    exact ⟨_, h, (EqualFold_ascii_iff sel.data _ (ginMethod_letters _ h) hs).mpr rfl⟩

/-- C2: `analyzeCallExpression` returns a route exactly when the callee is a
selector whose selected name equals one of the eight verbs under case folding,
the call has at least two arguments, and the first argument is a string
literal or a bare identifier. For a selected name in ASCII, equal under case
folding means that its upper case is the verb. -/
theorem analyzeCallExpression_isSome_iff :
    (∀ (env : Env) (line : Nat) (fn : Node) (args : List Node) (filePath : String),
      (analyzeCallExpression env line fn args filePath).isSome = true ↔
        (∃ x sel, fn = .selectorExpr x sel ∧
          ∃ m ∈ ["GET", "POST", "PUT", "DELETE", "PATCH", "OPTIONS", "HEAD", "ANY"],
            EqualFold sel.data m.data = true) ∧
        2 ≤ args.length ∧
        ∃ a0, args.head? = some a0 ∧
          ((∃ value, a0 = .basicLit Token.STRING value) ∨ ∃ name, a0 = .ident name)) ∧
    (∀ sel : String, (∀ c ∈ sel.data, c.toNat < 128) →
      ((∃ m ∈ ["GET", "POST", "PUT", "DELETE", "PATCH", "OPTIONS", "HEAD", "ANY"],
          EqualFold sel.data m.data = true)
        ↔ String.mk (sel.data.map Char.toUpper)
            ∈ ["GET", "POST", "PUT", "DELETE", "PATCH", "OPTIONS", "HEAD", "ANY"])) :=
  ⟨analyzeCallExpression_recognises, isGinHTTPMethod_ascii_iff⟩

/-- C2 at calls of the test and beside it: `r.Get("/users/:id", h)` is a
route, and so is a call whose first argument is an identifier; a call with one
argument, with an integer literal or with a concatenation first, and a call of
`Default`, are not. -/
theorem analyzeCallExpression_isSome_iff_witness :
    ((∃ m ∈ ["GET", "POST", "PUT", "DELETE", "PATCH", "OPTIONS", "HEAD", "ANY"],
        EqualFold "Get".data m.data = true)
      ↔ "GET" ∈ ["GET", "POST", "PUT", "DELETE", "PATCH", "OPTIONS", "HEAD", "ANY"]) ∧
    (analyzeCallExpression (singleFileEnv plainTables "main.go" ginTestFile []) 1
      (.selectorExpr (.ident "r") "Get")
      [.basicLit .STRING "\"/users/:id\"", .ident "h"] "main.go").isSome = true ∧
    (analyzeCallExpression (singleFileEnv plainTables "main.go" ginTestFile []) 1
      (.selectorExpr (.ident "r") "GET") [.ident "usersPath", .ident "h"] "main.go").isSome
      = true ∧
    (analyzeCallExpression (singleFileEnv plainTables "main.go" ginTestFile []) 1
      (.selectorExpr (.ident "r") "GET") [.basicLit .STRING "\"/users\""] "main.go").isSome
      = false ∧
    (analyzeCallExpression (singleFileEnv plainTables "main.go" ginTestFile []) 1
      (.selectorExpr (.ident "r") "GET") [.basicLit .INT "42", .ident "h"] "main.go").isSome
      = false ∧
    (analyzeCallExpression (singleFileEnv plainTables "main.go" ginTestFile []) 1
      (.selectorExpr (.ident "r") "GET")
      [.other [.basicLit .STRING "\"/a\"", .basicLit .STRING "\"/b\""], .ident "h"]
      "main.go").isSome = false ∧
    (analyzeCallExpression (singleFileEnv plainTables "main.go" ginTestFile []) 1
      (.selectorExpr (.ident "gin") "Default") [] "main.go").isSome = false :=
  ⟨analyzeCallExpression_isSome_iff.2 "Get" (by decide), by decide, by decide, by decide,
    by decide, by decide, by decide⟩

/-- The kind of a handler argument is one of four. -/
theorem determineHandlerType_mem :
    ∀ e : Node, determineHandlerType e ∈ ["function", "method", "anonymous", "unknown"]
  | .callExpr _ fn _ => by
      have ih := determineHandlerType_mem fn
      simpa only [determineHandlerType] using ih
  | .file _ _ => by simp [determineHandlerType]
  | .ident _ => by simp [determineHandlerType]
  | .basicLit _ _ => by simp [determineHandlerType]
  | .selectorExpr _ _ => by simp [determineHandlerType]
  | .starExpr _ => by simp [determineHandlerType]
  | .arrayType _ _ => by simp [determineHandlerType]
  | .structType _ => by simp [determineHandlerType]
  | .funcLit _ _ => by simp [determineHandlerType]
  | .funcDecl _ _ _ _ _ => by simp [determineHandlerType]
  | .genDecl _ _ => by simp [determineHandlerType]
  | .typeSpec _ _ => by simp [determineHandlerType]
  | .other _ => by simp [determineHandlerType]

/-- C8: `determineHandlerType` is "function" on a bare identifier, "method" on
a selector, "anonymous" on a function literal, the kind of the callee on a
call, and "unknown" on anything else; so it is always one of the four. -/
theorem determineHandlerType_cases :
    (∀ name, determineHandlerType (.ident name) = "function") ∧
    (∀ x sel, determineHandlerType (.selectorExpr x sel) = "method") ∧
    (∀ typ body, determineHandlerType (.funcLit typ body) = "anonymous") ∧
    (∀ line fn args, determineHandlerType (.callExpr line fn args) = determineHandlerType fn) ∧
    (∀ e : Node, (∀ name, e ≠ .ident name) → (∀ x sel, e ≠ .selectorExpr x sel) →
        (∀ typ body, e ≠ .funcLit typ body) → (∀ line fn args, e ≠ .callExpr line fn args) →
        determineHandlerType e = "unknown") ∧
    (∀ e : Node,
        determineHandlerType e ∈ ["function", "method", "anonymous", "unknown"]) := by
  refine ⟨fun _ => rfl, fun _ _ => rfl, fun _ _ => rfl, fun _ _ _ => rfl, ?_, ?_⟩
  · intro e h1 h2 h3 h4
    cases e <;> first
      | rfl
      | exact absurd rfl (h1 _)
      | exact absurd rfl (h2 _ _)
      | exact absurd rfl (h3 _ _)
      | exact absurd rfl (h4 _ _ _)
  · exact determineHandlerType_mem

/-- C8 at the handler arguments of the test: a wrapped method value, a
composite literal. -/
theorem determineHandlerType_cases_witness :
    determineHandlerType (.other [.ident "UserHandler"]) = "unknown" :=
  determineHandlerType_cases.2.2.2.2.1 (.other [.ident "UserHandler"])
    (fun _ h => by cases h) (fun _ _ h => by cases h) (fun _ _ h => by cases h)
    (fun _ _ _ h => by cases h)

/-- C7: on a file that parses, `AnalyzeFile` returns the routes of the call
expressions of the file, taken in depth-first source order at any depth, one
route for each call that `analyzeCallExpression` recognises and nothing for
any other call; on the file of the test, wherever it is stored, these are the
four registrations, the call `gin.Default()` yielding nothing. -/
theorem AnalyzeFile_routes :
    (∀ (env : Env) (filePath : String) (file : Node), env.parseFile filePath = .ok file →
        AnalyzeFile env filePath
          = .ok (((subnodes file).filter isCallExpr).filterMap (routeOfNode env filePath))) ∧
    (∀ (t : UnicodeTables) (path : String),
        AnalyzeFile (singleFileEnv t path ginTestFile [path]) path
          = .ok [
              { Method := "GET", Path := "/users/\x7bid\x7d", Handler := "handler.GetUser",
                HandlerType := "method", File := path, Line := 17 },
              { Method := "POST", Path := "/users", Handler := "CreateUser",
                HandlerType := "function", File := path, Line := 18 },
              { Method := "PUT", Path := "/users/\x7bid\x7d", Handler := "handler.GetUser",
                HandlerType := "method", File := path, Line := 19 },
              { Method := "DELETE", Path := "/users/\x7bid\x7d", Handler := "anonymous",
                HandlerType := "anonymous", File := path, Line := 20 }]) := by
  constructor
  · intro env filePath file hfile
    simp only [AnalyzeFile, hfile, Inspect_routeVisitor, filterMap_routeOfNode_calls]
  · intro t path
    simp only [AnalyzeFile, singleFileEnv, if_true]
    rfl

/-- C7 at the file of the test: the five calls of the file, of which four are
routes. -/
theorem AnalyzeFile_routes_witness :
    ((subnodes ginTestFile).filter isCallExpr).length = 5 ∧
    (AnalyzeFile (singleFileEnv plainTables "main.go" ginTestFile ["main.go"]) "main.go").toOption
      = some (((subnodes ginTestFile).filter isCallExpr).filterMap
          (routeOfNode (singleFileEnv plainTables "main.go" ginTestFile ["main.go"]) "main.go")) ∧
    ((AnalyzeFile (singleFileEnv plainTables "main.go" ginTestFile ["main.go"])
      "main.go").toOption.map List.length) = some 4 := by
  have h := AnalyzeFile_routes.1 (singleFileEnv plainTables "main.go" ginTestFile ["main.go"])
    "main.go" ginTestFile rfl
  refine ⟨by rfl, by rw [h]; rfl, by rw [h]; rfl⟩

/-- C9: a route that `analyzeCallExpression` returns, and so every route that
`AnalyzeFile` or `AnalyzeDirectory` returns, has as its method one of the eight
upper case verbs, and in its path no colon is directly followed by a `\w`
character: no `:name` is left. -/
theorem route_invariant :
    (∀ (env : Env) (line : Nat) (fn : Node) (args : List Node) (filePath : String)
        (r : RouteInfo), analyzeCallExpression env line fn args filePath = some r →
        r.Method ∈ ["GET", "POST", "PUT", "DELETE", "PATCH", "OPTIONS", "HEAD", "ANY"] ∧
        ∀ pre c post, r.Path.data = pre ++ ':' :: c :: post → isWordChar c = false) ∧
    (∀ (env : Env) (filePath : String) (routes : List RouteInfo),
        AnalyzeFile env filePath = .ok routes → ∀ r ∈ routes,
        r.Method ∈ ["GET", "POST", "PUT", "DELETE", "PATCH", "OPTIONS", "HEAD", "ANY"] ∧
        ∀ pre c post, r.Path.data = pre ++ ':' :: c :: post → isWordChar c = false) ∧
    (∀ (env : Env) (dirPath : String) (routes : List RouteInfo),
        AnalyzeDirectory env dirPath = .ok routes → ∀ r ∈ routes,
        r.Method ∈ ["GET", "POST", "PUT", "DELETE", "PATCH", "OPTIONS", "HEAD", "ANY"] ∧
        ∀ pre c post, r.Path.data = pre ++ ':' :: c :: post → isWordChar c = false) := by
  have key : ∀ (env : Env) (line : Nat) (fn : Node) (args : List Node) (filePath : String)
      (r : RouteInfo), analyzeCallExpression env line fn args filePath = some r →
      r.Method ∈ ["GET", "POST", "PUT", "DELETE", "PATCH", "OPTIONS", "HEAD", "ANY"] ∧
      ∀ pre c post, r.Path.data = pre ++ ':' :: c :: post → isWordChar c = false := by
    intro env line fn args filePath r h
    have h1 := analyzeCallExpression_invariant env line fn args filePath r h
    exact ⟨h1.1, (hasParam_eq_false_iff _).mp h1.2⟩
  refine ⟨key, ?_, ?_⟩
  · intro env filePath routes h r hr
    obtain ⟨line, fn, args, hcall⟩ := AnalyzeFile_mem env filePath routes h r hr
    exact key env line fn args filePath r hcall
  · intro env dirPath routes h r hr
    unfold AnalyzeDirectory at h
    split at h
    · exact absurd h (by simp)
    · rename_i files hfiles
      rcases analyzeFiles_mem env files [] routes h r hr with hnil | ⟨f, line, fn, args, hcall⟩
      · simp at hnil
      · exact key env line fn args f r hcall

/-- C9 at a registration written in lower case, `r.get("/a/:b", h)`. -/
theorem route_invariant_witness :
    analyzeCallExpression (singleFileEnv plainTables "main.go" ginTestFile []) 3
        (.selectorExpr (.ident "r") "get") [.basicLit .STRING "\"/a/:b\"", .ident "h"] "main.go"
      = some { Method := "GET", Path := "/a/\x7bb\x7d", Handler := "h",
               HandlerType := "function", File := "main.go", Line := 3 } ∧
    ("GET" ∈ ["GET", "POST", "PUT", "DELETE", "PATCH", "OPTIONS", "HEAD", "ANY"] ∧
      ∀ pre c post, "/a/\x7bb\x7d".data = pre ++ ':' :: c :: post → isWordChar c = false) :=
  ⟨rfl, route_invariant.1 (singleFileEnv plainTables "main.go" ginTestFile []) 3
    (.selectorExpr (.ident "r") "get") [.basicLit .STRING "\"/a/:b\"", .ident "h"] "main.go"
    _ rfl⟩

/-! ## Claims on field annotations -/

/-- C5: `determineFieldLocation` returns the location of the first key, in the
order uri, form, header, query, json, whose value is not empty, and the empty
location when there is none; so a non-empty uri value gives "path" whatever the
other keys hold, as for a field annotated with both uri and query, in either
order. -/
theorem determineFieldLocation_priority :
    (∀ tags : GoMap String,
        determineFieldLocation tags
          = match locationRules.find? (fun rule => decide (tags.at rule.1 ≠ "")) with
            | some rule => rule.2
            | none => "") ∧
    (∀ tags : GoMap String, tags.at "uri" ≠ "" → determineFieldLocation tags = "path") ∧
    determineFieldLocation (parseStructTags "`uri:\"id\" query:\"id\"`") = "path" ∧
    determineFieldLocation (parseStructTags "`query:\"id\" uri:\"id\"`") = "path" := by
  refine ⟨?_, ?_, by decide, by decide⟩
  · intro tags
    unfold determineFieldLocation locationRules
    by_cases h1 : tags.at "uri" = ""
    · by_cases h2 : tags.at "form" = ""
      · by_cases h3 : tags.at "header" = ""
        · by_cases h4 : tags.at "query" = ""
          · by_cases h5 : tags.at "json" = "" <;> simp [List.find?, h1, h2, h3, h4, h5]
          · simp [List.find?, h1, h2, h3, h4]
        · simp [List.find?, h1, h2, h3]
      · simp [List.find?, h1, h2]
    · simp [List.find?, h1]
  · intro tags h
    simp [determineFieldLocation, h]

/-- C5 at the annotations uri and query of one field. -/
theorem determineFieldLocation_priority_witness :
    GoMap.at [("query", "id"), ("uri", "id")] "uri" ≠ "" ∧
    determineFieldLocation [("query", "id"), ("uri", "id")] = "path" :=
  ⟨by decide, determineFieldLocation_priority.2.1 [("query", "id"), ("uri", "id")] (by decide)⟩

/-- C6 fails on the code: for a field annotated
`validate:"email" binding:"required"` the binding value contains "required",
yet `isFieldRequired` returns false, because the validate annotation exists
and decides alone. -/
theorem isFieldRequired_validate_hides_binding :
    parseStructTags "`validate:\"email\" binding:\"required\"`"
      = [("validate", "email"), ("binding", "required")] ∧
    Contains (GoMap.at [("validate", "email"), ("binding", "required")] "binding") "required"
      = true ∧
    isFieldRequired (parseStructTags "`validate:\"email\" binding:\"required\"`") = false := by
  decide

/-! ## Claims on the handler resolver -/

/-- C10 fails on the code: in a file that declares the free function
`GetUser(c *gin.Context)` and then the method `GetUser(c *gin.Context, id int)`
on `UserHandler`, the reference `GetUser` without qualifier resolves to the
method, whose two parameters the returned `HandlerInfo` lists. -/
theorem AnalyzeFunction_selects_method :
    (HandlerAnalyzer.AnalyzeFunction (singleFileEnv plainTables "main.go" sameNameFile
        ["main.go"]) "main" "main.go" "GetUser").toOption.map
        (fun info => info.map (fun i => i.Params.map (fun p => (p.Name, p.Typ))))
      = some (some [("c", "*gin.Context"), ("id", "int")]) ∧
    (analyzeHandlerEnhanced (singleFileEnv plainTables "main.go" sameNameFile ["main.go"])
        "GetUser" "main.go").toOption.map
        (fun info => info.map (fun i => i.Params.map (fun p => (p.Name, p.Typ))))
      = some (some [("c", "*gin.Context"), ("id", "int")]) := by
  constructor <;> rfl

/-- A function declaration of another name, and any other node, leaves the
result of the visitor of `AnalyzeFunction` as it was. -/
theorem functionVisitor_unchanged (packageName filePath functionName : String) (n : Node)
    (h : isFuncDeclNamed functionName n = false) (s : Option HandlerInfo) :
    (functionVisitor packageName filePath functionName n s).2 = s := by
  cases n <;> simp_all [functionVisitor, isFuncDeclNamed]

/-- A declaration of another name or receiver type, and any other node,
leaves the result of the visitor of `AnalyzeMethod` as it was. -/
theorem methodVisitor_unchanged (packageName filePath structName methodName : String)
    (n : Node) (h : isMethodDeclOf structName methodName n = false) (s : Option HandlerInfo) :
    (methodVisitor packageName filePath structName methodName n s).2 = s := by
  cases n <;> simp_all [methodVisitor, isMethodDeclOf]
  rename_i recv name params results body
  have hn : ¬ (name = methodName ∧ isMethodOfStruct recv structName = true) := by
    rintro ⟨h1, h2⟩
    rw [h h1] at h2
    exact absurd h2 (by simp)
  simp [hn]

/-- Without a function declaration of the name in the file, `AnalyzeFunction`
finds nothing. -/
theorem AnalyzeFunction_none (env : Env) (packageName filePath functionName : String)
    (file : Node) (hfile : env.parseFile filePath = .ok file)
    (h : (subnodes file).any (isFuncDeclNamed functionName) = false) :
    EnhancedHandlerAnalyzer.AnalyzeFunction env packageName filePath functionName
      = .ok none := by
  have hall : ∀ m ∈ subnodes file, ∀ s,
      (functionVisitor packageName filePath functionName m s).2 = s := by
    intro m hm s
    apply functionVisitor_unchanged
    by_contra hc
    have : (subnodes file).any (isFuncDeclNamed functionName) = true :=
      List.any_eq_true.mpr ⟨m, hm, by simpa using hc⟩
    rw [h] at this
    exact absurd this (by simp)
  simp [EnhancedHandlerAnalyzer.AnalyzeFunction, HandlerAnalyzer.AnalyzeFunction, hfile,
    Inspect_unchanged _ file hall]

/-- Without a declaration of the name on the struct in the file,
`AnalyzeMethod` finds nothing. -/
theorem AnalyzeMethod_none (env : Env) (packageName filePath structName methodName : String)
    (file : Node) (hfile : env.parseFile filePath = .ok file)
    (h : (subnodes file).any (isMethodDeclOf structName methodName) = false) :
    EnhancedHandlerAnalyzer.AnalyzeMethod env packageName filePath structName methodName
      = .ok none := by
  have hall : ∀ m ∈ subnodes file, ∀ s,
      (methodVisitor packageName filePath structName methodName m s).2 = s := by
    intro m hm s
    apply methodVisitor_unchanged
    by_contra hc
    have : (subnodes file).any (isMethodDeclOf structName methodName) = true :=
      List.any_eq_true.mpr ⟨m, hm, by simpa using hc⟩
    rw [h] at this
    exact absurd this (by simp)
  simp [EnhancedHandlerAnalyzer.AnalyzeMethod, HandlerAnalyzer.AnalyzeMethod, hfile,
    Inspect_unchanged _ file hall]

/-- A file that does not parse resolves no handler. -/
theorem analyzeHandlerEnhanced_parse_error (env : Env) (handlerName filePath err : String)
    (info : HandlerInfo) (hfile : env.parseFile filePath = .error err) :
    analyzeHandlerEnhanced env handlerName filePath ≠ .ok (some info) := by
  unfold analyzeHandlerEnhanced
  split <;>
    simp [EnhancedHandlerAnalyzer.AnalyzeFunction, HandlerAnalyzer.AnalyzeFunction,
      EnhancedHandlerAnalyzer.AnalyzeMethod, HandlerAnalyzer.AnalyzeMethod, hfile]

/-- A route whose handler reference matches no declaration is described
without handler information. -/
theorem describeRoute_unresolved (env : Env) (route : RouteInfo)
    (h : matchesDeclaration env route.File route.Handler = false) :
    (describeRoute env route).HandlerInfo = none := by
  have key : ∀ info, analyzeHandlerEnhanced env route.Handler route.File ≠ .ok (some info) := by
    intro info
    unfold matchesDeclaration at h
    split at h
    · rename_i err hfile
      exact analyzeHandlerEnhanced_parse_error env _ _ err info hfile
    · rename_i file hfile
      unfold analyzeHandlerEnhanced
      split at h
      · rename_i functionName hsplit
        simp [hsplit, AnalyzeFunction_none env _ _ functionName file hfile h]
      · rename_i handlerVar methodName hsplit
        simp [hsplit, AnalyzeMethod_none env _ _ _ methodName file hfile h]
      · simp
  show (match analyzeHandlerEnhanced env route.Handler route.File with
    | .ok (some handlerInfo) => some handlerInfo
    | _ => none) = none
  cases hres : analyzeHandlerEnhanced env route.Handler route.File with
  | error e => rfl
  | ok o =>
      cases o with
      | none => rfl
      | some info => exact absurd hres (key info)

/-- Reading a key of a map right after assigning it. -/
theorem GoMap.find_set {α : Type} (m : GoMap α) (k : String) (v : α) :
    GoMap.find (GoMap.set m k v) k = some v := by
  induction m with
  | nil => simp [GoMap.set, GoMap.find]
  | cons p rest ih =>
      obtain ⟨k1, v1⟩ := p
      by_cases hk : k1 = k
      · simp [GoMap.set, GoMap.find, hk]
      · simp [GoMap.set, GoMap.find, hk, ih]

/-- The switch of `generatePaths` fills the field of each of the five verbs
of a path item. -/
theorem assignOperation_operation (pathItem : PathItem) (method : String)
    (operation : Operation) (h : method ∈ ["GET", "POST", "PUT", "DELETE", "PATCH"]) :
    (assignOperation pathItem method operation).operation method = some operation := by
  simp only [List.mem_cons, List.mem_singleton, List.not_mem_nil, or_false] at h
  rcases h with h | h | h | h | h <;> subst h <;> rfl

/-- The switch of `generatePaths` has no case for another verb. -/
theorem assignOperation_other (pathItem : PathItem) (method : String)
    (operation : Operation) (h : method ∉ ["GET", "POST", "PUT", "DELETE", "PATCH"]) :
    assignOperation pathItem method operation = pathItem := by
  simp only [List.mem_cons, List.mem_singleton, List.not_mem_nil, or_false, not_or] at h
  simp [assignOperation, h]

/-! ## Claims on the scenarios -/

/-- C3, as stated, fails: for the file of scenario A, with the request struct
declared inline, the pipeline yields the route GET `/users/{id}` with a
resolved handler, but no parameter is generated for it. -/
theorem scenarioA_inline_generates_no_parameter :
    routeViews (EnhancedCoordinator.AnalyzeAPI
        (singleFileEnv plainTables "main.go" scenarioAFile ["main.go"]) ".")
      = some [{ Method := "GET", Path := "/users/\x7bid\x7d", Handler := "handler.GetUser",
                File := "main.go", Resolved := true }] ∧
    (firstHandler (EnhancedCoordinator.AnalyzeAPI
        (singleFileEnv plainTables "main.go" scenarioAFile ["main.go"]) ".")).map
        (fun info => (generateParameters info).length) = some 0 := by
  decide!

/-- C3, amended: for the file of scenario A the pipeline yields the one route
GET `/users/{id}` with the handler `GetUser` resolved. With the request struct
declared inline its type text is `struct{}`, which names no declaration: the
parameter `req` stays a body parameter without sub-parameters, no parameter is
generated, and `req` becomes the request body. With the struct declared by
name in the file, exactly one parameter is generated: name `ID` (the name of
the field), location "path", not required, schema integer with format
int64. -/
theorem scenarioA_parameters :
    (routeViews (EnhancedCoordinator.AnalyzeAPI
        (singleFileEnv plainTables "main.go" scenarioAFile ["main.go"]) ".")
      = some [{ Method := "GET", Path := "/users/\x7bid\x7d", Handler := "handler.GetUser",
                File := "main.go", Resolved := true }] ∧
     (firstHandler (EnhancedCoordinator.AnalyzeAPI
        (singleFileEnv plainTables "main.go" scenarioAFile ["main.go"]) ".")).map
        (fun info => (info.Name, info.Params.map ParamInfo.view))
      = some ("GetUser",
          [{ Name := "ctx", Typ := "*gin.Context", Location := "context", SubParams := [] },
           { Name := "req", Typ := "struct\x7b\x7d", Location := "body", SubParams := [] }]) ∧
     (firstHandler (EnhancedCoordinator.AnalyzeAPI
        (singleFileEnv plainTables "main.go" scenarioAFile ["main.go"]) ".")).map
        (fun info => (generateParameters info).map Parameter.view) = some [] ∧
     (firstHandler (EnhancedCoordinator.AnalyzeAPI
        (singleFileEnv plainTables "main.go" scenarioAFile ["main.go"]) ".")).map
        (fun info => (generateRequestBody info).map (fun body => body.Description))
      = some (some "req data")) ∧
    (routeViews (EnhancedCoordinator.AnalyzeAPI
        (singleFileEnv plainTables "main.go" scenarioANamedFile ["main.go"]) ".")
      = some [{ Method := "GET", Path := "/users/\x7bid\x7d", Handler := "handler.GetUser",
                File := "main.go", Resolved := true }] ∧
     (firstHandler (EnhancedCoordinator.AnalyzeAPI
        (singleFileEnv plainTables "main.go" scenarioANamedFile ["main.go"]) ".")).map
        (fun info => (info.Name, info.Params.map ParamInfo.view))
      = some ("GetUser",
          [{ Name := "ctx", Typ := "*gin.Context", Location := "context", SubParams := [] },
           { Name := "req", Typ := "GetUserRequest", Location := "body",
             SubParams := ["ID"] }]) ∧
     (firstHandler (EnhancedCoordinator.AnalyzeAPI
        (singleFileEnv plainTables "main.go" scenarioANamedFile ["main.go"]) ".")).map
        (fun info => (generateParameters info).map Parameter.view)
      = some [{ Name := "ID", In := "path", Required := false,
                SchemaType := some "integer", SchemaFormat := some "int64" }]) := by
  decide!

/-- C4, as stated, fails: for a route registered with `router.HEAD` whose
handler `CreateUser` is not declared, the route is kept without handler
information, but the document holds the path with no operation under any
verb. -/
theorem unresolved_HEAD_route_not_stored :
    routeViews (EnhancedCoordinator.AnalyzeAPI
        (singleFileEnv plainTables "main.go" (scenarioBFile "HEAD") ["main.go"]) ".")
      = some [{ Method := "HEAD", Path := "/users", Handler := "CreateUser",
                File := "main.go", Resolved := false }] ∧
    ((EnhancedCoordinator.AnalyzeAPI
        (singleFileEnv plainTables "main.go" (scenarioBFile "HEAD") ["main.go"]) ".").toOption.map
        (fun desc => (Generate plainTables desc "Auto-Generated API" "1.0.0").Paths.map
          (fun entry => (entry.1, entry.2.entries.length)))) = some [("/users", 0)] := by
  decide!

/-- C4, amended: when the directory scan succeeds, `AnalyzeAPI` succeeds too
and keeps every route, in order, with its verb, path, handler text and file. A
route whose handler reference matches no declaration of its file has no
handler information, and the operation generated for it has no parameters and
no request body. The loop of `generatePaths` stores that operation under the
verb of the route when the verb is GET, POST, PUT, DELETE or PATCH, and leaves
the path item as it was for any other verb. For scenario B, this gives the
route POST `/users` without handler and one operation, under "post", without
parameters and without request body. -/
theorem unresolved_handler_route :
    (∀ (env : Env) (dir : String) (routes : List RouteInfo),
        AnalyzeDirectory env dir = .ok routes →
        ∃ desc, EnhancedCoordinator.AnalyzeAPI env dir = .ok desc ∧
          desc.Routes.map (fun rd => (rd.Method, rd.Path, rd.Handler, rd.File))
            = routes.map (fun r => (r.Method, r.Path, r.Handler, r.File)) ∧
          ∀ rd ∈ desc.Routes, matchesDeclaration env rd.File rd.Handler = false →
            rd.HandlerInfo = none ∧
            ∀ t : UnicodeTables,
              (routeToOperation t rd).Parameters = [] ∧
              (routeToOperation t rd).RequestBody = none ∧
              ∀ paths : GoMap PathItem,
                (rd.Method ∈ ["GET", "POST", "PUT", "DELETE", "PATCH"] →
                  ((generatePath t paths rd).find rd.Path).bind
                      (fun item => item.operation rd.Method)
                    = some (routeToOperation t rd)) ∧
                (rd.Method ∉ ["GET", "POST", "PUT", "DELETE", "PATCH"] →
                  (generatePath t paths rd).find rd.Path
                    = some ((paths.find rd.Path).getD emptyPathItem))) ∧
    (routeViews (EnhancedCoordinator.AnalyzeAPI
        (singleFileEnv plainTables "main.go" (scenarioBFile "POST") ["main.go"]) ".")
      = some [{ Method := "POST", Path := "/users", Handler := "CreateUser",
                File := "main.go", Resolved := false }] ∧
     generatedOperations plainTables (EnhancedCoordinator.AnalyzeAPI
        (singleFileEnv plainTables "main.go" (scenarioBFile "POST") ["main.go"]) ".")
      = some [{ Path := "/users", Verb := "post", Parameters := 0,
                HasRequestBody := false }]) := by
  refine ⟨?_, by decide!⟩
  intro env dir routes hroutes
  refine ⟨{ Routes := routes.map (describeRoute env) }, ?_, ?_, ?_⟩
  · simp [EnhancedCoordinator.AnalyzeAPI, hroutes]
  · simp [List.map_map, Function.comp_def, describeRoute]
  · intro rd hrd hmatch
    simp only [List.mem_map] at hrd
    obtain ⟨r, -, rfl⟩ := hrd
    have hnone : (describeRoute env r).HandlerInfo = none := describeRoute_unresolved env r hmatch
    refine ⟨hnone, fun t => ⟨?_, ?_, fun paths => ⟨?_, ?_⟩⟩⟩
    · simp [routeToOperation, hnone]
    · simp [routeToOperation, hnone]
    · intro hverb
      simp only [generatePath, GoMap.find_set, Option.bind_some]
      exact assignOperation_operation _ _ _ hverb
    · intro hverb
      simp only [generatePath, GoMap.find_set, assignOperation_other _ _ _ hverb]
      cases GoMap.find paths (describeRoute env r).Path <;> rfl

/-- C4, amended, at scenario B: the directory scan finds the one route, and
`CreateUser` matches no declaration of the file. -/
theorem unresolved_handler_route_witness :
    AnalyzeDirectory (singleFileEnv plainTables "main.go" (scenarioBFile "POST") ["main.go"]) "."
      = .ok [{ Method := "POST", Path := "/users", Handler := "CreateUser",
               HandlerType := "function", File := "main.go", Line := 7 }] ∧
    matchesDeclaration (singleFileEnv plainTables "main.go" (scenarioBFile "POST") ["main.go"])
      "main.go" "CreateUser" = false ∧
    ∃ desc, EnhancedCoordinator.AnalyzeAPI
        (singleFileEnv plainTables "main.go" (scenarioBFile "POST") ["main.go"]) "." = .ok desc ∧
      desc.Routes.map (fun rd => (rd.Method, rd.Path, rd.Handler, rd.File))
        = [("POST", "/users", "CreateUser", "main.go")] := by
  have hdir : AnalyzeDirectory
      (singleFileEnv plainTables "main.go" (scenarioBFile "POST") ["main.go"]) "."
      = .ok [{ Method := "POST", Path := "/users", Handler := "CreateUser",
               HandlerType := "function", File := "main.go", Line := 7 }] := by
    rfl
  obtain ⟨desc, h1, h2, -⟩ := unresolved_handler_route.1 _ "." _ hdir
  exact ⟨hdir, by decide!, desc, h1, h2⟩

/-! ## Visitors that stop at a match -/

/-- Doing nothing sets nothing. -/
theorem SetsAtStop.nil {σ : Type} (stop : Node → Bool) (h : Node → σ) :
    SetsAtStop stop h (fun s => s) [] := by
  intro s
  exact Or.inl ⟨rfl, rfl⟩

/-- Two transformers in a row, over the nodes of both. -/
theorem SetsAtStop.append {σ : Type} {stop : Node → Bool} {h : Node → σ} (F G H : σ → σ)
    {L M : List Node} (hH : ∀ s, H s = G (F s)) (hF : SetsAtStop stop h F L)
    (hG : SetsAtStop stop h G M) : SetsAtStop stop h H (L ++ M) := by
  intro s
  rw [hH]
  rcases hF s with ⟨hL, hs⟩ | ⟨m, hm, hstop, hs⟩
  · rcases hG s with ⟨hM, hs2⟩ | ⟨m, hm, hstop, hs2⟩
    · exact Or.inl ⟨by simp [List.any_append, hL, hM], by simp only [hs, hs2]⟩
    · exact Or.inr ⟨m, List.mem_append_right _ hm, hstop, by simp only [hs, hs2]⟩
  · rcases hG (h m) with ⟨-, hs2⟩ | ⟨m2, hm2, hstop2, hs2⟩
    · exact Or.inr ⟨m, List.mem_append_left _ hm, hstop, by simp only [hs, hs2]⟩
    · exact Or.inr ⟨m2, List.mem_append_right _ hm2, hstop2, by simp only [hs, hs2]⟩

/-- The visit of a node followed, unless the visitor stops there, by the visit
of what is below it. -/
theorem SetsAtStop.node {σ : Type} {stop : Node → Bool} {h : Node → σ}
    (f : Node → σ → Bool × σ)
    (hf : ∀ n s, f n s = if stop n then (false, h n) else (true, s))
    (n : Node) (L : List Node) (C : σ → σ)
    (hI : ∀ s, Inspect f n s = if (f n s).1 then C (f n s).2 else (f n s).2)
    (hC : SetsAtStop stop h C L) : SetsAtStop stop h (Inspect f n) (n :: L) := by
  intro s
  by_cases hn : stop n = true
  · refine Or.inr ⟨n, by simp, hn, ?_⟩
    rw [hI, hf]
    simp [hn]
  · have hn2 : stop n = false := by simpa using hn
    have hIs : Inspect f n s = C s := by
      rw [hI, hf]
      simp [hn2]
    rcases hC s with ⟨hL, hs⟩ | ⟨m, hm, hstop, hs⟩
    · exact Or.inl ⟨by simp [hn2, hL], by rw [hIs, hs]⟩
    · exact Or.inr ⟨m, List.mem_cons_of_mem _ hm, hstop, by rw [hIs, hs]⟩

mutual
/-- The walk of a visitor that stops at the nodes satisfying `stop`, setting
the state there and leaving it everywhere else: the state is left as it was
when no node of the tree satisfies `stop`, and set at one of those nodes
otherwise. -/
theorem Inspect_setsAtStop {σ : Type} {stop : Node → Bool} {h : Node → σ}
    (f : Node → σ → Bool × σ)
    (hf : ∀ n s, f n s = if stop n then (false, h n) else (true, s)) :
    ∀ n : Node, SetsAtStop stop h (Inspect f n) (subnodes n)
  | .file nm decls =>
      SetsAtStop.node f hf _ _ (InspectList f decls) (fun s => by simp [Inspect])
        (InspectList_setsAtStop f hf decls)
  | .ident nm =>
      SetsAtStop.node f hf _ _ (fun s => s) (fun s => by simp [Inspect])
        (SetsAtStop.nil stop h)
  | .basicLit k v =>
      SetsAtStop.node f hf _ _ (fun s => s) (fun s => by simp [Inspect])
        (SetsAtStop.nil stop h)
  | .selectorExpr x sel =>
      SetsAtStop.node f hf _ _ (Inspect f x) (fun s => by simp [Inspect])
        (Inspect_setsAtStop f hf x)
  | .callExpr l fn args =>
      SetsAtStop.node f hf _ _ (fun s => InspectList f args (Inspect f fn s))
        (fun s => by simp [Inspect])
        (SetsAtStop.append (Inspect f fn) (InspectList f args) _ (fun _ => rfl)
          (Inspect_setsAtStop f hf fn) (InspectList_setsAtStop f hf args))
  | .starExpr x =>
      SetsAtStop.node f hf _ _ (Inspect f x) (fun s => by simp [Inspect])
        (Inspect_setsAtStop f hf x)
  | .arrayType len elt =>
      SetsAtStop.node f hf _ _ (fun s => Inspect f elt (InspectOpt f len s))
        (fun s => by simp [Inspect])
        (SetsAtStop.append (InspectOpt f len) (Inspect f elt) _ (fun _ => rfl)
          (InspectOpt_setsAtStop f hf len) (Inspect_setsAtStop f hf elt))
  | .structType fields =>
      SetsAtStop.node f hf _ _ (InspectFieldsOpt f fields) (fun s => by simp [Inspect])
        (InspectFieldsOpt_setsAtStop f hf fields)
  | .funcLit t b =>
      SetsAtStop.node f hf _ _ (fun s => Inspect f b (Inspect f t s))
        (fun s => by simp [Inspect])
        (SetsAtStop.append (Inspect f t) (Inspect f b) _ (fun _ => rfl)
          (Inspect_setsAtStop f hf t) (Inspect_setsAtStop f hf b))
  | .funcDecl recv nm ps rs body =>
      SetsAtStop.node f hf _ _
        (fun s => InspectOpt f body
          (InspectFieldsOpt f rs (InspectFieldsOpt f ps (InspectFieldsOpt f recv s))))
        (fun s => by simp [Inspect])
        (SetsAtStop.append (InspectFieldsOpt f recv)
          (fun s => InspectOpt f body (InspectFieldsOpt f rs (InspectFieldsOpt f ps s))) _
          (fun _ => rfl) (InspectFieldsOpt_setsAtStop f hf recv)
          (SetsAtStop.append (InspectFieldsOpt f ps)
            (fun s => InspectOpt f body (InspectFieldsOpt f rs s)) _ (fun _ => rfl)
            (InspectFieldsOpt_setsAtStop f hf ps)
            (SetsAtStop.append (InspectFieldsOpt f rs) (InspectOpt f body) _ (fun _ => rfl)
              (InspectFieldsOpt_setsAtStop f hf rs) (InspectOpt_setsAtStop f hf body))))
  | .genDecl tok specs =>
      SetsAtStop.node f hf _ _ (InspectList f specs) (fun s => by simp [Inspect])
        (InspectList_setsAtStop f hf specs)
  | .typeSpec nm t =>
      SetsAtStop.node f hf _ _ (Inspect f t) (fun s => by simp [Inspect])
        (Inspect_setsAtStop f hf t)
  | .other cs =>
      SetsAtStop.node f hf _ _ (InspectList f cs) (fun s => by simp [Inspect])
        (InspectList_setsAtStop f hf cs)
/-- The list form of `Inspect_setsAtStop`. -/
theorem InspectList_setsAtStop {σ : Type} {stop : Node → Bool} {h : Node → σ}
    (f : Node → σ → Bool × σ)
    (hf : ∀ n s, f n s = if stop n then (false, h n) else (true, s)) :
    ∀ l : List Node, SetsAtStop stop h (InspectList f l) (subnodesList l)
  | [] => SetsAtStop.nil stop h
  | n :: ns =>
      SetsAtStop.append (Inspect f n) (InspectList f ns) _ (fun _ => by rw [InspectList])
        (Inspect_setsAtStop f hf n) (InspectList_setsAtStop f hf ns)
/-- The optional form of `Inspect_setsAtStop`. -/
theorem InspectOpt_setsAtStop {σ : Type} {stop : Node → Bool} {h : Node → σ}
    (f : Node → σ → Bool × σ)
    (hf : ∀ n s, f n s = if stop n then (false, h n) else (true, s)) :
    ∀ o : Option Node, SetsAtStop stop h (InspectOpt f o) (subnodesOpt o)
  | none => SetsAtStop.nil stop h
  | some n => Inspect_setsAtStop f hf n
/-- The field form of `Inspect_setsAtStop`. -/
theorem InspectField_setsAtStop {σ : Type} {stop : Node → Bool} {h : Node → σ}
    (f : Node → σ → Bool × σ)
    (hf : ∀ n s, f n s = if stop n then (false, h n) else (true, s)) :
    ∀ fd : Field, SetsAtStop stop h (InspectField f fd) (subnodesField fd)
  | .mk _ t _ => Inspect_setsAtStop f hf t
/-- The field list form of `Inspect_setsAtStop`. -/
theorem InspectFields_setsAtStop {σ : Type} {stop : Node → Bool} {h : Node → σ}
    (f : Node → σ → Bool × σ)
    (hf : ∀ n s, f n s = if stop n then (false, h n) else (true, s)) :
    ∀ l : List Field, SetsAtStop stop h (InspectFields f l) (subnodesFields l)
  | [] => SetsAtStop.nil stop h
  | n :: ns =>
      SetsAtStop.append (InspectField f n) (InspectFields f ns) _
        (fun _ => by rw [InspectFields])
        (InspectField_setsAtStop f hf n) (InspectFields_setsAtStop f hf ns)
/-- The optional field list form of `Inspect_setsAtStop`. -/
theorem InspectFieldsOpt_setsAtStop {σ : Type} {stop : Node → Bool} {h : Node → σ}
    (f : Node → σ → Bool × σ)
    (hf : ∀ n s, f n s = if stop n then (false, h n) else (true, s)) :
    ∀ o : Option (List Field), SetsAtStop stop h (InspectFieldsOpt f o) (subnodesFieldsOpt o)
  | none => SetsAtStop.nil stop h
  | some l => InspectFields_setsAtStop f hf l
end

mutual
/-- A property of the state that every visit keeps is kept by the walk. -/
theorem Inspect_invariant {σ : Type} (f : Node → σ → Bool × σ) (P : σ → Prop)
    (hP : ∀ n s, P s → P (f n s).2) : ∀ (n : Node) (s : σ), P s → P (Inspect f n s)
  | .file nm decls, s, hs => by
      simp only [Inspect]
      split
      · exact InspectList_invariant f P hP decls _ (hP _ s hs)
      · exact hP _ s hs
  | .ident nm, s, hs => by
      simp only [Inspect]
      exact hP _ s hs
  | .basicLit k v, s, hs => by
      simp only [Inspect]
      exact hP _ s hs
  | .selectorExpr x sel, s, hs => by
      simp only [Inspect]
      split
      · exact Inspect_invariant f P hP x _ (hP _ s hs)
      · exact hP _ s hs
  | .callExpr l fn args, s, hs => by
      simp only [Inspect]
      split
      · exact InspectList_invariant f P hP args _
          (Inspect_invariant f P hP fn _ (hP _ s hs))
      · exact hP _ s hs
  | .starExpr x, s, hs => by
      simp only [Inspect]
      split
      · exact Inspect_invariant f P hP x _ (hP _ s hs)
      · exact hP _ s hs
  | .arrayType len elt, s, hs => by
      simp only [Inspect]
      split
      · exact Inspect_invariant f P hP elt _
          (InspectOpt_invariant f P hP len _ (hP _ s hs))
      · exact hP _ s hs
  | .structType fields, s, hs => by
      simp only [Inspect]
      split
      · exact InspectFieldsOpt_invariant f P hP fields _ (hP _ s hs)
      · exact hP _ s hs
  | .funcLit t b, s, hs => by
      simp only [Inspect]
      split
      · exact Inspect_invariant f P hP b _ (Inspect_invariant f P hP t _ (hP _ s hs))
      · exact hP _ s hs
  | .funcDecl recv nm ps rs body, s, hs => by
      simp only [Inspect]
      split
      · exact InspectOpt_invariant f P hP body _
          (InspectFieldsOpt_invariant f P hP rs _
            (InspectFieldsOpt_invariant f P hP ps _
              (InspectFieldsOpt_invariant f P hP recv _ (hP _ s hs))))
      · exact hP _ s hs
  | .genDecl tok specs, s, hs => by
      simp only [Inspect]
      split
      · exact InspectList_invariant f P hP specs _ (hP _ s hs)
      · exact hP _ s hs
  | .typeSpec nm t, s, hs => by
      simp only [Inspect]
      split
      · exact Inspect_invariant f P hP t _ (hP _ s hs)
      · exact hP _ s hs
  | .other cs, s, hs => by
      simp only [Inspect]
      split
      · exact InspectList_invariant f P hP cs _ (hP _ s hs)
      · exact hP _ s hs
/-- The list form of `Inspect_invariant`. -/
theorem InspectList_invariant {σ : Type} (f : Node → σ → Bool × σ) (P : σ → Prop)
    (hP : ∀ n s, P s → P (f n s).2) : ∀ (l : List Node) (s : σ), P s → P (InspectList f l s)
  | [], s, hs => by simpa only [InspectList] using hs
  | n :: ns, s, hs => by
      simp only [InspectList]
      exact InspectList_invariant f P hP ns _ (Inspect_invariant f P hP n s hs)
/-- The optional form of `Inspect_invariant`. -/
theorem InspectOpt_invariant {σ : Type} (f : Node → σ → Bool × σ) (P : σ → Prop)
    (hP : ∀ n s, P s → P (f n s).2) : ∀ (o : Option Node) (s : σ), P s → P (InspectOpt f o s)
  | none, s, hs => by simpa only [InspectOpt] using hs
  | some n, s, hs => by
      simp only [InspectOpt]
      exact Inspect_invariant f P hP n s hs
/-- The field form of `Inspect_invariant`. -/
theorem InspectField_invariant {σ : Type} (f : Node → σ → Bool × σ) (P : σ → Prop)
    (hP : ∀ n s, P s → P (f n s).2) : ∀ (fd : Field) (s : σ), P s → P (InspectField f fd s)
  | .mk _ t _, s, hs => by
      simp only [InspectField]
      exact Inspect_invariant f P hP t s hs
/-- The field list form of `Inspect_invariant`. -/
theorem InspectFields_invariant {σ : Type} (f : Node → σ → Bool × σ) (P : σ → Prop)
    (hP : ∀ n s, P s → P (f n s).2) :
    ∀ (l : List Field) (s : σ), P s → P (InspectFields f l s)
  | [], s, hs => by simpa only [InspectFields] using hs
  | n :: ns, s, hs => by
      simp only [InspectFields]
      exact InspectFields_invariant f P hP ns _ (InspectField_invariant f P hP n s hs)
/-- The optional field list form of `Inspect_invariant`. -/
theorem InspectFieldsOpt_invariant {σ : Type} (f : Node → σ → Bool × σ) (P : σ → Prop)
    (hP : ∀ n s, P s → P (f n s).2) :
    ∀ (o : Option (List Field)) (s : σ), P s → P (InspectFieldsOpt f o s)
  | none, s, hs => by simpa only [InspectFieldsOpt] using hs
  | some l, s, hs => by
      simp only [InspectFieldsOpt]
      exact InspectFields_invariant f P hP l s hs
end

/-! ## The handler resolver -/

/-- The visitor of `AnalyzeFunction` stops at the declarations of the name and
sets the result there. -/
theorem functionVisitor_eq (packageName filePath functionName : String) (n : Node)
    (s : Option HandlerInfo) :
    functionVisitor packageName filePath functionName n s
      = if isFuncDeclNamed functionName n then (false, declInfo packageName filePath n)
        else (true, s) := by
  cases n <;> simp [functionVisitor, isFuncDeclNamed, declInfo]

/-- The visitor of `AnalyzeMethod` stops at the declarations of the name on
the struct and sets the result there. -/
theorem methodVisitor_eq (packageName filePath structName methodName : String) (n : Node)
    (s : Option HandlerInfo) :
    methodVisitor packageName filePath structName methodName n s
      = if isMethodDeclOf structName methodName n then (false, declInfo packageName filePath n)
        else (true, s) := by
  cases n <;> simp [methodVisitor, isMethodDeclOf, declInfo]

/-- What `AnalyzeFunction` returns on a file that parses: nothing when the
file has no function declaration of the name, and what
`analyzeFunctionDeclaration` makes of one of them otherwise. -/
theorem AnalyzeFunction_result (env : Env) (packageName filePath functionName : String)
    (file : Node) (hfile : env.parseFile filePath = .ok file) :
    ((subnodes file).any (isFuncDeclNamed functionName) = false ∧
      HandlerAnalyzer.AnalyzeFunction env packageName filePath functionName = .ok none) ∨
    (∃ m ∈ subnodes file, isFuncDeclNamed functionName m = true ∧
      HandlerAnalyzer.AnalyzeFunction env packageName filePath functionName
        = .ok (declInfo packageName filePath m)) := by
  have h := Inspect_setsAtStop (functionVisitor packageName filePath functionName)
    (functionVisitor_eq packageName filePath functionName) file none
  simp only [HandlerAnalyzer.AnalyzeFunction, hfile]
  rcases h with ⟨h1, h2⟩ | ⟨m, hm, hstop, h2⟩
  · exact Or.inl ⟨h1, by rw [h2]⟩
  · exact Or.inr ⟨m, hm, hstop, by rw [h2]⟩

/-- What `AnalyzeMethod` returns on a file that parses: nothing when the file
has no declaration of the name on the struct, and what
`analyzeFunctionDeclaration` makes of one of them otherwise. -/
theorem AnalyzeMethod_result (env : Env) (packageName filePath structName methodName : String)
    (file : Node) (hfile : env.parseFile filePath = .ok file) :
    ((subnodes file).any (isMethodDeclOf structName methodName) = false ∧
      HandlerAnalyzer.AnalyzeMethod env packageName filePath structName methodName
        = .ok none) ∨
    (∃ m ∈ subnodes file, isMethodDeclOf structName methodName m = true ∧
      HandlerAnalyzer.AnalyzeMethod env packageName filePath structName methodName
        = .ok (declInfo packageName filePath m)) := by
  have h := Inspect_setsAtStop (methodVisitor packageName filePath structName methodName)
    (methodVisitor_eq packageName filePath structName methodName) file none
  simp only [HandlerAnalyzer.AnalyzeMethod, hfile]
  rcases h with ⟨h1, h2⟩ | ⟨m, hm, hstop, h2⟩
  · exact Or.inl ⟨h1, by rw [h2]⟩
  · exact Or.inr ⟨m, hm, hstop, by rw [h2]⟩

/-- Struct expansion keeps name and type text of the parameter. -/
theorem extractStructFieldsInfo_name (t : UnicodeTables) (param : ParamInfo)
    (fields : Option (List Field)) :
    (extractStructFieldsInfo t param fields).Name = param.Name ∧
    (extractStructFieldsInfo t param fields).Typ = param.Typ := by
  cases fields <;> exact ⟨rfl, rfl⟩

/-- The visitor of `analyzeStructParameter` keeps name and type text of the
parameter. -/
theorem structVisitor_name (t : UnicodeTables) (structName : String) (n : Node)
    (param : ParamInfo) :
    (structVisitor t structName n param).2.Name = param.Name ∧
    (structVisitor t structName n param).2.Typ = param.Typ := by
  unfold structVisitor
  split
  · split
    · split
      · exact extractStructFieldsInfo_name t param _
      · exact ⟨rfl, rfl⟩
    · exact ⟨rfl, rfl⟩
  · exact ⟨rfl, rfl⟩

/-- `analyzeStructParameter` keeps name and type text of the parameter. -/
theorem analyzeStructParameter_name (env : Env) (param : ParamInfo) (filePath : String) :
    (analyzeStructParameter env param filePath).Name = param.Name ∧
    (analyzeStructParameter env param filePath).Typ = param.Typ := by
  unfold analyzeStructParameter
  split
  · exact ⟨rfl, rfl⟩
  · rename_i file hfile
    exact Inspect_invariant (structVisitor env.unicode (TrimPrefix param.Typ "*"))
      (fun s : ParamInfo => s.Name = param.Name ∧ s.Typ = param.Typ)
      (fun n s hs =>
        have h := structVisitor_name env.unicode (TrimPrefix param.Typ "*") n s
        ⟨h.1.trans hs.1, h.2.trans hs.2⟩)
      file param ⟨rfl, rfl⟩

/-- `inferBasicParameterInfo` keeps name and type text of the parameter. -/
theorem inferBasicParameterInfo_name (t : UnicodeTables) (param : ParamInfo) :
    (inferBasicParameterInfo t param).Name = param.Name ∧
    (inferBasicParameterInfo t param).Typ = param.Typ := by
  unfold inferBasicParameterInfo
  simp only
  split
  · exact ⟨rfl, rfl⟩
  · split <;> exact ⟨rfl, rfl⟩

/-- `enhanceParameterInfo` keeps name and type text of the parameter. -/
theorem enhanceParameterInfo_name (env : Env) (param : ParamInfo) (filePath : String) :
    (enhanceParameterInfo env param filePath).Name = param.Name ∧
    (enhanceParameterInfo env param filePath).Typ = param.Typ := by
  have h1 : ∀ p : ParamInfo,
      (if isBasicType p.Typ then inferBasicParameterInfo env.unicode p else p).Name = p.Name ∧
      (if isBasicType p.Typ then inferBasicParameterInfo env.unicode p else p).Typ = p.Typ := by
    intro p
    split
    · exact inferBasicParameterInfo_name env.unicode p
    · exact ⟨rfl, rfl⟩
  unfold enhanceParameterInfo
  simp only
  split
  · have h2 := analyzeStructParameter_name env param filePath
    have h3 := h1 (analyzeStructParameter env param filePath)
    exact ⟨h3.1.trans h2.1, h3.2.trans h2.2⟩
  · exact h1 param

/-- `enhanceHandlerInfo` keeps the name of the handler and the names of its
parameters. -/
theorem enhanceHandlerInfo_names (env : Env) (info : HandlerInfo) (filePath : String) :
    (enhanceHandlerInfo env info filePath).Name = info.Name ∧
    (enhanceHandlerInfo env info filePath).Params.map ParamInfo.Name
      = info.Params.map ParamInfo.Name := by
  have hmap : (info.Params.map (fun param => enhanceParameterInfo env param filePath)).map
      ParamInfo.Name = info.Params.map ParamInfo.Name := by
    rw [List.map_map]
    apply List.map_congr_left
    intro p _
    exact (enhanceParameterInfo_name env p filePath).1
  unfold enhanceHandlerInfo
  simp only
  split
  · exact ⟨rfl, hmap⟩
  · exact ⟨rfl, hmap⟩

/-- The entries `analyzeParameter` makes of a field carry its declared names,
or the placeholder. -/
theorem analyzeParameter_names (param : Field) :
    (analyzeParameter param).map ParamInfo.Name = declaredNames param := by
  have h : getParamNames param = declaredNames param := by
    unfold getParamNames declaredNames
    cases hn : param.names <;> simp
  simp only [analyzeParameter, List.map_map, ← h]
  exact List.map_id _

/-- The parameters `analyzeFunctionDeclaration` lists carry the declared names
in declaration order. -/
theorem analyzeFunctionDeclaration_names (packageName filePath name : String)
    (params results : Option (List Field)) :
    (analyzeFunctionDeclaration packageName filePath name params results).Params.map
        ParamInfo.Name
      = ((fieldsOf params).map declaredNames).flatten := by
  simp only [analyzeFunctionDeclaration]
  induction fieldsOf params with
  | nil => rfl
  | cons fd fds ih =>
      simp only [List.map_cons, List.flatten_cons, List.map_append, ih,
        analyzeParameter_names]

/-- The number of declared names of a field, the placeholder counted. -/
theorem declaredNames_length (field : Field) :
    (declaredNames field).length = max 1 field.names.length := by
  unfold declaredNames
  cases hn : field.names with
  | nil => simp
  | cons a as => simp

/-- The number of names of a list of fields. -/
theorem flatten_declaredNames_length (fields : List Field) :
    ((fields.map declaredNames).flatten).length
      = (fields.map (fun field => max 1 field.names.length)).sum := by
  induction fields with
  | nil => rfl
  | cons fd fds ih =>
      simp only [List.map_cons, List.flatten_cons, List.length_append, List.sum_cons, ih,
        declaredNames_length]

/-- Cutting a leading star gives `S` exactly for the texts `S` and `*S`, when
`S` itself has no leading star. -/
theorem TrimPrefix_star_eq_iff (x S : String) (hS : HasPrefix S "*" = false) :
    TrimPrefix x "*" = S ↔ x = S ∨ x = "*" ++ S := by
  obtain ⟨xd⟩ := x
  obtain ⟨sd⟩ := S
  have hstar : ("*" : String).data = ['*'] := rfl
  simp only [HasPrefix, hstar] at hS
  simp only [TrimPrefix, hstar, String.ext_iff, String.data_append, List.length_singleton]
  cases xd with
  | nil => simp
  | cons c cs =>
      by_cases hc : c = '*'
      · subst hc
        have : ['*'].isPrefixOf ('*' :: cs) = true := by simp [List.isPrefixOf]
        simp only [this, if_true, List.drop_one, List.tail_cons, List.singleton_append,
          List.cons.injEq, true_and]
        constructor
        · intro h; exact Or.inr h
        · rintro (h | h)
          · rw [← h] at hS
            simp [List.isPrefixOf] at hS
          · exact h
      · have : ['*'].isPrefixOf (c :: cs) = false := by simp [List.isPrefixOf, Ne.symm hc]
        simp only [this, Bool.false_eq_true, if_false, List.singleton_append]
        constructor
        · intro h; exact Or.inl h
        · rintro (h | h)
          · exact h
          · simp only [List.cons.injEq] at h
            exact absurd h.1 hc

/-- The receiver test of `isMethodOfStruct` in terms of the type text of the
receiver. -/
theorem isMethodOfStruct_iff (recv : Option (List Field)) (S : String)
    (hS : HasPrefix S "*" = false) :
    isMethodOfStruct recv S = true ↔
      ∃ r ∈ fieldsOf recv, getTypeName r.typ = S ∨ getTypeName r.typ = "*" ++ S := by
  cases recv with
  | none => simp [isMethodOfStruct, fieldsOf]
  | some list =>
      simp only [isMethodOfStruct, fieldsOf, List.any_eq_true, decide_eq_true_eq,
        TrimPrefix_star_eq_iff _ S hS]

/-- A node that is a declaration named `M` on the struct, spelled out. -/
theorem isMethodDeclOf_iff (S M : String) (m : Node) :
    isMethodDeclOf S M m = true ↔
      ∃ recv params results body,
        m = .funcDecl recv M params results body ∧ isMethodOfStruct recv S = true := by
  cases m <;> simp [isMethodDeclOf]
  rename_i recv name params results body
  constructor
  · rintro ⟨rfl, h⟩
    exact ⟨recv, ⟨rfl, rfl⟩, h⟩
  · rintro ⟨recv2, ⟨rfl, rfl⟩, h⟩
    exact ⟨rfl, h⟩

/-- A node that is a function declaration named `f`, spelled out. -/
theorem isFuncDeclNamed_iff (f : String) (m : Node) :
    isFuncDeclNamed f m = true ↔
      ∃ recv params results body, m = .funcDecl recv f params results body := by
  cases m <;> simp [isFuncDeclNamed]

/-! ## Claims on declarations and their parameters -/

/-- C11: on a file that parses and has exactly one function declaration named
`f`, `AnalyzeFunction` for `f` returns a handler description whose parameters
carry, in declaration order, the declared names of each parameter field, with
the placeholder "anonymous" for a field without name; their number is the sum
over the fields of the maximum of 1 and the number of names. The same holds
after the enhancement of the description. -/
theorem AnalyzeFunction_single_declaration (env : Env)
    (packageName filePath functionName : String) (file : Node)
    (recv : Option (List Field)) (name : String) (params results : Option (List Field))
    (body : Option Node) (hfile : env.parseFile filePath = .ok file)
    (hone : (subnodes file).filter (isFuncDeclNamed functionName)
      = [.funcDecl recv name params results body]) :
    (∃ info, HandlerAnalyzer.AnalyzeFunction env packageName filePath functionName
        = .ok (some info) ∧
      info.Params.map ParamInfo.Name = ((fieldsOf params).map declaredNames).flatten ∧
      info.Params.length
        = ((fieldsOf params).map (fun field => max 1 field.names.length)).sum) ∧
    (∃ info, EnhancedHandlerAnalyzer.AnalyzeFunction env packageName filePath functionName
        = .ok (some info) ∧
      info.Params.map ParamInfo.Name = ((fieldsOf params).map declaredNames).flatten ∧
      info.Params.length
        = ((fieldsOf params).map (fun field => max 1 field.names.length)).sum) := by
  have hbase : HandlerAnalyzer.AnalyzeFunction env packageName filePath functionName
      = .ok (some (analyzeFunctionDeclaration packageName filePath name params results)) := by
    rcases AnalyzeFunction_result env packageName filePath functionName file hfile with
      ⟨hnone, -⟩ | ⟨m, hm, hstop, hres⟩
    · have hmem : Node.funcDecl recv name params results body
          ∈ (subnodes file).filter (isFuncDeclNamed functionName) := by
        rw [hone]; simp
      rw [List.mem_filter] at hmem
      have : (subnodes file).any (isFuncDeclNamed functionName) = true :=
        List.any_eq_true.mpr ⟨_, hmem.1, hmem.2⟩
      rw [hnone] at this
      exact absurd this (by simp)
    · have hmem : m ∈ (subnodes file).filter (isFuncDeclNamed functionName) :=
        List.mem_filter.mpr ⟨hm, hstop⟩
      rw [hone, List.mem_singleton] at hmem
      rw [hres, hmem]
      rfl
  have hnames := analyzeFunctionDeclaration_names packageName filePath name params results
  have hlen : ∀ info : HandlerInfo,
      info.Params.map ParamInfo.Name = ((fieldsOf params).map declaredNames).flatten →
      info.Params.length
        = ((fieldsOf params).map (fun field => max 1 field.names.length)).sum := by
    intro info h
    rw [← flatten_declaredNames_length, ← h, List.length_map]
  refine ⟨⟨_, hbase, hnames, hlen _ hnames⟩, ?_⟩
  have henh := enhanceHandlerInfo_names env
    (analyzeFunctionDeclaration packageName filePath name params results) filePath
  refine ⟨enhanceHandlerInfo env
    (analyzeFunctionDeclaration packageName filePath name params results) filePath, ?_, ?_, ?_⟩
  · simp only [EnhancedHandlerAnalyzer.AnalyzeFunction, hbase]
  · rw [henh.2, hnames]
  · exact hlen _ (by rw [henh.2, hnames])

/-- C11 at a function with three unnamed parameters: three entries, each the
placeholder; and at a function with two names in one field and two fields of
one name: four entries, the declared names in order. -/
theorem AnalyzeFunction_single_declaration_witness :
    (∃ info, HandlerAnalyzer.AnalyzeFunction
        (singleFileEnv plainTables "main.go" unnamedParamFile ["main.go"]) "main" "main.go"
        "Search" = .ok (some info) ∧
      info.Params.map ParamInfo.Name = ["anonymous", "anonymous", "anonymous"] ∧
      info.Params.length = 3) ∧
    (∃ info, EnhancedHandlerAnalyzer.AnalyzeFunction
        (singleFileEnv plainTables "main.go" unnamedParamFile ["main.go"]) "main" "main.go"
        "Between" = .ok (some info) ∧
      info.Params.map ParamInfo.Name = ["c", "from", "to", "verbose"] ∧
      info.Params.length = 4) :=
  ⟨(AnalyzeFunction_single_declaration
      (singleFileEnv plainTables "main.go" unnamedParamFile ["main.go"]) "main" "main.go"
      "Search" unnamedParamFile none "Search"
      (some [.mk [] (.starExpr (.selectorExpr (.ident "gin") "Context")) none,
             .mk [] (.ident "int") none,
             .mk [] (.ident "string") none])
      none (some (.other [])) rfl rfl).1,
    (AnalyzeFunction_single_declaration
      (singleFileEnv plainTables "main.go" unnamedParamFile ["main.go"]) "main" "main.go"
      "Between" unnamedParamFile none "Between"
      (some [.mk ["c"] (.starExpr (.selectorExpr (.ident "gin") "Context")) none,
             .mk ["from", "to"] (.ident "int") none,
             .mk ["verbose"] (.ident "bool") none])
      none (some (.other [])) rfl rfl).2⟩

/-- C16: on a file that parses, and for a struct name `S` without leading
star, `AnalyzeMethod` returns a handler description exactly when the file has
a function declaration named `M` with a receiver whose type text is `S` or
`*S`, and the description it returns is that of such a declaration; the
enhanced analyzer returns one in the same cases. A declaration without receiver
never passes the receiver test, a receiver `S` and a receiver `*S` both pass
it, and a receiver `*T` for another name `T` does not. -/
theorem AnalyzeMethod_iff_declaresMethod :
    (∀ (env : Env) (packageName filePath S M : String) (file : Node),
      env.parseFile filePath = .ok file → HasPrefix S "*" = false →
      ∃ result, HandlerAnalyzer.AnalyzeMethod env packageName filePath S M = .ok result ∧
        (result.isSome = true ↔ declaresMethod file S M) ∧
        (∀ info, result = some info →
          ∃ recv params results body,
            Node.funcDecl recv M params results body ∈ subnodes file ∧
            (∃ r ∈ fieldsOf recv, getTypeName r.typ = S ∨ getTypeName r.typ = "*" ++ S) ∧
            info = analyzeFunctionDeclaration packageName filePath M params results) ∧
        ∃ enhanced, EnhancedHandlerAnalyzer.AnalyzeMethod env packageName filePath S M
            = .ok enhanced ∧ enhanced.isSome = result.isSome) ∧
    (∀ S : String, isMethodOfStruct none S = false) ∧
    (∀ (S : String) (names : List String) (tag : Option String), HasPrefix S "*" = false →
      isMethodOfStruct (some [.mk names (.ident S) tag]) S = true ∧
      isMethodOfStruct (some [.mk names (.starExpr (.ident S)) tag]) S = true) ∧
    (∀ (S T : String) (names : List String) (tag : Option String), HasPrefix S "*" = false →
      T ≠ S → isMethodOfStruct (some [.mk names (.starExpr (.ident T)) tag]) S = false) := by
  refine ⟨?_, fun _ => rfl, ?_, ?_⟩
  · intro env packageName filePath S M file hfile hS
    have hdecl : ∀ m : Node, (m ∈ subnodes file ∧ isMethodDeclOf S M m = true) ↔
        ∃ recv params results body, m = .funcDecl recv M params results body ∧
          Node.funcDecl recv M params results body ∈ subnodes file ∧
          ∃ r ∈ fieldsOf recv, getTypeName r.typ = S ∨ getTypeName r.typ = "*" ++ S := by
      intro m
      rw [isMethodDeclOf_iff]
      constructor
      · rintro ⟨hm, recv, params, results, body, rfl, hrecv⟩
        exact ⟨recv, params, results, body, rfl, hm, (isMethodOfStruct_iff recv S hS).mp hrecv⟩
      · rintro ⟨recv, params, results, body, rfl, hm, hrecv⟩
        exact ⟨hm, recv, params, results, body, rfl, (isMethodOfStruct_iff recv S hS).mpr hrecv⟩
    rcases AnalyzeMethod_result env packageName filePath S M file hfile with
      ⟨hnone, hres⟩ | ⟨m, hm, hstop, hres⟩
    · refine ⟨none, hres, ?_, ?_, none, ?_, rfl⟩
      · simp only [Option.isSome_none, Bool.false_eq_true, false_iff]
        rintro ⟨recv, params, results, body, hmem, hrecv⟩
        have h1 := (hdecl _).mpr ⟨recv, params, results, body, rfl, hmem, hrecv⟩
        have : (subnodes file).any (isMethodDeclOf S M) = true :=
          List.any_eq_true.mpr ⟨_, h1.1, h1.2⟩
        rw [hnone] at this
        exact absurd this (by simp)
      · intro info h
        exact absurd h (by simp)
      · simp only [EnhancedHandlerAnalyzer.AnalyzeMethod, hres]
    · obtain ⟨recv, params, results, body, rfl, hmem, hrecv⟩ := (hdecl m).mp ⟨hm, hstop⟩
      refine ⟨some (analyzeFunctionDeclaration packageName filePath M params results), hres,
        ?_, ?_, some (enhanceHandlerInfo env
          (analyzeFunctionDeclaration packageName filePath M params results) filePath), ?_, rfl⟩
      · simp only [Option.isSome_some, true_iff]
        exact ⟨recv, params, results, body, hmem, hrecv⟩
      · intro info h
        exact ⟨recv, params, results, body, hmem, hrecv, (Option.some.inj h).symm⟩
      · simp only [EnhancedHandlerAnalyzer.AnalyzeMethod, hres, declInfo]
  · intro S names tag hS
    constructor
    · exact (isMethodOfStruct_iff _ S hS).mpr
        ⟨.mk names (.ident S) tag, by simp [fieldsOf], Or.inl rfl⟩
    · exact (isMethodOfStruct_iff _ S hS).mpr
        ⟨.mk names (.starExpr (.ident S)) tag, by simp [fieldsOf], Or.inr rfl⟩
  · intro S T names tag hS hT
    cases hres : isMethodOfStruct (some [.mk names (.starExpr (.ident T)) tag]) S with
    | false => rfl
    | true =>
        exfalso
        obtain ⟨r, hr, h⟩ := (isMethodOfStruct_iff _ S hS).mp hres
        simp only [fieldsOf, List.mem_singleton] at hr
        subst hr
        simp only [Field.typ, getTypeName] at h
        rcases h with h | h
        · rw [← h] at hS
          revert hS
          simp [HasPrefix, String.data_append, List.isPrefixOf]
        · apply hT
          apply String.ext
          have := congrArg String.data h
          simpa [String.data_append] using this

/-- C16 at the file of the test: `GetUser` is declared on `*UserHandler`, so
it is found for the struct `UserHandler`; `CreateUser` is declared without
receiver, so it is not. -/
theorem AnalyzeMethod_iff_declaresMethod_witness :
    (∃ result, HandlerAnalyzer.AnalyzeMethod
        (singleFileEnv plainTables "main.go" ginTestFile ["main.go"]) "main" "main.go"
        "UserHandler" "GetUser" = .ok result ∧
      (result.isSome = true ↔ declaresMethod ginTestFile "UserHandler" "GetUser")) ∧
    (HandlerAnalyzer.AnalyzeMethod
        (singleFileEnv plainTables "main.go" ginTestFile ["main.go"]) "main" "main.go"
        "UserHandler" "GetUser").toOption.map (fun r => r.map (fun i => i.Name))
      = some (some "GetUser") ∧
    (HandlerAnalyzer.AnalyzeMethod
        (singleFileEnv plainTables "main.go" ginTestFile ["main.go"]) "main" "main.go"
        "UserHandler" "CreateUser").toOption.map (fun r => r.map (fun i => i.Name))
      = some none := by
  obtain ⟨result, h1, h2, -⟩ := AnalyzeMethod_iff_declaresMethod.1
    (singleFileEnv plainTables "main.go" ginTestFile ["main.go"]) "main" "main.go"
    "UserHandler" "GetUser" ginTestFile rfl (by decide)
  exact ⟨⟨result, h1, h2⟩, by decide!, by decide!⟩

/-- A handler reference that matches no declaration of a file that parses is
resolved to nothing, without error. -/
theorem analyzeHandlerEnhanced_unmatched (env : Env) (handlerName filePath : String)
    (file : Node) (hfile : env.parseFile filePath = .ok file)
    (h : matchesDeclaration env filePath handlerName = false) :
    analyzeHandlerEnhanced env handlerName filePath = .ok none := by
  unfold matchesDeclaration at h
  rw [hfile] at h
  simp only at h
  unfold analyzeHandlerEnhanced
  split at h
  · rename_i functionName hsplit
    simp [hsplit, AnalyzeFunction_none env _ _ functionName file hfile h]
  · rename_i handlerVar methodName hsplit
    simp [hsplit, AnalyzeMethod_none env _ _ _ methodName file hfile h]
  · simp

/-- A handler reference of three or more parts is resolved to nothing, without
error. -/
theorem analyzeHandlerEnhanced_long (env : Env) (handlerName filePath : String)
    (h : 3 ≤ (Split handlerName '.').length) :
    analyzeHandlerEnhanced env handlerName filePath = .ok none := by
  unfold analyzeHandlerEnhanced
  split
  · rename_i functionName hsplit
    rw [hsplit] at h
    simp at h
  · rename_i handlerVar methodName hsplit
    rw [hsplit] at h
    simp at h
  · rfl

/-- C17: on a file that parses, `analyzeHandlerEnhanced` returns no handler
description and no error when the handler reference has three or more parts
between dots, and also when it has one or two parts and matches no declaration
of the file. -/
theorem analyzeHandlerEnhanced_no_handler (env : Env) (handlerName filePath : String)
    (file : Node) (hfile : env.parseFile filePath = .ok file) :
    (3 ≤ (Split handlerName '.').length →
      analyzeHandlerEnhanced env handlerName filePath = .ok none) ∧
    ((Split handlerName '.').length ≤ 2 →
      matchesDeclaration env filePath handlerName = false →
      analyzeHandlerEnhanced env handlerName filePath = .ok none) :=
  ⟨analyzeHandlerEnhanced_long env handlerName filePath,
    fun _ h => analyzeHandlerEnhanced_unmatched env handlerName filePath file hfile h⟩

/-- C17 at the file of the test: a reference of three parts, a function that
is not declared, and a method that is declared on no `UserHandler`. -/
theorem analyzeHandlerEnhanced_no_handler_witness :
    analyzeHandlerEnhanced (singleFileEnv plainTables "main.go" ginTestFile ["main.go"])
      "api.handler.GetUser" "main.go" = .ok none ∧
    analyzeHandlerEnhanced (singleFileEnv plainTables "main.go" ginTestFile ["main.go"])
      "DeleteUser" "main.go" = .ok none ∧
    analyzeHandlerEnhanced (singleFileEnv plainTables "main.go" ginTestFile ["main.go"])
      "handler.CreateUser" "main.go" = .ok none :=
  ⟨(analyzeHandlerEnhanced_no_handler _ "api.handler.GetUser" "main.go" ginTestFile rfl).1
      (by decide),
    (analyzeHandlerEnhanced_no_handler _ "DeleteUser" "main.go" ginTestFile rfl).2
      (by decide) (by decide!),
    (analyzeHandlerEnhanced_no_handler _ "handler.CreateUser" "main.go" ginTestFile rfl).2
      (by decide) (by decide!)⟩

/-- The guess of `inferReturnType` is one of three. -/
theorem inferReturnType_mem (t : UnicodeTables) (info : HandlerInfo) (filePath : String) :
    inferReturnType t info filePath ∈ ["array", "object", "boolean"] := by
  unfold inferReturnType
  simp only
  split
  · simp
  · split
    · simp
    · split <;> simp

/-- The return type after enhancement: the one found, unless it is "unknown"
or empty, in which case it is guessed from the name. -/
theorem enhanceHandlerInfo_ReturnType (env : Env) (info : HandlerInfo) (filePath : String) :
    (enhanceHandlerInfo env info filePath).ReturnType
      = if info.ReturnType = "unknown" ∨ info.ReturnType = "" then
          inferReturnType env.unicode info filePath
        else info.ReturnType := by
  unfold enhanceHandlerInfo
  simp only
  split
  · rfl
  · rfl

/-- A description the enhanced `AnalyzeFunction` returns is the enhancement of
the description of a function declaration of that name in the file. -/
theorem EnhancedAnalyzeFunction_some (env : Env) (packageName filePath functionName : String)
    (file : Node) (hfile : env.parseFile filePath = .ok file) (info : HandlerInfo)
    (h : EnhancedHandlerAnalyzer.AnalyzeFunction env packageName filePath functionName
      = .ok (some info)) :
    ∃ recv params results body,
      Node.funcDecl recv functionName params results body ∈ subnodes file ∧
      info = enhanceHandlerInfo env
        (analyzeFunctionDeclaration packageName filePath functionName params results)
        filePath := by
  rcases AnalyzeFunction_result env packageName filePath functionName file hfile with
    ⟨-, hres⟩ | ⟨m, hm, hstop, hres⟩
  · simp [EnhancedHandlerAnalyzer.AnalyzeFunction, hres] at h
  · obtain ⟨recv, params, results, body, rfl⟩ := (isFuncDeclNamed_iff _ m).mp hstop
    simp only [EnhancedHandlerAnalyzer.AnalyzeFunction, hres, declInfo, Except.ok.injEq,
      Option.some.injEq] at h
    exact ⟨recv, params, results, body, hm, h.symm⟩

/-- A description the enhanced `AnalyzeMethod` returns is the enhancement of
the description of a declaration of that name on the struct in the file. -/
theorem EnhancedAnalyzeMethod_some (env : Env)
    (packageName filePath structName methodName : String)
    (file : Node) (hfile : env.parseFile filePath = .ok file) (info : HandlerInfo)
    (h : EnhancedHandlerAnalyzer.AnalyzeMethod env packageName filePath structName methodName
      = .ok (some info)) :
    ∃ recv params results body,
      Node.funcDecl recv methodName params results body ∈ subnodes file ∧
      isMethodOfStruct recv structName = true ∧
      info = enhanceHandlerInfo env
        (analyzeFunctionDeclaration packageName filePath methodName params results)
        filePath := by
  rcases AnalyzeMethod_result env packageName filePath structName methodName file hfile with
    ⟨-, hres⟩ | ⟨m, hm, hstop, hres⟩
  · simp [EnhancedHandlerAnalyzer.AnalyzeMethod, hres] at h
  · obtain ⟨recv, params, results, body, rfl, hrecv⟩ := (isMethodDeclOf_iff _ _ m).mp hstop
    simp only [EnhancedHandlerAnalyzer.AnalyzeMethod, hres, declInfo, Except.ok.injEq,
      Option.some.injEq] at h
    exact ⟨recv, params, results, body, hm, hrecv, h.symm⟩

/-- The guess of `inferReturnType` depends on the name of the handler only. -/
theorem inferReturnType_congr (t : UnicodeTables) (info1 info2 : HandlerInfo)
    (path1 path2 : String) (h : info1.Name = info2.Name) :
    inferReturnType t info1 path1 = inferReturnType t info2 path2 := by
  simp only [inferReturnType, h]

/-- The return type of the enhanced description of a declaration with a first
result `r`. -/
theorem enhanced_declaration_ReturnType (env : Env) (packageName filePath name : String)
    (params : Option (List Field)) (r : Field) (rest : List Field) :
    (enhanceHandlerInfo env
        (analyzeFunctionDeclaration packageName filePath name params (some (r :: rest)))
        filePath).ReturnType
      = if getTypeName r.typ = "unknown" ∨ getTypeName r.typ = "" then
          inferReturnType env.unicode
            (enhanceHandlerInfo env
              (analyzeFunctionDeclaration packageName filePath name params (some (r :: rest)))
              filePath) filePath
        else getTypeName r.typ := by
  rw [enhanceHandlerInfo_ReturnType]
  have hn := (enhanceHandlerInfo_names env
    (analyzeFunctionDeclaration packageName filePath name params (some (r :: rest)))
    filePath).1
  rw [inferReturnType_congr env.unicode _ _ filePath filePath hn]
  rfl

/-- C18, as stated, fails: for `func GetSettings(c *gin.Context)
map[string]string` the type text of the first return value is "unknown", and
the enhanced analyzer returns the return type "array". -/
theorem enhanced_ReturnType_guessed_for_map :
    getTypeName (.other [.ident "string", .ident "string"]) = "unknown" ∧
    (EnhancedHandlerAnalyzer.AnalyzeFunction
        (singleFileEnv plainTables "main.go" returnTypesFile ["main.go"]) "main" "main.go"
        "GetSettings").toOption.map (fun r => r.map (fun i => i.ReturnType))
      = some (some "array") := by
  decide!

/-- C18, amended: a description that the enhanced `AnalyzeFunction` or
`AnalyzeMethod` returns is the enhancement of what `analyzeFunctionDeclaration`
makes of a declaration of the file, and when that declaration, the one
resolved, has a first return value, the return type of the description is
the type text `getTypeName` gives that value, unless this text is "unknown"
(the value is neither identifier, pointer, qualified name, array or slice, nor
struct) or empty: then it is the guess made from the name of the handler,
one of "array", "object", "boolean". The type text of a pointer is that of its
target after a star, that of an array or slice that of its element after `[]`,
that of a qualified name the scope, a dot and the name. -/
theorem enhanced_ReturnType :
    (∀ (env : Env) (packageName filePath functionName : String) (file : Node)
        (info : HandlerInfo), env.parseFile filePath = .ok file →
      EnhancedHandlerAnalyzer.AnalyzeFunction env packageName filePath functionName
        = .ok (some info) →
      ∃ recv params results body,
        Node.funcDecl recv functionName params results body ∈ subnodes file ∧
        info = enhanceHandlerInfo env
          (analyzeFunctionDeclaration packageName filePath functionName params results)
          filePath ∧
        ∀ r rest, results = some (r :: rest) →
          info.ReturnType
            = if getTypeName r.typ = "unknown" ∨ getTypeName r.typ = "" then
                inferReturnType env.unicode info filePath
              else getTypeName r.typ) ∧
    (∀ (env : Env) (packageName filePath structName methodName : String) (file : Node)
        (info : HandlerInfo), env.parseFile filePath = .ok file →
      EnhancedHandlerAnalyzer.AnalyzeMethod env packageName filePath structName methodName
        = .ok (some info) →
      ∃ recv params results body,
        Node.funcDecl recv methodName params results body ∈ subnodes file ∧
        isMethodOfStruct recv structName = true ∧
        info = enhanceHandlerInfo env
          (analyzeFunctionDeclaration packageName filePath methodName params results)
          filePath ∧
        ∀ r rest, results = some (r :: rest) →
          info.ReturnType
            = if getTypeName r.typ = "unknown" ∨ getTypeName r.typ = "" then
                inferReturnType env.unicode info filePath
              else getTypeName r.typ) ∧
    (∀ (t : UnicodeTables) (info : HandlerInfo) (filePath : String),
      inferReturnType t info filePath ∈ ["array", "object", "boolean"]) ∧
    (∀ name, getTypeName (.ident name) = name) ∧
    (∀ x, getTypeName (.starExpr x) = "*" ++ getTypeName x) ∧
    (∀ len elt, getTypeName (.arrayType len elt) = "[]" ++ getTypeName elt) ∧
    (∀ x sel, getTypeName (.selectorExpr x sel) = getTypeName x ++ "." ++ sel) := by
  refine ⟨?_, ?_, inferReturnType_mem, fun _ => rfl, fun _ => rfl, fun _ _ => rfl,
    fun _ _ => rfl⟩
  · intro env packageName filePath functionName file info hfile h
    obtain ⟨recv, params, results, body, hmem, rfl⟩ :=
      EnhancedAnalyzeFunction_some env packageName filePath functionName file hfile info h
    refine ⟨recv, params, results, body, hmem, rfl, ?_⟩
    rintro r rest rfl
    exact enhanced_declaration_ReturnType env packageName filePath functionName params r rest
  · intro env packageName filePath structName methodName file info hfile h
    obtain ⟨recv, params, results, body, hmem, hrecv, rfl⟩ :=
      EnhancedAnalyzeMethod_some env packageName filePath structName methodName file hfile
        info h
    refine ⟨recv, params, results, body, hmem, hrecv, rfl, ?_⟩
    rintro r rest rfl
    exact enhanced_declaration_ReturnType env packageName filePath methodName params r rest

/-- C18, amended, at `func GetUser(c *gin.Context) (*User, error)`: the return
type is `*User`. -/
theorem enhanced_ReturnType_witness :
    ∃ info, EnhancedHandlerAnalyzer.AnalyzeFunction
        (singleFileEnv plainTables "main.go" returnTypesFile ["main.go"]) "main" "main.go"
        "GetUser" = .ok (some info) ∧ info.ReturnType = "*User" ∧
      ∃ recv params results body,
        Node.funcDecl recv "GetUser" params results body ∈ subnodes returnTypesFile ∧
        info = enhanceHandlerInfo
          (singleFileEnv plainTables "main.go" returnTypesFile ["main.go"])
          (analyzeFunctionDeclaration "main" "main.go" "GetUser" params results)
          "main.go" ∧
        ∀ r rest, results = some (r :: rest) →
          info.ReturnType
            = if getTypeName r.typ = "unknown" ∨ getTypeName r.typ = "" then
                inferReturnType plainTables info "main.go"
              else getTypeName r.typ := by
  have h : EnhancedHandlerAnalyzer.AnalyzeFunction
      (singleFileEnv plainTables "main.go" returnTypesFile ["main.go"]) "main" "main.go"
      "GetUser" = .ok (some (enhanceHandlerInfo
        (singleFileEnv plainTables "main.go" returnTypesFile ["main.go"])
        (analyzeFunctionDeclaration "main" "main.go" "GetUser"
          (some [.mk ["c"] (.starExpr (.selectorExpr (.ident "gin") "Context")) none])
          (some [.mk [] (.starExpr (.ident "User")) none, .mk [] (.ident "error") none]))
        "main.go")) := by
    rfl
  exact ⟨_, h, by decide!,
    enhanced_ReturnType.1 (singleFileEnv plainTables "main.go" returnTypesFile ["main.go"])
      "main" "main.go" "GetUser" returnTypesFile _ rfl h⟩

/-! ## Handler references -/

/-- Text without the separator is one part. -/
theorem splitChars_of_not_mem (sep : Char) (a : List Char) (h : sep ∉ a) :
    splitChars sep a = [a] := by
  induction a with
  | nil => rfl
  | cons c cs ih =>
      have hc : c ≠ sep := fun hc => h (by simp [hc])
      have hcs : sep ∉ cs := fun hm => h (by simp [hm])
      simp [splitChars, hc, ih hcs]

/-- Text without the separator, before a separator, is the first part. -/
theorem splitChars_append_sep (sep : Char) (a b : List Char) (h : sep ∉ a) :
    splitChars sep (a ++ sep :: b) = a :: splitChars sep b := by
  induction a with
  | nil => simp [splitChars]
  | cons c cs ih =>
      have hc : c ≠ sep := fun hc => h (by simp [hc])
      have hcs : sep ∉ cs := fun hm => h (by simp [hm])
      simp [splitChars, hc, ih hcs]

/-- A reference `v.M` has the two parts `v` and `M`. -/
theorem Split_two_parts (v M : String) (hv : '.' ∉ v.data) (hM : '.' ∉ M.data) :
    Split (v ++ "." ++ M) '.' = [v, M] := by
  have hdot : (".": String).data = ['.'] := rfl
  simp only [Split, String.data_append, hdot, List.append_assoc, List.singleton_append]
  rw [splitChars_append_sep '.' v.data M.data hv, splitChars_of_not_mem '.' M.data hM]
  rfl

/-- The name of a chain of selectors that starts at `e`. -/
theorem extractHandlerName_foldl (xs : List String) (e : Node) :
    extractHandlerName (xs.foldl (fun e name => .selectorExpr e name) e)
      = xs.foldl (fun s name => s ++ "." ++ name) (extractHandlerName e) := by
  induction xs generalizing e with
  | nil => rfl
  | cons y ys ih =>
      simp only [List.foldl_cons, ih]
      rfl

/-- Joining with a separator, as a fold from the left. -/
theorem intercalate_go_eq_foldl (sep acc : String) (xs : List String) :
    String.intercalate.go acc sep xs = xs.foldl (fun s name => s ++ sep ++ name) acc := by
  induction xs generalizing acc with
  | nil => rfl
  | cons y ys ih =>
      simp only [String.intercalate.go, List.foldl_cons, ih]

/-- The characters of names joined by dots. -/
theorem foldl_dot_data (xs : List String) (acc : String) :
    (xs.foldl (fun s name => s ++ "." ++ name) acc).data
      = acc.data ++ (xs.map (fun name => '.' :: name.data)).flatten := by
  induction xs generalizing acc with
  | nil => simp
  | cons y ys ih =>
      have hdot : (".": String).data = ['.'] := rfl
      simp only [List.foldl_cons, ih, String.data_append, hdot, List.map_cons,
        List.flatten_cons, List.append_assoc, List.singleton_append, List.cons_append,
        List.nil_append]

/-- Names without dot, joined by dots, split into themselves. -/
theorem splitChars_joined (x : String) (xs : List String)
    (h : ∀ name ∈ x :: xs, '.' ∉ name.data) :
    splitChars '.' (x.data ++ (xs.map (fun name => '.' :: name.data)).flatten)
      = (x :: xs).map String.data := by
  induction xs generalizing x with
  | nil =>
      simp only [List.map_nil, List.flatten_nil, List.append_nil, List.map_cons]
      exact splitChars_of_not_mem '.' x.data (h x (by simp))
  | cons y ys ih =>
      simp only [List.map_cons, List.flatten_cons, List.cons_append]
      rw [splitChars_append_sep '.' x.data _ (h x (by simp))]
      rw [ih y (fun name hn => h name (by simp [List.mem_cons] at hn ⊢; tauto))]
      rfl

/-! ## Claims on handler references -/

/-- C13, as stated, fails: for the arguments `middleware(h)` and
`wrap(handler.Get)` the name extracted is that of the wrapping function, not
the wrapped reference. -/
theorem extractHandlerName_of_wrapped_handler :
    extractHandlerName (.callExpr 1 (.ident "middleware") [.ident "h"]) = "middleware" ∧
    extractHandlerName (.callExpr 1 (.ident "middleware") [.ident "h"]) ≠ "h" ∧
    extractHandlerName
      (.callExpr 1 (.ident "wrap") [.selectorExpr (.ident "handler") "Get"]) = "wrap" ∧
    extractHandlerName
      (.callExpr 1 (.ident "wrap") [.selectorExpr (.ident "handler") "Get"])
      ≠ "handler.Get" := by
  decide

/-- C13, amended: for a handler argument that is a call, `extractHandlerName`
returns the reference of the called function and does not look at the
arguments of the call: `middleware` for `middleware(h)`, `wrap` for
`wrap(handler.Get)`, `auth.Wrap` for `auth.Wrap(h)`, and the name of the
innermost callee for a call of a call. -/
theorem extractHandlerName_of_call :
    (∀ (line : Nat) (fn : Node) (args : List Node),
      extractHandlerName (.callExpr line fn args) = extractHandlerName fn) ∧
    (∀ (line : Nat) (name : String) (args : List Node),
      extractHandlerName (.callExpr line (.ident name) args) = name) ∧
    (∀ (line : Nat) (x : Node) (sel : String) (args : List Node),
      extractHandlerName (.callExpr line (.selectorExpr x sel) args)
        = extractHandlerName x ++ "." ++ sel) ∧
    extractHandlerName
      (.callExpr 1 (.selectorExpr (.ident "auth") "Wrap") [.ident "h"]) = "auth.Wrap" ∧
    extractHandlerName
      (.callExpr 1 (.callExpr 1 (.ident "limit") [.basicLit .INT "10"]) [.ident "h"])
      = "limit" :=
  ⟨fun _ _ _ => rfl, fun _ _ _ => rfl, fun _ _ _ _ => rfl, by decide, by decide⟩

/-- C14 fails on the code: in a file that declares
`func anonymous(c *gin.Context, id int) {}` and registers an inline function
literal with `r.DELETE("/users/:id", func(c *gin.Context) {})`, the route has
the handler text "anonymous" and `AnalyzeAPI` resolves that text to the
declared function: the route carries its description, with the parameters
`c` and `id`. -/
theorem anonymous_handler_resolved_by_name :
    routeViews (EnhancedCoordinator.AnalyzeAPI
        (singleFileEnv plainTables "main.go" anonymousNameFile ["main.go"]) ".")
      = some [{ Method := "DELETE", Path := "/users/\x7bid\x7d", Handler := "anonymous",
                File := "main.go", Resolved := true }] ∧
    (firstHandler (EnhancedCoordinator.AnalyzeAPI
        (singleFileEnv plainTables "main.go" anonymousNameFile ["main.go"]) ".")).map
        (fun info => (info.Name, info.Params.map ParamInfo.Name))
      = some ("anonymous", ["c", "id"]) := by
  decide!

/-- C15: for a chain of selectors `x.x1.….xn` over identifiers,
`extractHandlerName` returns the names joined by dots in source order; when no
name contains a dot, as for identifiers, splitting the result at the dots gives
back the names, `n + 1` parts: one part for a bare name, two for
`receiverVar.Method`. -/
theorem extractHandlerName_selectorChain (x : String) (xs : List String) :
    extractHandlerName (selectorChain x xs) = ".".intercalate (x :: xs) ∧
    ((∀ name ∈ x :: xs, '.' ∉ name.data) →
      Split (extractHandlerName (selectorChain x xs)) '.' = x :: xs ∧
      (Split (extractHandlerName (selectorChain x xs)) '.').length = xs.length + 1) := by
  have h1 : extractHandlerName (selectorChain x xs)
      = xs.foldl (fun s name => s ++ "." ++ name) x := by
    unfold selectorChain
    rw [extractHandlerName_foldl]
    rfl
  refine ⟨?_, ?_⟩
  · rw [h1]
    simp only [String.intercalate, intercalate_go_eq_foldl]
  · intro hnames
    have h2 : Split (extractHandlerName (selectorChain x xs)) '.' = x :: xs := by
      rw [h1]
      simp only [Split, foldl_dot_data, splitChars_joined x xs hnames, List.map_map]
      exact List.map_id _
    exact ⟨h2, by rw [h2]; rfl⟩

/-- C15 at `handler.GetUser`, at `CreateUser` and at
`api.handlers.users.Get`. -/
theorem extractHandlerName_selectorChain_witness :
    Split (extractHandlerName (.selectorExpr (.ident "handler") "GetUser")) '.'
      = ["handler", "GetUser"] ∧
    Split (extractHandlerName (.ident "CreateUser")) '.' = ["CreateUser"] ∧
    (Split (extractHandlerName (selectorChain "api" ["handlers", "users", "Get"])) '.').length
      = 4 :=
  ⟨((extractHandlerName_selectorChain "handler" ["GetUser"]).2 (by decide)).1,
    ((extractHandlerName_selectorChain "CreateUser" []).2 (by decide)).1,
    ((extractHandlerName_selectorChain "api" ["handlers", "users", "Get"]).2 (by decide)).2⟩

/-- C12, as stated, fails: the file of the complex example binds
`handler := &APIHandler{}` and declares `GetUserByID` on `*APIHandler`, but
the resolver maps `handler` to `UserHandler`, finds no method for
`handler.GetUserByID`, and none of the five routes of the file gets a handler
description. -/
theorem complexApp_handlers_unresolved :
    inferStructName plainTables "handler" = "UserHandler" ∧
    (HandlerAnalyzer.AnalyzeMethod
        (singleFileEnv plainTables "main.go" complexAppFile ["main.go"]) "main" "main.go"
        "APIHandler" "GetUserByID").toOption.map (fun r => r.isSome) = some true ∧
    (analyzeHandlerEnhanced (singleFileEnv plainTables "main.go" complexAppFile ["main.go"])
        "handler.GetUserByID" "main.go").toOption.map (fun r => r.isSome) = some false ∧
    routeViews (EnhancedCoordinator.AnalyzeAPI
        (singleFileEnv plainTables "main.go" complexAppFile ["main.go"]) ".")
      = some [
          { Method := "GET", Path := "/users/\x7bid\x7d", Handler := "handler.GetUserByID",
            File := "main.go", Resolved := false },
          { Method := "POST", Path := "/users", Handler := "handler.CreateUser",
            File := "main.go", Resolved := false },
          { Method := "GET", Path := "/users", Handler := "handler.ListUsers",
            File := "main.go", Resolved := false },
          { Method := "GET", Path := "/products/\x7bid\x7d",
            Handler := "handler.GetProductByID", File := "main.go", Resolved := false },
          { Method := "PUT", Path := "/products/\x7bid\x7d",
            Handler := "handler.UpdateProduct", File := "main.go", Resolved := false }] := by
  decide!

/-- C12, amended: for a handler reference `v.M` of two parts the resolver maps
`v` to a type name by the name of the variable alone, whatever the file binds
it to: `handler`, `h` and `userHandler` to `UserHandler`, `productHandler` to
`ProductHandler`, the empty name to `Handler`, and any other name to its
`strings.Title` form. It then resolves `M` as a method of that type: what it
returns is the description of a declaration named `M` in the file whose
receiver passes the test for that type. So `handler.GetUser` in the file of
the test, where `handler := &UserHandler{}`, is resolved, and a variable
`apiHandler` is mapped to `ApiHandler`. -/
theorem resolver_maps_variable_by_name :
    (∀ t : UnicodeTables,
      inferStructName t "handler" = "UserHandler" ∧ inferStructName t "h" = "UserHandler" ∧
      inferStructName t "userHandler" = "UserHandler" ∧
      inferStructName t "productHandler" = "ProductHandler" ∧
      inferStructName t "" = "Handler") ∧
    (∀ (t : UnicodeTables) (v : String),
      v ∉ ["handler", "h", "userHandler", "productHandler", ""] →
      inferStructName t v = Title t v) ∧
    (∀ (env : Env) (v M filePath : String), '.' ∉ v.data → '.' ∉ M.data →
      analyzeHandlerEnhanced env (v ++ "." ++ M) filePath
        = EnhancedHandlerAnalyzer.AnalyzeMethod env (env.packageOf filePath) filePath
            (inferStructName env.unicode v) M) ∧
    (∀ (env : Env) (v M filePath : String) (file : Node) (info : HandlerInfo),
      '.' ∉ v.data → '.' ∉ M.data → env.parseFile filePath = .ok file →
      analyzeHandlerEnhanced env (v ++ "." ++ M) filePath = .ok (some info) →
      ∃ recv params results body,
        Node.funcDecl recv M params results body ∈ subnodes file ∧
        isMethodOfStruct recv (inferStructName env.unicode v) = true ∧
        info = enhanceHandlerInfo env
          (analyzeFunctionDeclaration (env.packageOf filePath) filePath M params results)
          filePath) ∧
    inferStructName plainTables "apiHandler" = "ApiHandler" ∧
    (analyzeHandlerEnhanced (singleFileEnv plainTables "main.go" ginTestFile ["main.go"])
        "handler.GetUser" "main.go").toOption.map
        (fun r => r.map (fun i => (i.Name, i.Params.map ParamInfo.Name)))
      = some (some ("GetUser", ["c"])) := by
  have hsplit : ∀ (env : Env) (v M filePath : String), '.' ∉ v.data → '.' ∉ M.data →
      analyzeHandlerEnhanced env (v ++ "." ++ M) filePath
        = EnhancedHandlerAnalyzer.AnalyzeMethod env (env.packageOf filePath) filePath
            (inferStructName env.unicode v) M := by
    intro env v M filePath hv hM
    simp only [analyzeHandlerEnhanced, Split_two_parts v M hv hM]
  refine ⟨fun t => ⟨rfl, rfl, rfl, rfl, rfl⟩, ?_, hsplit, ?_, by decide!, by decide!⟩
  · intro t v hv
    simp only [List.mem_cons, List.mem_singleton, List.not_mem_nil, or_false, not_or] at hv
    obtain ⟨h1, h2, h3, h4, h5⟩ := hv
    have hlen : v.data.length > 0 := by
      cases hd : v.data with
      | nil => exact absurd (String.ext hd) h5
      | cons c cs => simp
    unfold inferStructName
    rw [if_neg (by simp [h1, h2, h3]), if_neg h4, if_pos hlen]
  · intro env v M filePath file info hv hM hfile h
    rw [hsplit env v M filePath hv hM] at h
    exact EnhancedAnalyzeMethod_some env _ filePath _ M file hfile info h

/-- C12, amended, at the reference `handler.GetUser` of the test. -/
theorem resolver_maps_variable_by_name_witness :
    analyzeHandlerEnhanced (singleFileEnv plainTables "main.go" ginTestFile ["main.go"])
        ("handler" ++ "." ++ "GetUser") "main.go"
      = EnhancedHandlerAnalyzer.AnalyzeMethod
          (singleFileEnv plainTables "main.go" ginTestFile ["main.go"]) "main" "main.go"
          "UserHandler" "GetUser" ∧
    inferStructName plainTables "apiHandler" = Title plainTables "apiHandler" :=
  ⟨resolver_maps_variable_by_name.2.2.1
      (singleFileEnv plainTables "main.go" ginTestFile ["main.go"]) "handler" "GetUser"
      "main.go" (by decide) (by decide),
    resolver_maps_variable_by_name.2.1 plainTables "apiHandler" (by decide)⟩

/-! ## Claims on struct tags -/

/-- `getJSONName` is the part before the first comma of the json value, or the
name of the field without json annotation. -/
theorem getJSONName_eq (tags : GoMap String) (fieldName : String) :
    getJSONName tags fieldName
      = match tags.find "json" with
        | some value => beforeComma value
        | none => fieldName := by
  unfold getJSONName
  cases hfind : GoMap.find tags "json" with
  | none => rfl
  | some value =>
      simp only [cutBefore, beforeComma]
      by_cases hc : value.data.contains ',' = true
      · have hm : ',' ∈ value.data := by simpa using hc
        simp [hm]
      · have hall : ∀ c ∈ value.data, (c != ',') = true := by
          intro c hcm
          simp only [bne_iff_ne, ne_eq]
          rintro rfl
          exact hc (by simpa using hcm)
        simp only [hc, Bool.false_eq_true, if_false]
        apply String.ext
        simp only
        exact (List.takeWhile_eq_self_iff.mpr hall).symm

/-- What the loop body of `extractStructFieldsInfo` does with one field:
nothing, or it appends one sub-parameter that carries the first name of the
field and its external name. -/
theorem extractField_cases (t : UnicodeTables) (subParams : List ParamInfo) (field : Field) :
    extractField t subParams field = subParams ∨
    ∃ F rest tag p, field.names = F :: rest ∧ field.tag = some tag ∧
      extractField t subParams field = subParams ++ [p] ∧
      p.Name = F ∧ p.JSONName = externalName tag F := by
  unfold extractField
  cases hnames : field.names with
  | nil => exact Or.inl rfl
  | cons F rest =>
      simp only
      split
      · exact Or.inl rfl
      · cases htag : field.tag with
        | none => exact Or.inl (by simp)
        | some tag =>
            simp only
            split
            · refine Or.inr ⟨F, rest, tag, _, rfl, rfl, rfl, rfl, ?_⟩
              simp only [ParamInfo.JSONName, externalName, getJSONName_eq]
              cases GoMap.find (parseStructTags tag) "json" <;> simp
            · exact Or.inl rfl

/-- Every sub-parameter after the loop of `extractStructFieldsInfo` was there
before or comes from a field, whose first name and external name it
carries. -/
theorem foldl_extractField_mem (t : UnicodeTables) (fields : List Field)
    (subParams : List ParamInfo) (p : ParamInfo)
    (hp : p ∈ fields.foldl (extractField t) subParams) :
    p ∈ subParams ∨ ∃ field ∈ fields, ∃ F rest tag, field.names = F :: rest ∧
      field.tag = some tag ∧ p.Name = F ∧ p.JSONName = externalName tag F := by
  induction fields generalizing subParams with
  | nil => exact Or.inl hp
  | cons fd fds ih =>
      simp only [List.foldl_cons] at hp
      rcases ih _ hp with h | ⟨field, hf, F, rest, tag, h1, h2, h3, h4⟩
      · rcases extractField_cases t subParams fd with hsame | ⟨F, rest, tag, q, h1, h2, h3, h4, h5⟩
        · rw [hsame] at h
          exact Or.inl h
        · rw [h3, List.mem_append, List.mem_singleton] at h
          rcases h with h | h
          · exact Or.inl h
          · subst h
            exact Or.inr ⟨fd, by simp, F, rest, tag, h1, h2, h4, h5⟩
      · exact Or.inr ⟨field, by simp [hf], F, rest, tag, h1, h2, h3, h4⟩

/-- C19, as stated, fails: for the field
`Q string` with the annotations `json:",omitempty" form:"q"` the part of the
json value before its first comma is empty, and the sub-parameter gets the
external name `Q`, the name of the field. -/
theorem externalName_of_empty_json_name :
    GoMap.find (parseStructTags "`json:\",omitempty\" form:\"q\"`") "json"
      = some ",omitempty" ∧
    beforeComma ",omitempty" = "" ∧
    (extractField plainTables []
        (.mk ["Q"] (.ident "string") (some "`json:\",omitempty\" form:\"q\"`"))).map
        (fun p => (p.Name, p.Location, p.JSONName))
      = [("Q", "form", "Q")] := by
  decide!

/-- C19, amended: every sub-parameter that `extractStructFieldsInfo` adds
comes from a field with a tag, carries the first name `F` of that field, and
has as external name the part of the value of the json annotation of the field
before its first comma when the field has a json annotation and that part is
not empty, and `F` otherwise. -/
theorem extractStructFieldsInfo_JSONName (t : UnicodeTables) (param : ParamInfo)
    (fields : List Field) (p : ParamInfo)
    (hp : p ∈ (extractStructFieldsInfo t param (some fields)).SubParams) :
    p ∈ param.SubParams ∨ ∃ field ∈ fields, ∃ F rest tag, field.names = F :: rest ∧
      field.tag = some tag ∧ p.Name = F ∧
      p.JSONName
        = match (parseStructTags tag).find "json" with
          | some value => if beforeComma value = "" then F else beforeComma value
          | none => F :=
  foldl_extractField_mem t fields param.SubParams p hp

/-- C19, amended, at the fields `Limit int` with `form:"limit"
json:"max,omitempty"` and `Offset int` with `form:"offset"`: the external names
are `max` and `Offset`. -/
theorem extractStructFieldsInfo_JSONName_witness :
    (extractStructFieldsInfo plainTables (ParamInfo.mk "q" "Q" "" false "" [])
        (some [.mk ["Limit"] (.ident "int") (some "`form:\"limit\" json:\"max,omitempty\"`"),
               .mk ["Offset"] (.ident "int") (some "`form:\"offset\"`")])).SubParams.map
        (fun p => (p.Name, p.JSONName))
      = [("Limit", "max"), ("Offset", "Offset")] ∧
    ∀ p ∈ (extractStructFieldsInfo plainTables (ParamInfo.mk "q" "Q" "" false "" [])
        (some [.mk ["Limit"] (.ident "int") (some "`form:\"limit\" json:\"max,omitempty\"`"),
               .mk ["Offset"] (.ident "int") (some "`form:\"offset\"`")])).SubParams,
      p ∈ ([] : List ParamInfo) ∨
      ∃ field ∈ [Field.mk ["Limit"] (.ident "int")
            (some "`form:\"limit\" json:\"max,omitempty\"`"),
          Field.mk ["Offset"] (.ident "int") (some "`form:\"offset\"`")],
        ∃ F rest tag, field.names = F :: rest ∧ field.tag = some tag ∧ p.Name = F ∧
          p.JSONName
            = match (parseStructTags tag).find "json" with
              | some value => if beforeComma value = "" then F else beforeComma value
              | none => F :=
  ⟨by decide!, fun p hp => extractStructFieldsInfo_JSONName plainTables
    (ParamInfo.mk "q" "Q" "" false "" []) _ p hp⟩

/-- Dropping the leading characters with `p` changes nothing when no character
has `p`. -/
theorem dropWhile_of_all_false (p : Char → Bool) (l : List Char)
    (h : ∀ x ∈ l, p x = false) : l.dropWhile p = l := by
  cases l with
  | nil => rfl
  | cons c cs => simp [List.dropWhile, h c (by simp)]

/-- Dropping the trailing characters with `p` changes nothing when no
character has `p`. -/
theorem trimRightFunc_of_all_false (p : Char → Bool) (l : List Char)
    (h : ∀ x ∈ l, p x = false) : trimRightFunc p l = l := by
  unfold trimRightFunc
  rw [dropWhile_of_all_false p l.reverse (fun x hx => h x (by simpa using hx))]
  exact List.reverse_reverse l

/-- Trimming `p` from a text without `p` that is wrapped in two characters
with `p` gives the text. -/
theorem trim_wrapped_aux (p : Char → Bool) (c : Char) (body : List Char)
    (hc : p c = true) (hb : ∀ x ∈ body, p x = false) :
    trimRightFunc p ((c :: (body ++ [c])).dropWhile p) = body := by
  have hright : trimRightFunc p (body ++ [c]) = body := by
    unfold trimRightFunc
    rw [List.reverse_append, List.reverse_singleton, List.singleton_append,
      List.dropWhile_cons_of_pos hc,
      dropWhile_of_all_false p body.reverse (fun x hx => hb x (by simpa using hx))]
    exact List.reverse_reverse body
  rw [List.dropWhile_cons_of_pos hc]
  cases body with
  | nil =>
      rw [List.nil_append, List.dropWhile_cons_of_pos hc]
      rfl
  | cons b bs =>
      have hpb : ¬ p b = true := by simp [hb b (by simp)]
      rw [List.cons_append, List.dropWhile_cons_of_neg hpb, ← List.cons_append]
      exact hright

/-- `strings.Trim` of a text without `c` wrapped in two `c`. -/
theorem Trim_wrapped (c : Char) (body : List Char) (h : c ∉ body) :
    Trim ⟨c :: (body ++ [c])⟩ ⟨[c]⟩ = ⟨body⟩ := by
  unfold Trim
  apply String.ext
  simp only
  apply trim_wrapped_aux
  · simp
  · intro x hx
    have hne : x ≠ c := fun hxc => h (hxc ▸ hx)
    simp [hne]

/-- The text before the first character without `p`. -/
theorem takeWhile_append_stop (p : Char → Bool) (a b : List Char) (c : Char)
    (ha : ∀ x ∈ a, p x = true) (hc : p c = false) :
    (a ++ c :: b).takeWhile p = a := by
  induction a with
  | nil => simp [List.takeWhile, hc]
  | cons x xs ih =>
      simp [List.takeWhile, ha x (by simp), ih (fun y hy => ha y (by simp [hy]))]

/-- The text from the first character without `p` on. -/
theorem dropWhile_append_stop (p : Char → Bool) (a b : List Char) (c : Char)
    (ha : ∀ x ∈ a, p x = true) (hc : p c = false) :
    (a ++ c :: b).dropWhile p = c :: b := by
  induction a with
  | nil => simp [List.dropWhile, hc]
  | cons x xs ih =>
      simp [List.dropWhile, ha x (by simp), ih (fun y hy => ha y (by simp [hy]))]

/-- An empty part of the annotation leaves the mapping as it is. -/
theorem parseTagPart_empty (tags : GoMap String) : parseTagPart tags "" = tags := by
  have h : TrimSpace "" = "" := rfl
  unfold parseTagPart
  simp [h]

/-- The token `k:"v"` assigns `v` to `k`. -/
theorem parseTagPart_token (tags : GoMap String) (k v : String)
    (hk : ∀ c ∈ k.data, c ≠ ':' ∧ isSpace c = false)
    (hv : ∀ c ∈ v.data, c ≠ '"' ∧ isSpace c = false) :
    parseTagPart tags ⟨tagToken k v⟩ = GoMap.set tags k v := by
  have hspace : ∀ c ∈ tagToken k v, isSpace c = false := by
    intro c hc
    simp only [tagToken, List.mem_append, List.mem_cons, List.mem_singleton,
      List.not_mem_nil, or_false] at hc
    rcases hc with hc | rfl | rfl | hc | rfl
    · exact (hk c hc).2
    · decide
    · decide
    · exact (hv c hc).2
    · decide
  have htrim : TrimSpace ⟨tagToken k v⟩ = ⟨tagToken k v⟩ := by
    unfold TrimSpace
    apply String.ext
    simp only
    rw [dropWhile_of_all_false isSpace _ hspace, trimRightFunc_of_all_false isSpace _ hspace]
  have hne : (⟨tagToken k v⟩ : String) ≠ "" := by
    intro h
    have hd := congrArg String.data h
    simp [tagToken] at hd
  have hcolon : ∀ x ∈ k.data, (x != ':') = true := by
    intro x hx
    simpa using (hk x hx).1
  have hsplit : SplitN2 ⟨tagToken k v⟩ ':' = [k, ⟨'"' :: (v.data ++ ['"'])⟩] := by
    unfold SplitN2
    have hmem : (tagToken k v).contains ':' = true := by simp [tagToken]
    simp only [hmem, if_true]
    simp only [tagToken]
    rw [takeWhile_append_stop _ k.data _ ':' hcolon (by decide),
      dropWhile_append_stop _ k.data _ ':' hcolon (by decide)]
    rfl
  have hquote : Trim ⟨'"' :: (v.data ++ ['"'])⟩ "\"" = v :=
    Trim_wrapped '"' v.data (fun hm => (hv '"' hm).1 rfl)
  unfold parseTagPart
  simp only [htrim, if_neg hne, hsplit, hquote]

/-- Splitting at a run of separators gives that many empty parts. -/
theorem splitChars_replicate_sep (sep : Char) (n : Nat) (b : List Char) :
    splitChars sep (List.replicate n sep ++ b)
      = List.replicate n [] ++ splitChars sep b := by
  induction n with
  | zero => rfl
  | succ n ih => simp [List.replicate_succ, splitChars, ih]

/-- Empty parts leave the mapping as it is. -/
theorem foldl_parseTagPart_empty (n : Nat) (tags : GoMap String) :
    ((List.replicate n ([] : List Char)).map String.mk).foldl parseTagPart tags = tags := by
  induction n with
  | zero => rfl
  | succ n ih =>
      simp only [List.replicate_succ, List.map_cons, List.foldl_cons]
      rw [show (String.mk [] : String) = "" from rfl, parseTagPart_empty]
      exact ih

/-- A token has no space. -/
theorem space_not_mem_tagToken (k v : String)
    (hk : ∀ c ∈ k.data, isSpace c = false) (hv : ∀ c ∈ v.data, isSpace c = false) :
    ' ' ∉ tagToken k v := by
  intro hm
  simp only [tagToken, List.mem_append, List.mem_cons, List.mem_singleton,
    List.not_mem_nil, or_false] at hm
  rcases hm with hm | hm | hm | hm | hm
  · exact absurd (hk ' ' hm) (by decide)
  · exact absurd hm (by decide)
  · exact absurd hm (by decide)
  · exact absurd (hv ' ' hm) (by decide)
  · exact absurd hm (by decide)

/-- The loop of `parseStructTags` over the tokens of the entries assigns the
entries in order. -/
theorem foldl_parseTagPart_tagBody (entries : List (String × String × Nat))
    (hkeys : ∀ e ∈ entries, ∀ c ∈ e.1.data, c ≠ ':' ∧ isSpace c = false)
    (hvalues : ∀ e ∈ entries, ∀ c ∈ e.2.1.data, c ≠ '"' ∧ isSpace c = false)
    (tags : GoMap String) :
    ((splitChars ' ' (tagBody entries)).map String.mk).foldl parseTagPart tags
      = entries.foldl (fun m e => GoMap.set m e.1 e.2.1) tags := by
  induction entries generalizing tags with
  | nil => exact parseTagPart_empty tags
  | cons e es ih =>
      obtain ⟨k, v, n⟩ := e
      have hk := hkeys (k, v, n) (by simp)
      have hv := hvalues (k, v, n) (by simp)
      have hsp : ' ' ∉ tagToken k v :=
        space_not_mem_tagToken k v (fun c hc => (hk c hc).2) (fun c hc => (hv c hc).2)
      cases es with
      | nil =>
          simp only [tagBody, List.foldl_cons, List.foldl_nil]
          rw [splitChars_of_not_mem ' ' _ hsp]
          simp only [List.map_cons, List.map_nil, List.foldl_cons, List.foldl_nil]
          exact parseTagPart_token tags k v hk hv
      | cons e2 rest =>
          simp only [tagBody, List.foldl_cons]
          rw [splitChars_append_sep ' ' _ _ hsp, splitChars_replicate_sep]
          simp only [List.map_cons, List.map_append, List.foldl_cons, List.foldl_append]
          rw [parseTagPart_token tags k v hk hv, foldl_parseTagPart_empty]
          rw [ih (fun e he => hkeys e (by simp [he])) (fun e he => hvalues e (by simp [he]))]
          rfl

/-- Assigning to a key the mapping does not have appends the pair. -/
theorem GoMap.set_fresh (m : GoMap String) (k v : String) (h : k ∉ m.map (·.1)) :
    GoMap.set m k v = m ++ [(k, v)] := by
  induction m with
  | nil => rfl
  | cons p ps ih =>
      obtain ⟨k1, v1⟩ := p
      have hne : k1 ≠ k := fun hk => h (by simp [hk])
      have hps : k ∉ ps.map (·.1) := fun hm => h (by simp at hm ⊢; exact Or.inr hm)
      simp [GoMap.set, hne, ih hps]

/-- Assigning entries with distinct new keys appends them in order. -/
theorem foldl_set_distinct (entries : List (String × String × Nat)) (tags : GoMap String)
    (hnew : ∀ e ∈ entries, e.1 ∉ tags.map (·.1))
    (hdistinct : (entries.map (·.1)).Nodup) :
    entries.foldl (fun m e => GoMap.set m e.1 e.2.1) tags
      = tags ++ entries.map (fun e => (e.1, e.2.1)) := by
  induction entries generalizing tags with
  | nil => simp
  | cons e es ih =>
      simp only [List.map_cons, List.nodup_cons] at hdistinct
      simp only [List.foldl_cons, List.map_cons]
      rw [GoMap.set_fresh tags e.1 e.2.1 (hnew e (by simp))]
      rw [ih _ (fun e2 he2 => ?_) hdistinct.2]
      · simp
      · simp only [List.map_append, List.map_cons, List.map_nil, List.mem_append,
          List.mem_singleton, not_or]
        refine ⟨hnew e2 (by simp [he2]), fun heq => hdistinct.1 ?_⟩
        rw [← heq]
        exact List.mem_map_of_mem _ he2

/-- The tokens of entries without back quote have no back quote. -/
theorem backquote_not_mem_tagBody (entries : List (String × String × Nat))
    (hkeys : ∀ e ∈ entries, backquote ∉ e.1.data)
    (hvalues : ∀ e ∈ entries, backquote ∉ e.2.1.data) :
    backquote ∉ tagBody entries := by
  have htoken : ∀ k v : String, backquote ∉ k.data → backquote ∉ v.data →
      backquote ∉ tagToken k v := by
    intro k v hk hv hm
    simp only [tagToken, List.mem_append, List.mem_cons, List.mem_singleton,
      List.not_mem_nil, or_false] at hm
    rcases hm with hm | hm | hm | hm | hm
    · exact hk hm
    · exact absurd hm (by decide)
    · exact absurd hm (by decide)
    · exact hv hm
    · exact absurd hm (by decide)
  induction entries with
  | nil => simp [tagBody]
  | cons e es ih =>
      obtain ⟨k, v, n⟩ := e
      have ht := htoken k v (hkeys (k, v, n) (by simp)) (hvalues (k, v, n) (by simp))
      cases es with
      | nil => simpa [tagBody] using ht
      | cons e2 rest =>
          have hrest := ih (fun e he => hkeys e (by simp [he]))
            (fun e he => hvalues e (by simp [he]))
          intro hm
          simp only [tagBody, List.mem_append, List.mem_cons] at hm
          rcases hm with hm | hm | hm | hm
          · exact ht hm
          · exact absurd hm (by decide)
          · exact absurd (List.eq_of_mem_replicate hm) (by decide)
          · exact hrest hm

/-- C20, as stated, fails: a key may start with a back quote, which is none of
`:`, `"` and whitespace, and `parseStructTags` takes the back quote off the
first key. -/
theorem parseStructTags_key_with_backquote :
    tagLiteralOf [("`a", "v", 0)] = "``a:\"v\"`" ∧
    parseStructTags (tagLiteralOf [("`a", "v", 0)]) = [("a", "v")] ∧
    parseStructTags (tagLiteralOf [("`a", "v", 0)]) ≠ [("`a", "v")] ∧
    (∀ c ∈ ("`a" : String).data, c ≠ ':' ∧ c ≠ '"' ∧ isSpace c = false) ∧
    (∀ c ∈ ("v" : String).data, c ≠ '"' ∧ c ≠ backquote ∧ isSpace c = false) := by
  decide!

/-- C20, amended: for entries with distinct keys, where the keys contain no
`:`, `"`, back quote or whitespace and the values contain no `"`, back quote or
whitespace, `parseStructTags` applied to the back-quoted annotation made of the
tokens `k:"v"` separated by one or more spaces returns exactly the mapping of
the entries, in their order, each value without its quotes. -/
theorem parseStructTags_tagLiteralOf (entries : List (String × String × Nat))
    (hdistinct : (entries.map (·.1)).Nodup)
    (hkeys : ∀ e ∈ entries, ∀ c ∈ e.1.data,
      c ≠ ':' ∧ c ≠ '"' ∧ c ≠ backquote ∧ isSpace c = false)
    (hvalues : ∀ e ∈ entries, ∀ c ∈ e.2.1.data,
      c ≠ '"' ∧ c ≠ backquote ∧ isSpace c = false) :
    parseStructTags (tagLiteralOf entries) = entries.map (fun e => (e.1, e.2.1)) ∧
    (parseStructTags (tagLiteralOf entries)).length = entries.length := by
  have hbq : backquote ∉ tagBody entries :=
    backquote_not_mem_tagBody entries (fun e he hm => (hkeys e he _ hm).2.2.1 rfl)
      (fun e he hm => (hvalues e he _ hm).2.1 rfl)
  have hmain : parseStructTags (tagLiteralOf entries)
      = entries.map (fun e => (e.1, e.2.1)) := by
    show ((Split (Trim ⟨backquote :: (tagBody entries ++ [backquote])⟩ ⟨[backquote]⟩) ' ').foldl
      parseTagPart []) = _
    rw [Trim_wrapped backquote _ hbq]
    unfold Split
    simp only
    rw [foldl_parseTagPart_tagBody entries
      (fun e he c hc => ⟨(hkeys e he c hc).1, (hkeys e he c hc).2.2.2⟩)
      (fun e he c hc => ⟨(hvalues e he c hc).1, (hvalues e he c hc).2.2⟩)]
    rw [foldl_set_distinct entries [] (fun e _ => by simp) hdistinct]
    rfl
  exact ⟨hmain, by rw [hmain, List.length_map]⟩

/-- C20, amended, at the annotation of `form:"limit"`, two spaces, and
`json:"max,omitempty"`. -/
theorem parseStructTags_tagLiteralOf_witness :
    tagLiteralOf [("form", "limit", 1), ("json", "max,omitempty", 0)]
      = "`form:\"limit\"  json:\"max,omitempty\"`" ∧
    parseStructTags "`form:\"limit\"  json:\"max,omitempty\"`"
      = [("form", "limit"), ("json", "max,omitempty")] ∧
    (parseStructTags (tagLiteralOf [("form", "limit", 1), ("json", "max,omitempty", 0)])
        = [("form", "limit", 1), ("json", "max,omitempty", 0)].map (fun e => (e.1, e.2.1)) ∧
      (parseStructTags
          (tagLiteralOf [("form", "limit", 1), ("json", "max,omitempty", 0)])).length
        = [("form", "limit", 1), ("json", "max,omitempty", 0)].length) :=
  ⟨by decide!, by decide!,
    parseStructTags_tagLiteralOf [("form", "limit", 1), ("json", "max,omitempty", 0)]
      (by decide!) (by decide!) (by decide!)⟩

/-! ## Claims on basic parameters and the type mapping -/

/-- No basic type name contains the text `struct`. -/
theorem not_Contains_struct_of_isBasicType (typeName : String)
    (h : isBasicType typeName = true) : Contains typeName "struct" = false := by
  simp only [isBasicType, basicTypes, List.any_eq_true, decide_eq_true_eq] at h
  obtain ⟨b, hb, rfl⟩ := h
  simp only [List.mem_cons, List.mem_singleton, List.not_mem_nil, or_false] at hb
  rcases hb with rfl | rfl | rfl | rfl | rfl | rfl | rfl | rfl | rfl | rfl | rfl | rfl | rfl
    | rfl | rfl | rfl <;> decide

/-- On a parameter of basic type, `enhanceParameterInfo` is
`inferBasicParameterInfo`. -/
theorem enhanceParameterInfo_basic (env : Env) (param : ParamInfo) (filePath : String)
    (h : isBasicType param.Typ = true) :
    enhanceParameterInfo env param filePath = inferBasicParameterInfo env.unicode param := by
  unfold enhanceParameterInfo
  simp [h, not_Contains_struct_of_isBasicType param.Typ h]

/-- C22, as stated, fails: the name `orderID` ends in `id` when case is
ignored, and the parameter `orderID int` is placed in the query and is not
required. -/
theorem orderID_placed_in_query :
    HasSuffix (ToLower plainTables "orderID") "id" = true ∧
    isBasicType "int" = true ∧
    (analyzeParameter (.mk ["orderID"] (.ident "int") none)).map
        (fun p => (p.Name, p.Typ, p.Location, p.Required))
      = [("orderID", "int", "query", false)] ∧
    (fun p : ParamInfo => (p.Location, p.Required))
        (enhanceParameterInfo (singleFileEnv plainTables "main.go" ginTestFile ["main.go"])
          (ParamInfo.mk "orderID" "int" "query" false "" []) "main.go")
      = ("query", false) := by
  decide!

/-- C22, amended: for every parameter of basic type, after
`enhanceParameterInfo`: when the lower case form of its name is one of `id`,
`userid` and `productid`, its location is "path" and it is required; for every
other name its location is "query" and `Required` is left as it was. Name, type
text, external name and sub-parameters are left as they were. -/
theorem enhanceParameterInfo_basic_location (env : Env) (param : ParamInfo)
    (filePath : String) (hbasic : isBasicType param.Typ = true) :
    (ToLower env.unicode param.Name ∈ pathParameterNames →
      (enhanceParameterInfo env param filePath).Location = "path" ∧
      (enhanceParameterInfo env param filePath).Required = true) ∧
    (ToLower env.unicode param.Name ∉ pathParameterNames →
      (enhanceParameterInfo env param filePath).Location = "query" ∧
      (enhanceParameterInfo env param filePath).Required = param.Required) ∧
    (enhanceParameterInfo env param filePath).Name = param.Name ∧
    (enhanceParameterInfo env param filePath).Typ = param.Typ ∧
    (enhanceParameterInfo env param filePath).JSONName = param.JSONName ∧
    (enhanceParameterInfo env param filePath).SubParams = param.SubParams := by
  rw [enhanceParameterInfo_basic env param filePath hbasic]
  unfold inferBasicParameterInfo
  simp only [pathParameterNames, List.mem_cons, List.mem_singleton, List.not_mem_nil,
    or_false]
  by_cases h : ToLower env.unicode param.Name = "id" ∨
      ToLower env.unicode param.Name = "userid" ∨ ToLower env.unicode param.Name = "productid"
  · rw [if_pos h]
    exact ⟨fun _ => ⟨rfl, rfl⟩, fun hn => absurd h hn, rfl, rfl, rfl, rfl⟩
  · rw [if_neg h]
    refine ⟨fun hp => absurd hp h, fun _ => ?_, ?_, ?_, ?_, ?_⟩ <;> split <;> first
      | exact ⟨rfl, rfl⟩
      | rfl

/-- C22, amended, at the parameters `userID int` and `orderID int`. -/
theorem enhanceParameterInfo_basic_location_witness :
    ((enhanceParameterInfo (singleFileEnv plainTables "main.go" ginTestFile ["main.go"])
        (ParamInfo.mk "userID" "int" "query" false "" []) "main.go").Location = "path" ∧
      (enhanceParameterInfo (singleFileEnv plainTables "main.go" ginTestFile ["main.go"])
        (ParamInfo.mk "userID" "int" "query" false "" []) "main.go").Required = true) ∧
    ((enhanceParameterInfo (singleFileEnv plainTables "main.go" ginTestFile ["main.go"])
        (ParamInfo.mk "orderID" "int" "query" false "" []) "main.go").Location = "query" ∧
      (enhanceParameterInfo (singleFileEnv plainTables "main.go" ginTestFile ["main.go"])
        (ParamInfo.mk "orderID" "int" "query" false "" []) "main.go").Required = false) :=
  ⟨(enhanceParameterInfo_basic_location
      (singleFileEnv plainTables "main.go" ginTestFile ["main.go"])
      (ParamInfo.mk "userID" "int" "query" false "" []) "main.go" (by decide)).1 (by decide!),
    (enhanceParameterInfo_basic_location
      (singleFileEnv plainTables "main.go" ginTestFile ["main.go"])
      (ParamInfo.mk "orderID" "int" "query" false "" []) "main.go" (by decide)).2.1
      (by decide!)⟩

/-- C23: `GetOpenAPIType` on the basic type names and on `time.Time`. -/
theorem GetOpenAPIType_basic :
    GetOpenAPIType "string" = ("string", "") ∧
    GetOpenAPIType "int8" = ("integer", "int32") ∧
    GetOpenAPIType "int16" = ("integer", "int32") ∧
    GetOpenAPIType "int32" = ("integer", "int32") ∧
    GetOpenAPIType "uint8" = ("integer", "int32") ∧
    GetOpenAPIType "uint16" = ("integer", "int32") ∧
    GetOpenAPIType "uint32" = ("integer", "int32") ∧
    GetOpenAPIType "int" = ("integer", "int64") ∧
    GetOpenAPIType "uint" = ("integer", "int64") ∧
    GetOpenAPIType "int64" = ("integer", "int64") ∧
    GetOpenAPIType "uint64" = ("integer", "int64") ∧
    GetOpenAPIType "float32" = ("number", "float") ∧
    GetOpenAPIType "float64" = ("number", "double") ∧
    GetOpenAPIType "bool" = ("boolean", "") ∧
    GetOpenAPIType "byte" = ("string", "byte") ∧
    GetOpenAPIType "time.Time" = ("string", "date-time") := by
  decide

/-- C24, as stated, fails: `rune` is none of the names the claim excepts and
does not start with `[]`, and `GetOpenAPIType` maps it to the type "string",
not "object". -/
theorem GetOpenAPIType_rune :
    "rune" ∉ ["string", "int", "int8", "int16", "int32", "int64", "uint", "uint8", "uint16",
      "uint32", "uint64", "float32", "float64", "bool", "byte", "time.Time"] ∧
    HasPrefix "rune" "[]" = false ∧
    GetOpenAPIType "rune" = ("string", "") ∧
    GetOpenAPIType "rune" ≠ ("object", "") := by
  decide

/-- C24, amended: for every type name other than `string`, the integer names,
`float32`, `float64`, `bool`, `byte`, `rune` and `time.Time`, `GetOpenAPIType`
returns the type "array" without format when the name starts with `[]`, and
the type "object" without format in every other case; `rune` is mapped to the
type "string" without format. -/
theorem GetOpenAPIType_default :
    (∀ goType : String, goType ∉ mappedTypeNames →
      GetOpenAPIType goType
        = if HasPrefix goType "[]" = true then ("array", "") else ("object", "")) ∧
    GetOpenAPIType "rune" = ("string", "") := by
  refine ⟨fun goType h => ?_, by decide⟩
  simp only [mappedTypeNames, List.mem_cons, List.mem_singleton, List.not_mem_nil, or_false,
    not_or] at h
  obtain ⟨h1, h2, h3, h4, h5, h6, h7, h8, h9, h10, h11, h12, h13, h14, h15, h16, h17⟩ := h
  unfold GetOpenAPIType
  simp only [List.mem_cons, List.mem_singleton, List.not_mem_nil, or_false, h1, h2, h3, h4,
    h5, h6, h7, h8, h9, h10, h11, h12, h13, h14, h15, h16, h17, or_self, if_false]
  by_cases hp : HasPrefix goType "[]" = true
  · simp [hp]
  · simp [hp]

/-- C24, amended, at a slice, a map, a pointer and a struct name. -/
theorem GetOpenAPIType_default_witness :
    GetOpenAPIType "[]User" = ("array", "") ∧
    GetOpenAPIType "map[string]int" = ("object", "") ∧
    GetOpenAPIType "*User" = ("object", "") ∧
    GetOpenAPIType "User" = ("object", "") :=
  ⟨(GetOpenAPIType_default.1 "[]User" (by decide)).trans (by decide),
    (GetOpenAPIType_default.1 "map[string]int" (by decide)).trans (by decide),
    (GetOpenAPIType_default.1 "*User" (by decide)).trans (by decide),
    (GetOpenAPIType_default.1 "User" (by decide)).trans (by decide)⟩

/-! ## Claims on summary and tags -/

/-- C28 fails on the code: for the route `GET /users/{id}` with the handler
`handler.GetUser` the summary is "Get Id", not "Get Users": the resource name
is taken from the last segment of the path, the placeholder, with its braces
removed. For `GET /users` with the same handler the summary is "Get Users". -/
theorem generateSummary_of_placeholder_segment :
    generateSummary plainTables
        { Method := "GET", Path := "/users/\x7bid\x7d", Handler := "handler.GetUser",
          HandlerInfo := none, File := "main.go" } = "Get Id" ∧
    extractResourceName plainTables "/users/\x7bid\x7d" = "Id" ∧
    generateSummary plainTables
        { Method := "GET", Path := "/users", Handler := "handler.GetUser",
          HandlerInfo := none, File := "main.go" } = "Get Users" := by
  decide!

/-- Splitting never returns the empty list. -/
theorem splitChars_ne_nil (sep : Char) (s : List Char) : splitChars sep s ≠ [] := by
  cases s with
  | nil => simp [splitChars]
  | cons c cs =>
      simp only [splitChars]
      split
      · simp
      · split <;> simp

/-- C29 fails on the code: for the paths `/` and the empty path, which have
no non-empty segment, `generateTags` returns a list holding the empty text, not
the list holding "api". Splitting never returns an empty list, so for every
route the tag is the first part of the trimmed path and the branch that returns
"api" is never taken. -/
theorem generateTags_of_root_path :
    generateTags { Method := "GET", Path := "/", Handler := "Index", HandlerInfo := none,
                   File := "main.go" } = [""] ∧
    generateTags { Method := "GET", Path := "", Handler := "Index", HandlerInfo := none,
                   File := "main.go" } = [""] ∧
    (∀ route : RouteDescription, ∃ first rest,
      Split (Trim route.Path "/") '/' = first :: rest ∧ generateTags route = [first]) := by
  refine ⟨by decide!, by decide!, fun route => ?_⟩
  unfold generateTags
  cases h : Split (Trim route.Path "/") '/' with
  | nil =>
      exfalso
      unfold Split at h
      exact splitChars_ne_nil '/' _ (List.map_eq_nil_iff.mp h)
  | cons first rest => exact ⟨first, rest, rfl, rfl⟩

/-! ## Claims on the directory scan -/

/-- The loop of `AnalyzeDirectory` only looks at the files that are not test
files. -/
theorem analyzeFiles_analysedFiles (env : Env) (files : List String)
    (routes : List RouteInfo) :
    analyzeFiles env files routes = analyzeFiles env (analysedFiles files) routes := by
  induction files generalizing routes with
  | nil => rfl
  | cons file rest ih =>
      unfold analysedFiles at ih ⊢
      by_cases h : HasSuffix file "_test.go" = true
      · simp only [analyzeFiles, h, if_true, List.filter_cons, Bool.not_true,
          Bool.false_eq_true, if_false]
        exact ih routes
      · have h2 : HasSuffix file "_test.go" = false := by simpa using h
        simp only [analyzeFiles, h2, Bool.false_eq_true, if_false, List.filter_cons,
          Bool.not_false, if_true]
        cases AnalyzeFile env file with
        | error err => rfl
        | ok fileRoutes => exact ih _

/-- The loop of `AnalyzeDirectory` over files that are all analysed without
error appends their routes in order. -/
theorem analyzeFiles_ok (env : Env) (routesOf : String → List RouteInfo)
    (files : List String) (routes : List RouteInfo)
    (htest : ∀ file ∈ files, HasSuffix file "_test.go" = false)
    (hok : ∀ file ∈ files, AnalyzeFile env file = .ok (routesOf file)) :
    analyzeFiles env files routes = .ok (routes ++ (files.map routesOf).flatten) := by
  induction files generalizing routes with
  | nil => simp [analyzeFiles]
  | cons file rest ih =>
      simp only [analyzeFiles, htest file (by simp), Bool.false_eq_true, if_false,
        hok file (by simp)]
      rw [ih _ (fun f hf => htest f (by simp [hf])) (fun f hf => hok f (by simp [hf]))]
      simp

/-- The loop of `AnalyzeDirectory` stops with the error of the first file
whose analysis fails. -/
theorem analyzeFiles_error (env : Env) (pre : List String) (file : String)
    (post : List String) (err : String) (routes : List RouteInfo)
    (htest : ∀ g ∈ pre ++ file :: post, HasSuffix g "_test.go" = false)
    (hpre : ∀ g ∈ pre, ∃ r, AnalyzeFile env g = .ok r)
    (hfile : AnalyzeFile env file = .error err) :
    analyzeFiles env (pre ++ file :: post) routes = .error err := by
  induction pre generalizing routes with
  | nil =>
      simp only [List.nil_append, analyzeFiles, htest file (by simp), Bool.false_eq_true,
        if_false, hfile]
  | cons g gs ih =>
      obtain ⟨r, hr⟩ := hpre g (by simp)
      simp only [List.cons_append, analyzeFiles, htest g (by simp), Bool.false_eq_true,
        if_false, hr]
      exact ih _ (fun f hf => htest f (by simp at hf ⊢; exact Or.inr hf))
        (fun f hf => hpre f (by simp [hf]))

/-- No analysed file is a test file. -/
theorem not_test_of_mem_analysedFiles (files : List String) (file : String)
    (h : file ∈ analysedFiles files) : HasSuffix file "_test.go" = false := by
  unfold analysedFiles at h
  simpa using (List.mem_filter.mp h).2

/-- C30: with the analysis of a file as the function `AnalyzeFile env` from
paths to a route list or an error, and a listing `files` of the directory,
`AnalyzeDirectory` only depends on the files whose name does not end in
`_test.go`. When the analysis of each of them returns a route list, it returns
the concatenation of these lists in listing order; when the analysis of one of
them fails, the files before it being analysed without error, it returns that
error, and so no routes. -/
theorem AnalyzeDirectory_result (env : Env) (dirPath : String) (files : List String)
    (hglob : env.glob dirPath = .ok files) :
    (∀ routesOf : String → List RouteInfo,
      (∀ file ∈ analysedFiles files, AnalyzeFile env file = .ok (routesOf file)) →
      AnalyzeDirectory env dirPath = .ok ((analysedFiles files).map routesOf).flatten) ∧
    (∀ (pre : List String) (file : String) (post : List String) (err : String),
      analysedFiles files = pre ++ file :: post →
      (∀ g ∈ pre, ∃ r, AnalyzeFile env g = .ok r) →
      AnalyzeFile env file = .error err →
      AnalyzeDirectory env dirPath = .error err) := by
  have hdir : AnalyzeDirectory env dirPath = analyzeFiles env (analysedFiles files) [] := by
    unfold AnalyzeDirectory
    rw [hglob]
    exact analyzeFiles_analysedFiles env files []
  refine ⟨fun routesOf hok => ?_, fun pre file post err hsplit hpre hfile => ?_⟩
  · rw [hdir, analyzeFiles_ok env routesOf (analysedFiles files) []
      (fun f hf => not_test_of_mem_analysedFiles files f hf) hok]
    rfl
  · rw [hdir, hsplit]
    exact analyzeFiles_error env pre file post err []
      (fun g hg => not_test_of_mem_analysedFiles files g (hsplit ▸ hg)) hpre hfile

/-- C30 at a directory with the file of the test and a test file: the routes
are those of the file of the test; and at a directory with a second file that
cannot be read: the error of that file. -/
theorem AnalyzeDirectory_result_witness :
    analysedFiles ["main.go", "main_test.go"] = ["main.go"] ∧
    AnalyzeDirectory
        (singleFileEnv plainTables "main.go" ginTestFile ["main.go", "main_test.go"]) "."
      = .ok ((analysedFiles ["main.go", "main_test.go"]).map
          (fun _ => Inspect (routeVisitor
            (singleFileEnv plainTables "main.go" ginTestFile ["main.go", "main_test.go"])
            "main.go") ginTestFile [])).flatten ∧
    AnalyzeDirectory
        (singleFileEnv plainTables "main.go" ginTestFile ["main.go", "x_test.go", "other.go"])
        "."
      = .error "no such file" :=
  ⟨by decide,
    (AnalyzeDirectory_result
      (singleFileEnv plainTables "main.go" ginTestFile ["main.go", "main_test.go"]) "."
      ["main.go", "main_test.go"] rfl).1 _
      (fun file hfile => by
        have hfiles : analysedFiles ["main.go", "main_test.go"] = ["main.go"] := by decide
        rw [hfiles] at hfile
        have h : file = "main.go" := by simpa using hfile
        subst h
        rfl),
    (AnalyzeDirectory_result
      (singleFileEnv plainTables "main.go" ginTestFile ["main.go", "x_test.go", "other.go"])
      "." ["main.go", "x_test.go", "other.go"] rfl).2 ["main.go"] "other.go" [] "no such file"
      (by decide)
      (fun g hg => by
        have h : g = "main.go" := by simpa using hg
        subst h
        exact ⟨_, rfl⟩)
      rfl⟩

/-! ## Claims on the generated paths -/

/-- Assigning a key leaves the other keys as they were. -/
theorem GoMap.find_set_ne {α : Type} (m : GoMap α) (k k2 : String) (v : α) (h : k ≠ k2) :
    GoMap.find (GoMap.set m k v) k2 = GoMap.find m k2 := by
  induction m with
  | nil => simp [GoMap.set, GoMap.find, h]
  | cons p rest ih =>
      obtain ⟨k1, v1⟩ := p
      by_cases hk : k1 = k
      · subst hk
        simp [GoMap.set, GoMap.find, h]
      · by_cases hk2 : k1 = k2
        · subst hk2
          simp [GoMap.set, GoMap.find, hk]
        · simp [GoMap.set, GoMap.find, hk, hk2, ih]

/-- A value that is read from a map is one of its entries. -/
theorem GoMap.mem_of_find {α : Type} (m : GoMap α) (k : String) (v : α)
    (h : GoMap.find m k = some v) : (k, v) ∈ m := by
  induction m with
  | nil => simp [GoMap.find] at h
  | cons p rest ih =>
      obtain ⟨k1, v1⟩ := p
      by_cases hk : k1 = k
      · simp only [GoMap.find, hk, if_true, Option.some.injEq] at h
        simp [hk, h]
      · simp only [GoMap.find, hk, if_false] at h
        exact List.mem_cons_of_mem _ (ih h)

/-- An entry of a map after an assignment was there before or is the pair
assigned. -/
theorem GoMap.mem_set {α : Type} (m : GoMap α) (k : String) (v : α) (entry : String × α)
    (h : entry ∈ GoMap.set m k v) : entry ∈ m ∨ entry = (k, v) := by
  induction m with
  | nil =>
      simp only [GoMap.set, List.mem_singleton] at h
      exact Or.inr h
  | cons p rest ih =>
      obtain ⟨k1, v1⟩ := p
      by_cases hk : k1 = k
      · simp only [GoMap.set, hk, if_true, List.mem_cons] at h
        rcases h with h | h
        · exact Or.inr h
        · exact Or.inl (List.mem_cons_of_mem _ h)
      · simp only [GoMap.set, hk, if_false, List.mem_cons] at h
        rcases h with h | h
        · exact Or.inl (by simp [h])
        · rcases ih h with h2 | h2
          · exact Or.inl (List.mem_cons_of_mem _ h2)
          · exact Or.inr h2

/-- The switch of `generatePaths` takes no operation away from a path item. -/
theorem assignOperation_keeps (pathItem : PathItem) (method verb : String)
    (operation : Operation) (h : (pathItem.operation verb).isSome = true) :
    ((assignOperation pathItem method operation).operation verb).isSome = true := by
  unfold assignOperation
  repeat' split
  all_goals
    unfold PathItem.operation at h ⊢
    split_ifs at h ⊢ <;> first
      | rfl
      | exact h

/-- One step of the loop of `generatePaths` keeps the path items that are
there, with the operations they hold. -/
theorem generatePath_keeps (t : UnicodeTables) (paths : GoMap PathItem)
    (route : RouteDescription) (path verb : String)
    (h : ∃ item, paths.find path = some item ∧
      (verb ∈ ["GET", "POST", "PUT", "DELETE", "PATCH"] →
        (item.operation verb).isSome = true)) :
    ∃ item, (generatePath t paths route).find path = some item ∧
      (verb ∈ ["GET", "POST", "PUT", "DELETE", "PATCH"] →
        (item.operation verb).isSome = true) := by
  obtain ⟨item, hfind, hop⟩ := h
  by_cases hp : route.Path = path
  · subst hp
    refine ⟨assignOperation item route.Method (routeToOperation t route), ?_, fun hv => ?_⟩
    · simp only [generatePath, hfind, GoMap.find_set]
    · exact assignOperation_keeps item route.Method verb _ (hop hv)
  · refine ⟨item, ?_, hop⟩
    simp only [generatePath]
    rw [GoMap.find_set_ne _ _ _ _ hp]
    exact hfind

/-- One step of the loop of `generatePaths` stores a path item under the path
of the route, holding an operation under the verb of the route when the verb
is one of the five a path item has a field for. -/
theorem generatePath_stores (t : UnicodeTables) (paths : GoMap PathItem)
    (route : RouteDescription) :
    ∃ item, (generatePath t paths route).find route.Path = some item ∧
      (route.Method ∈ ["GET", "POST", "PUT", "DELETE", "PATCH"] →
        (item.operation route.Method).isSome = true) := by
  unfold generatePath
  simp only [GoMap.find_set]
  exact ⟨_, rfl, fun hv => by rw [assignOperation_operation _ _ _ hv]; rfl⟩

/-- The loop of `generatePaths` keeps what is stored. -/
theorem foldl_generatePath_keeps (t : UnicodeTables) (routes : List RouteDescription)
    (paths : GoMap PathItem) (path verb : String)
    (h : ∃ item, paths.find path = some item ∧
      (verb ∈ ["GET", "POST", "PUT", "DELETE", "PATCH"] →
        (item.operation verb).isSome = true)) :
    ∃ item, (routes.foldl (generatePath t) paths).find path = some item ∧
      (verb ∈ ["GET", "POST", "PUT", "DELETE", "PATCH"] →
        (item.operation verb).isSome = true) := by
  induction routes generalizing paths with
  | nil => exact h
  | cons r rs ih => exact ih _ (generatePath_keeps t paths r path verb h)

/-- After the loop of `generatePaths`, every route has a path item under its
path, holding an operation under its verb when the verb is one of the
five. -/
theorem foldl_generatePath_stores (t : UnicodeTables) (routes : List RouteDescription)
    (paths : GoMap PathItem) (route : RouteDescription) (hroute : route ∈ routes) :
    ∃ item, (routes.foldl (generatePath t) paths).find route.Path = some item ∧
      (route.Method ∈ ["GET", "POST", "PUT", "DELETE", "PATCH"] →
        (item.operation route.Method).isSome = true) := by
  induction routes generalizing paths with
  | nil => simp at hroute
  | cons r rs ih =>
      rcases List.mem_cons.mp hroute with h | h
      · subst h
        exact foldl_generatePath_keeps t rs _ _ _ (generatePath_stores t paths route)
      · exact ih _ h

/-- Routes with a verb that has no field in a path item add path items
without operation only. -/
theorem foldl_generatePath_empty (t : UnicodeTables) (routes : List RouteDescription)
    (paths : GoMap PathItem)
    (hverbs : ∀ route ∈ routes, route.Method ∉ ["GET", "POST", "PUT", "DELETE", "PATCH"])
    (hpaths : ∀ entry ∈ paths, entry.2 = emptyPathItem) :
    ∀ entry ∈ routes.foldl (generatePath t) paths, entry.2 = emptyPathItem := by
  induction routes generalizing paths with
  | nil => exact hpaths
  | cons r rs ih =>
      refine ih _ (fun route hr => hverbs route (by simp [hr])) (fun entry hentry => ?_)
      simp only [generatePath] at hentry
      rw [assignOperation_other _ _ _ (hverbs r (by simp))] at hentry
      rcases GoMap.mem_set _ _ _ _ hentry with h | h
      · exact hpaths entry h
      · subst h
        simp only
        cases hfind : GoMap.find paths r.Path with
        | none => rfl
        | some item => exact hpaths _ (GoMap.mem_of_find paths r.Path item hfind)

/-- C27, as stated, fails: for a description with the one route
`OPTIONS /users` the document has an entry for `/users`, and that entry holds
no operation at all. -/
theorem OPTIONS_route_has_no_operation :
    (Generate plainTables
        { Routes := [{ Method := "OPTIONS", Path := "/users", Handler := "Preflight",
                       HandlerInfo := none, File := "main.go" }] }
        "Auto-Generated API" "1.0.0").Paths.map
        (fun entry => (entry.1, entry.2.entries.map (fun op => op.1)))
      = [("/users", [])] ∧
    "OPTIONS" ∈ ginMethod := by
  decide!

/-- C27, amended: for every description and every route in it, the document
produced by `Generate` has an entry for the path of the route; when the verb of
the route is GET, POST, PUT, DELETE or PATCH, that entry holds an operation
under the verb. A route with another verb (OPTIONS, HEAD, ANY) stores no
operation: when all routes have such verbs, every entry of the document is the
path item without operations. -/
theorem Generate_paths (t : UnicodeTables) (apiDesc : APIDescription)
    (title version : String) :
    (∀ route ∈ apiDesc.Routes,
      ∃ item, (Generate t apiDesc title version).Paths.find route.Path = some item ∧
        (route.Method ∈ ["GET", "POST", "PUT", "DELETE", "PATCH"] →
          (item.operation route.Method).isSome = true)) ∧
    ((∀ route ∈ apiDesc.Routes, route.Method ∈ ["OPTIONS", "HEAD", "ANY"]) →
      ∀ entry ∈ (Generate t apiDesc title version).Paths,
        entry.2 = emptyPathItem ∧ entry.2.entries = []) := by
  refine ⟨fun route hroute => ?_, fun hverbs entry hentry => ?_⟩
  · exact foldl_generatePath_stores t apiDesc.Routes [] route hroute
  · have h := foldl_generatePath_empty t apiDesc.Routes []
      (fun route hr => by
        have hv := hverbs route hr
        simp only [List.mem_cons, List.mem_singleton, List.not_mem_nil, or_false] at hv
        rcases hv with hv | hv | hv <;> rw [hv] <;> decide)
      (fun entry he => by simp at he) entry hentry
    exact ⟨h, by rw [h]; rfl⟩

/-- C27, amended, at a description with the routes `GET /users`,
`POST /users` and `HEAD /users`, and at one with the routes `HEAD /users` and
`ANY /ping`. -/
theorem Generate_paths_witness :
    (∃ item, (Generate plainTables
        { Routes := [
            { Method := "GET", Path := "/users", Handler := "ListUsers", HandlerInfo := none,
              File := "main.go" },
            { Method := "POST", Path := "/users", Handler := "CreateUser",
              HandlerInfo := none, File := "main.go" },
            { Method := "HEAD", Path := "/users", Handler := "ListUsers",
              HandlerInfo := none, File := "main.go" }] }
        "Auto-Generated API" "1.0.0").Paths.find "/users" = some item ∧
      (item.operation "GET").isSome = true) ∧
    (∀ entry ∈ (Generate plainTables
        { Routes := [
            { Method := "HEAD", Path := "/users", Handler := "ListUsers",
              HandlerInfo := none, File := "main.go" },
            { Method := "ANY", Path := "/ping", Handler := "Ping", HandlerInfo := none,
              File := "main.go" }] }
        "Auto-Generated API" "1.0.0").Paths,
      entry.2 = emptyPathItem ∧ entry.2.entries = []) := by
  refine ⟨?_, ?_⟩
  · obtain ⟨item, h1, h2⟩ := (Generate_paths plainTables
      { Routes := [
          { Method := "GET", Path := "/users", Handler := "ListUsers", HandlerInfo := none,
            File := "main.go" },
          { Method := "POST", Path := "/users", Handler := "CreateUser",
            HandlerInfo := none, File := "main.go" },
          { Method := "HEAD", Path := "/users", Handler := "ListUsers",
            HandlerInfo := none, File := "main.go" }] }
      "Auto-Generated API" "1.0.0").1
      { Method := "GET", Path := "/users", Handler := "ListUsers", HandlerInfo := none,
        File := "main.go" } (by simp)
    exact ⟨item, h1, h2 (by decide)⟩
  · exact (Generate_paths plainTables _ "Auto-Generated API" "1.0.0").2
      (fun route hr => by
        simp only [List.mem_cons, List.mem_singleton, List.not_mem_nil, or_false] at hr
        rcases hr with hr | hr <;> subst hr <;> decide)

/-! ## Visitors that do not descend below some nodes -/

mutual
/-- A visitor that descends below a node exactly when the node does not
satisfy `stop` folds over the visited nodes. -/
theorem Inspect_eq_foldl_visited {σ : Type} (f : Node → σ → Bool × σ) (stop : Node → Bool)
    (hf : ∀ n s, (f n s).1 = !stop n) :
    ∀ (n : Node) (s : σ),
      Inspect f n s = (visited stop n).foldl (fun s n => (f n s).2) s
  | .file nm decls, s => by
      simp only [Inspect, visited, hf]
      cases stop (.file nm decls) <;> simp [InspectList_eq_foldl_visited f stop hf decls]
  | .ident nm, s => by simp [Inspect, visited]
  | .basicLit k v, s => by simp [Inspect, visited]
  | .selectorExpr x sel, s => by
      simp only [Inspect, visited, hf]
      cases stop (.selectorExpr x sel) <;> simp [Inspect_eq_foldl_visited f stop hf x]
  | .callExpr l fn args, s => by
      simp only [Inspect, visited, hf]
      cases stop (.callExpr l fn args) <;>
        simp [Inspect_eq_foldl_visited f stop hf fn,
          InspectList_eq_foldl_visited f stop hf args]
  | .starExpr x, s => by
      simp only [Inspect, visited, hf]
      cases stop (.starExpr x) <;> simp [Inspect_eq_foldl_visited f stop hf x]
  | .arrayType len elt, s => by
      simp only [Inspect, visited, hf]
      cases stop (.arrayType len elt) <;>
        simp [Inspect_eq_foldl_visited f stop hf elt,
          InspectOpt_eq_foldl_visited f stop hf len]
  | .structType fields, s => by
      simp only [Inspect, visited, hf]
      cases stop (.structType fields) <;>
        simp [InspectFieldsOpt_eq_foldl_visited f stop hf fields]
  | .funcLit t b, s => by
      simp only [Inspect, visited, hf]
      cases stop (.funcLit t b) <;>
        simp [Inspect_eq_foldl_visited f stop hf t, Inspect_eq_foldl_visited f stop hf b]
  | .funcDecl recv nm ps rs body, s => by
      simp only [Inspect, visited, hf]
      cases stop (.funcDecl recv nm ps rs body) <;>
        simp [InspectFieldsOpt_eq_foldl_visited f stop hf recv,
          InspectFieldsOpt_eq_foldl_visited f stop hf ps,
          InspectFieldsOpt_eq_foldl_visited f stop hf rs,
          InspectOpt_eq_foldl_visited f stop hf body]
  | .genDecl tok specs, s => by
      simp only [Inspect, visited, hf]
      cases stop (.genDecl tok specs) <;> simp [InspectList_eq_foldl_visited f stop hf specs]
  | .typeSpec nm t, s => by
      simp only [Inspect, visited, hf]
      cases stop (.typeSpec nm t) <;> simp [Inspect_eq_foldl_visited f stop hf t]
  | .other cs, s => by
      simp only [Inspect, visited, hf]
      cases stop (.other cs) <;> simp [InspectList_eq_foldl_visited f stop hf cs]
/-- The list form of `Inspect_eq_foldl_visited`. -/
theorem InspectList_eq_foldl_visited {σ : Type} (f : Node → σ → Bool × σ)
    (stop : Node → Bool) (hf : ∀ n s, (f n s).1 = !stop n) :
    ∀ (l : List Node) (s : σ),
      InspectList f l s = (visitedList stop l).foldl (fun s n => (f n s).2) s
  | [], s => by simp [InspectList, visitedList]
  | n :: ns, s => by
      simp [InspectList, visitedList, Inspect_eq_foldl_visited f stop hf n,
        InspectList_eq_foldl_visited f stop hf ns]
/-- The optional form of `Inspect_eq_foldl_visited`. -/
theorem InspectOpt_eq_foldl_visited {σ : Type} (f : Node → σ → Bool × σ)
    (stop : Node → Bool) (hf : ∀ n s, (f n s).1 = !stop n) :
    ∀ (o : Option Node) (s : σ),
      InspectOpt f o s = (visitedOpt stop o).foldl (fun s n => (f n s).2) s
  | none, s => by simp [InspectOpt, visitedOpt]
  | some n, s => by simp [InspectOpt, visitedOpt, Inspect_eq_foldl_visited f stop hf n]
/-- The field form of `Inspect_eq_foldl_visited`. -/
theorem InspectField_eq_foldl_visited {σ : Type} (f : Node → σ → Bool × σ)
    (stop : Node → Bool) (hf : ∀ n s, (f n s).1 = !stop n) :
    ∀ (fd : Field) (s : σ),
      InspectField f fd s = (visitedField stop fd).foldl (fun s n => (f n s).2) s
  | .mk _ t _, s => by simp [InspectField, visitedField, Inspect_eq_foldl_visited f stop hf t]
/-- The field list form of `Inspect_eq_foldl_visited`. -/
theorem InspectFields_eq_foldl_visited {σ : Type} (f : Node → σ → Bool × σ)
    (stop : Node → Bool) (hf : ∀ n s, (f n s).1 = !stop n) :
    ∀ (l : List Field) (s : σ),
      InspectFields f l s = (visitedFields stop l).foldl (fun s n => (f n s).2) s
  | [], s => by simp [InspectFields, visitedFields]
  | n :: ns, s => by
      simp [InspectFields, visitedFields, InspectField_eq_foldl_visited f stop hf n,
        InspectFields_eq_foldl_visited f stop hf ns]
/-- The optional field list form of `Inspect_eq_foldl_visited`. -/
theorem InspectFieldsOpt_eq_foldl_visited {σ : Type} (f : Node → σ → Bool × σ)
    (stop : Node → Bool) (hf : ∀ n s, (f n s).1 = !stop n) :
    ∀ (o : Option (List Field)) (s : σ),
      InspectFieldsOpt f o s = (visitedFieldsOpt stop o).foldl (fun s n => (f n s).2) s
  | none, s => by simp [InspectFieldsOpt, visitedFieldsOpt]
  | some l, s => by
      simp [InspectFieldsOpt, visitedFieldsOpt, InspectFields_eq_foldl_visited f stop hf l]
end

/-- A node followed by nothing or by some of the nodes below it. -/
theorem cons_ite_sublist (b : Bool) (n : Node) (l m : List Node) (h : l.Sublist m) :
    (n :: (if b = true then [] else l)).Sublist (n :: m) := by
  apply List.cons_sublist_cons.mpr
  cases b
  · simpa using h
  · simp

mutual
/-- The visited nodes are nodes of the tree, in the same order. -/
theorem visited_sublist (stop : Node → Bool) :
    ∀ n : Node, (visited stop n).Sublist (subnodes n)
  | .file nm decls => by
      simp only [visited, subnodes]
      exact cons_ite_sublist _ _ _ _ (visitedList_sublist stop decls)
  | .ident nm => by simp [visited, subnodes]
  | .basicLit k v => by simp [visited, subnodes]
  | .selectorExpr x sel => by
      simp only [visited, subnodes]
      exact cons_ite_sublist _ _ _ _ (visited_sublist stop x)
  | .callExpr l fn args => by
      simp only [visited, subnodes]
      exact cons_ite_sublist _ _ _ _
        ((visited_sublist stop fn).append (visitedList_sublist stop args))
  | .starExpr x => by
      simp only [visited, subnodes]
      exact cons_ite_sublist _ _ _ _ (visited_sublist stop x)
  | .arrayType len elt => by
      simp only [visited, subnodes]
      exact cons_ite_sublist _ _ _ _
        ((visitedOpt_sublist stop len).append (visited_sublist stop elt))
  | .structType fields => by
      simp only [visited, subnodes]
      exact cons_ite_sublist _ _ _ _ (visitedFieldsOpt_sublist stop fields)
  | .funcLit t b => by
      simp only [visited, subnodes]
      exact cons_ite_sublist _ _ _ _ ((visited_sublist stop t).append (visited_sublist stop b))
  | .funcDecl recv nm ps rs body => by
      simp only [visited, subnodes]
      exact cons_ite_sublist _ _ _ _
        ((visitedFieldsOpt_sublist stop recv).append
          ((visitedFieldsOpt_sublist stop ps).append
            ((visitedFieldsOpt_sublist stop rs).append (visitedOpt_sublist stop body))))
  | .genDecl tok specs => by
      simp only [visited, subnodes]
      exact cons_ite_sublist _ _ _ _ (visitedList_sublist stop specs)
  | .typeSpec nm t => by
      simp only [visited, subnodes]
      exact cons_ite_sublist _ _ _ _ (visited_sublist stop t)
  | .other cs => by
      simp only [visited, subnodes]
      exact cons_ite_sublist _ _ _ _ (visitedList_sublist stop cs)
/-- The list form of `visited_sublist`. -/
theorem visitedList_sublist (stop : Node → Bool) :
    ∀ l : List Node, (visitedList stop l).Sublist (subnodesList l)
  | [] => by simp [visitedList, subnodesList]
  | n :: ns => by
      simp only [visitedList, subnodesList]
      exact (visited_sublist stop n).append (visitedList_sublist stop ns)
/-- The optional form of `visited_sublist`. -/
theorem visitedOpt_sublist (stop : Node → Bool) :
    ∀ o : Option Node, (visitedOpt stop o).Sublist (subnodesOpt o)
  | none => by simp [visitedOpt, subnodesOpt]
  | some n => by
      simp only [visitedOpt, subnodesOpt]
      exact visited_sublist stop n
/-- The field form of `visited_sublist`. -/
theorem visitedField_sublist (stop : Node → Bool) :
    ∀ fd : Field, (visitedField stop fd).Sublist (subnodesField fd)
  | .mk _ t _ => by
      simp only [visitedField, subnodesField]
      exact visited_sublist stop t
/-- The field list form of `visited_sublist`. -/
theorem visitedFields_sublist (stop : Node → Bool) :
    ∀ l : List Field, (visitedFields stop l).Sublist (subnodesFields l)
  | [] => by simp [visitedFields, subnodesFields]
  | n :: ns => by
      simp only [visitedFields, subnodesFields]
      exact (visitedField_sublist stop n).append (visitedFields_sublist stop ns)
/-- The optional field list form of `visited_sublist`. -/
theorem visitedFieldsOpt_sublist (stop : Node → Bool) :
    ∀ o : Option (List Field), (visitedFieldsOpt stop o).Sublist (subnodesFieldsOpt o)
  | none => by simp [visitedFieldsOpt, subnodesFieldsOpt]
  | some l => by
      simp only [visitedFieldsOpt, subnodesFieldsOpt]
      exact visitedFields_sublist stop l
end

/-- Every visited node is a node of the tree. -/
theorem visited_mem_subnodes (stop : Node → Bool) (n m : Node) (h : m ∈ visited stop n) :
    m ∈ subnodes n :=
  (visited_sublist stop n).subset h

/-! ## Struct expansion -/

/-- The visitor of `analyzeStructParameter` descends below a node exactly when
the node is no type declaration of the struct. -/
theorem structVisitor_fst (t : UnicodeTables) (structName : String) (n : Node)
    (param : ParamInfo) :
    (structVisitor t structName n param).1 = !isStructDeclOf structName n := by
  cases n <;> simp only [structVisitor, isStructDeclOf, Bool.not_false]
  rename_i tok specs
  by_cases htok : tok = Token.TYPE
  · simp only [htok, if_true, decide_True, Bool.true_and]
    cases findStructSpec structName specs <;> rfl
  · simp [htok]

/-- The loop body of `extractStructFieldsInfo` appends to the sub-parameters
what it makes of the field alone. -/
theorem extractField_eq_append (t : UnicodeTables) (subParams : List ParamInfo)
    (field : Field) :
    extractField t subParams field = subParams ++ extractField t [] field := by
  unfold extractField
  cases field.names with
  | nil => simp
  | cons fieldName rest =>
      simp only
      by_cases hexp : (!IsExported t fieldName) = true
      · simp [hexp]
      · simp only [hexp, Bool.false_eq_true, if_false]
        split <;> simp

/-- The loop of `extractStructFieldsInfo` appends what it makes of each
field. -/
theorem foldl_extractField_eq (t : UnicodeTables) (fields : List Field)
    (subParams : List ParamInfo) :
    fields.foldl (extractField t) subParams
      = subParams ++ (fields.map (extractField t [])).flatten := by
  induction fields generalizing subParams with
  | nil => simp
  | cons fd fds ih =>
      simp only [List.foldl_cons, List.map_cons, List.flatten_cons]
      rw [ih, extractField_eq_append, List.append_assoc]

/-- The location of a field is one of path, form, header and query exactly
when its tag has a non-empty `uri`, `form`, `header` or `query` value. -/
theorem determineFieldLocation_parameter (tags : GoMap String) :
    (determineFieldLocation tags ≠ "" ∧ determineFieldLocation tags ≠ "body") ↔
      ["uri", "form", "header", "query"].any (fun key => tags.at key != "") = true := by
  unfold determineFieldLocation
  simp only [List.any_cons, List.any_nil, Bool.or_false, Bool.or_eq_true, bne_iff_ne, ne_eq]
  split_ifs <;> simp_all

/-- The loop body of `extractStructFieldsInfo` makes a sub-parameter of a
field exactly when the field stands for a parameter of its own. -/
theorem extractField_ne_nil_iff (t : UnicodeTables) (field : Field) :
    extractField t [] field ≠ [] ↔ isParameterField t field = true := by
  unfold extractField isParameterField
  cases field.names with
  | nil => simp
  | cons fieldName rest =>
      cases field.tag with
      | none => simp
      | some tag =>
          simp only
          have hloc := determineFieldLocation_parameter (parseStructTags tag)
          by_cases hexp : IsExported t fieldName = true
          · simp only [hexp, Bool.not_true, Bool.false_eq_true, if_false, Bool.true_and]
            rw [← hloc]
            split <;> simp_all
          · have hexp2 : IsExported t fieldName = false := by simpa using hexp
            simp [hexp2]

/-- The sub-parameters after a visit of the visitor of
`analyzeStructParameter`. -/
theorem structVisitor_SubParams (t : UnicodeTables) (structName : String) (n : Node)
    (param : ParamInfo) :
    (structVisitor t structName n param).2.SubParams
      = param.SubParams ++ ((declaredFields structName n).map (extractField t [])).flatten := by
  cases n <;> simp only [structVisitor, declaredFields, List.map_nil, List.flatten_nil,
    List.append_nil]
  rename_i tok specs
  by_cases htok : tok = Token.TYPE
  · simp only [htok, if_true]
    cases findStructSpec structName specs with
    | none => simp
    | some fields =>
        cases fields with
        | none => simp [extractStructFieldsInfo]
        | some list =>
            simp only [extractStructFieldsInfo, ParamInfo.SubParams]
            exact foldl_extractField_eq t list _
  · simp [htok]

/-- The sub-parameters after the visits of a list of nodes. -/
theorem foldl_structVisitor_SubParams (t : UnicodeTables) (structName : String)
    (nodes : List Node) (param : ParamInfo) :
    (nodes.foldl (fun s n => (structVisitor t structName n s).2) param).SubParams
      = param.SubParams ++
        (nodes.map (fun d =>
          ((declaredFields structName d).map (extractField t [])).flatten)).flatten := by
  induction nodes generalizing param with
  | nil => simp
  | cons n ns ih =>
      simp only [List.foldl_cons, List.map_cons, List.flatten_cons]
      rw [ih, structVisitor_SubParams, List.append_assoc]

/-- The sub-parameters after `analyzeStructParameter` on a file that parses:
those the parameter had, and then, for each type declaration of the struct
that the walk visits, what the loop of `extractStructFieldsInfo` makes of its
fields. -/
theorem analyzeStructParameter_SubParams (env : Env) (param : ParamInfo) (filePath : String)
    (file : Node) (hfile : env.parseFile filePath = .ok file) :
    (analyzeStructParameter env param filePath).SubParams
      = param.SubParams ++
        ((visited (isStructDeclOf (TrimPrefix param.Typ "*")) file).map (fun d =>
          ((declaredFields (TrimPrefix param.Typ "*") d).map
            (extractField env.unicode [])).flatten)).flatten := by
  unfold analyzeStructParameter
  simp only [hfile]
  rw [Inspect_eq_foldl_visited _ (isStructDeclOf (TrimPrefix param.Typ "*"))
    (structVisitor_fst env.unicode (TrimPrefix param.Typ "*"))]
  exact foldl_structVisitor_SubParams env.unicode _ _ param

/-- A concatenation of lists is not empty exactly when one of them is not. -/
theorem flatten_ne_nil_iff {α : Type} (ls : List (List α)) :
    ls.flatten ≠ [] ↔ ∃ l ∈ ls, l ≠ [] := by
  induction ls with
  | nil => simp
  | cons l ls ih =>
      simp only [List.flatten_cons, ne_eq, List.append_eq_nil, not_and_or, List.mem_cons,
        exists_eq_or_imp]
      exact or_congr Iff.rfl ih

/-- A declared field belongs to a type declaration of the struct. -/
theorem isStructDeclOf_of_declaredFields (structName : String) (d : Node) (field : Field)
    (h : field ∈ declaredFields structName d) : isStructDeclOf structName d = true := by
  cases d <;> simp only [declaredFields, List.not_mem_nil] at h
  rename_i tok specs
  by_cases htok : tok = Token.TYPE
  · simp only [htok, if_true] at h
    cases hfind : findStructSpec structName specs with
    | none => simp [hfind] at h
    | some fields => simp [isStructDeclOf, htok, hfind]
  · simp [htok] at h

/-- The external name `extractStructFieldsInfo` gives a field with a tag. -/
theorem jsonName_eq_externalName (tag fieldName : String) :
    (if getJSONName (parseStructTags tag) fieldName = "" then fieldName
      else getJSONName (parseStructTags tag) fieldName) = externalName tag fieldName := by
  simp only [externalName, getJSONName_eq]
  cases GoMap.find (parseStructTags tag) "json" <;> simp

/-- What the loop body of `extractStructFieldsInfo` makes of a field alone is
the entry of the field, when it has one. -/
theorem extractField_eq_fieldEntries (t : UnicodeTables) (field : Field) :
    extractField t [] field = fieldEntries t [field] := by
  unfold fieldEntries
  simp only [List.filter_cons, List.filter_nil]
  by_cases hpar : isParameterField t field = true
  · rw [if_pos hpar]
    simp only [List.filterMap_cons, List.filterMap_nil]
    unfold isParameterField at hpar
    unfold extractField
    cases hn : field.names with
    | nil => simp [hn] at hpar
    | cons fieldName rest =>
        cases ht : field.tag with
        | none => simp [hn, ht] at hpar
        | some tag =>
            simp only [hn, ht, Bool.and_eq_true] at hpar ⊢
            have hloc := (determineFieldLocation_parameter (parseStructTags tag)).mpr hpar.2
            simp only [hpar.1, Bool.not_true, Bool.false_eq_true, if_false, ne_eq]
            rw [if_pos hloc, jsonName_eq_externalName]
            rfl
  · rw [if_neg hpar]
    simp only [List.filterMap_nil]
    by_contra h
    exact hpar ((extractField_ne_nil_iff t field).mp h)

/-- The entries of a list of fields, field by field. -/
theorem fieldEntries_cons (t : UnicodeTables) (field : Field) (fields : List Field) :
    fieldEntries t (field :: fields) = fieldEntries t [field] ++ fieldEntries t fields := by
  unfold fieldEntries
  rw [← List.filterMap_append, ← List.filter_append]
  rfl

/-- What the loop of `extractStructFieldsInfo` makes of the fields, each
alone, is the entries of the fields. -/
theorem flatten_extractField_eq (t : UnicodeTables) (fields : List Field) :
    (fields.map (extractField t [])).flatten = fieldEntries t fields := by
  induction fields with
  | nil => rfl
  | cons fd fds ih =>
      rw [List.map_cons, List.flatten_cons, ih, extractField_eq_fieldEntries,
        ← fieldEntries_cons]

/-- `inferBasicParameterInfo` leaves the sub-parameters as they were. -/
theorem inferBasicParameterInfo_SubParams (t : UnicodeTables) (param : ParamInfo) :
    (inferBasicParameterInfo t param).SubParams = param.SubParams := by
  unfold inferBasicParameterInfo
  simp only
  split
  · rfl
  · split <;> rfl

/-- The sub-parameters of a parameter after `enhanceParameterInfo`, when it
had none before and the file parses. -/
theorem enhanceParameterInfo_SubParams (env : Env) (param : ParamInfo) (filePath : String)
    (file : Node) (hfile : env.parseFile filePath = .ok file)
    (hsub : param.SubParams = []) :
    SubParamsExpanded env.unicode file (enhanceParameterInfo env param filePath) := by
  have htyp := (enhanceParameterInfo_name env param filePath).2
  have hiff : (enhanceParameterInfo env param filePath).SubParams ≠ [] ↔
      isBasicType param.Typ = false ∧
      ∃ d ∈ visited (isStructDeclOf (TrimPrefix param.Typ "*")) file,
        ∃ field ∈ declaredFields (TrimPrefix param.Typ "*") d,
          isParameterField env.unicode field = true := by
    by_cases hbasic : isBasicType param.Typ = true
    · rw [enhanceParameterInfo_basic env param filePath hbasic,
        inferBasicParameterInfo_SubParams, hsub]
      simp [hbasic]
    · have hbasic2 : isBasicType param.Typ = false := by simpa using hbasic
      have hanalyze := analyzeStructParameter_SubParams env param filePath file hfile
      have hnot : isBasicType (analyzeStructParameter env param filePath).Typ = false := by
        rw [(analyzeStructParameter_name env param filePath).2]
        exact hbasic2
      have heq : (enhanceParameterInfo env param filePath).SubParams
          = (analyzeStructParameter env param filePath).SubParams := by
        unfold enhanceParameterInfo
        simp [hbasic2, hnot]
      rw [heq, hanalyze, hsub, List.nil_append, flatten_ne_nil_iff]
      simp only [List.mem_map, hbasic2, true_and]
      constructor
      · rintro ⟨l, ⟨d, hd, rfl⟩, hne⟩
        obtain ⟨l2, hl2, hne2⟩ := (flatten_ne_nil_iff _).mp hne
        obtain ⟨field, hfield, rfl⟩ := List.mem_map.mp hl2
        exact ⟨d, hd, field, hfield, (extractField_ne_nil_iff env.unicode field).mp hne2⟩
      · rintro ⟨d, hd, field, hfield, hpar⟩
        refine ⟨_, ⟨d, hd, rfl⟩, (flatten_ne_nil_iff _).mpr ⟨_, List.mem_map.mpr ⟨field, hfield, rfl⟩, ?_⟩⟩
        exact (extractField_ne_nil_iff env.unicode field).mpr hpar
  unfold SubParamsExpanded
  rw [htyp]
  refine ⟨fun hbasic => ?_, fun hbasic2 => ?_, hiff, fun hne => ?_⟩
  · by_contra hne
    have h := (hiff.mp hne).1
    rw [hbasic] at h
    exact absurd h (by simp)
  · have hnot : isBasicType (analyzeStructParameter env param filePath).Typ = false := by
      rw [(analyzeStructParameter_name env param filePath).2]
      exact hbasic2
    have heq : (enhanceParameterInfo env param filePath).SubParams
        = (analyzeStructParameter env param filePath).SubParams := by
      unfold enhanceParameterInfo
      simp [hbasic2, hnot]
    rw [heq, analyzeStructParameter_SubParams env param filePath file hfile, hsub,
      List.nil_append]
    congr 1
    apply List.map_congr_left
    intro d _
    exact flatten_extractField_eq env.unicode _
  · obtain ⟨-, d, hd, field, hfield, hpar⟩ := hiff.mp hne
    exact ⟨d, visited_mem_subnodes _ file d hd,
      isStructDeclOf_of_declaredFields _ d field hfield, field, hfield, hpar⟩

/-- The parameters `analyzeParameter` makes of a field have no sub-parameters
and no external name, and the location `determineParameterLocation` gives
their type text. -/
theorem analyzeParameter_mem (param : Field) (p : ParamInfo) (hp : p ∈ analyzeParameter param) :
    p.SubParams = [] ∧ p.JSONName = "" ∧ p.Typ = getTypeName param.typ ∧
    p.Location = determineParameterLocation p.Name p.Typ := by
  simp only [analyzeParameter, List.mem_map] at hp
  obtain ⟨name, -, rfl⟩ := hp
  exact ⟨rfl, rfl, rfl, rfl⟩

/-- A parameter of the enhancement of the description of a declaration is the
enhancement of a parameter that `analyzeParameter` makes of a parameter field
of the declaration. -/
theorem enhanced_declaration_param (env : Env) (packageName filePath name : String)
    (params results : Option (List Field)) (p : ParamInfo)
    (hp : p ∈ (enhanceHandlerInfo env
      (analyzeFunctionDeclaration packageName filePath name params results) filePath).Params) :
    ∃ field ∈ fieldsOf params, ∃ p0 ∈ analyzeParameter field,
      p = enhanceParameterInfo env p0 filePath := by
  have hparams : (enhanceHandlerInfo env
      (analyzeFunctionDeclaration packageName filePath name params results) filePath).Params
      = (analyzeFunctionDeclaration packageName filePath name params results).Params.map
          (fun param => enhanceParameterInfo env param filePath) := by
    unfold enhanceHandlerInfo
    simp only
    split <;> rfl
  rw [hparams] at hp
  obtain ⟨p0, hp0, rfl⟩ := List.mem_map.mp hp
  simp only [analyzeFunctionDeclaration, List.mem_flatten, List.mem_map] at hp0
  obtain ⟨l, ⟨field, hfield, rfl⟩, hp0⟩ := hp0
  exact ⟨field, hfield, p0, hp0, rfl⟩

/-! ## Claims on sub-parameters -/

/-- C21, as stated, fails: the parameter `req CreateUserRequest` of the handler
`CreateUser` has a struct type declared in the file, whose three exported
fields are all json-annotated, and the parameter `req` of the handler `GetUser`
of scenario A has an inline struct type with the exported field `ID`; both are
resolved with no sub-parameters. -/
theorem json_struct_has_no_SubParams :
    (declaredFields "CreateUserRequest"
        (.genDecl .TYPE [.typeSpec "CreateUserRequest" (.structType (some [
          .mk ["Name"] (.ident "string")
            (some "`json:\"name\" binding:\"required\" example:\"John Doe\"`"),
          .mk ["Email"] (.ident "string")
            (some "`json:\"email\" binding:\"required,email\" example:\"john@example.com\"`"),
          .mk ["Age"] (.ident "int") (some "`json:\"age\" example:\"30\"`")]))])).map
        (fun field => (field.names, field.tag.map (fun tag =>
          GoMap.find (parseStructTags tag) "json")))
      = [(["Name"], some (some "name")), (["Email"], some (some "email")),
         (["Age"], some (some "age"))] ∧
    (EnhancedHandlerAnalyzer.AnalyzeFunction
        (singleFileEnv plainTables "main.go" requestStructsFile ["main.go"]) "main" "main.go"
        "CreateUser").toOption.map (fun r => r.map (fun i => i.Params.map ParamInfo.view))
      = some (some [
          { Name := "c", Typ := "*gin.Context", Location := "context", SubParams := [] },
          { Name := "req", Typ := "CreateUserRequest", Location := "body",
            SubParams := [] }]) ∧
    (EnhancedHandlerAnalyzer.AnalyzeMethod
        (singleFileEnv plainTables "main.go" scenarioAFile ["main.go"]) "main" "main.go"
        "UserHandler" "GetUser").toOption.map
        (fun r => r.map (fun i => i.Params.map ParamInfo.view))
      = some (some [
          { Name := "ctx", Typ := "*gin.Context", Location := "context", SubParams := [] },
          { Name := "req", Typ := "struct\x7b\x7d", Location := "body", SubParams := [] }]) := by
  decide!

/-- C21, amended: for every parameter of a handler resolved by the enhanced
analyzer on a file that parses, a parameter of basic type has no
sub-parameters, and the sub-parameters of a parameter of another type are the
entries of the fields whose first name is exported and whose tag has a
non-empty `uri`, `form`, `header` or `query` value, of the structs that the
type declarations of the file, visited by the walk of `analyzeStructParameter`,
declare under the type name of the parameter (leading star removed); each
entry carries the first name and the type text of its field and the location,
requirement and external name its tag gives. So a parameter has sub-parameters
exactly when its type is not basic and such a declaration declares a struct
with such a field. -/
theorem enhanced_SubParams (env : Env) (filePath : String) (file : Node)
    (hfile : env.parseFile filePath = .ok file) :
    (∀ (packageName functionName : String) (info : HandlerInfo),
      EnhancedHandlerAnalyzer.AnalyzeFunction env packageName filePath functionName
        = .ok (some info) →
      ∀ p ∈ info.Params, SubParamsExpanded env.unicode file p) ∧
    (∀ (packageName structName methodName : String) (info : HandlerInfo),
      EnhancedHandlerAnalyzer.AnalyzeMethod env packageName filePath structName methodName
        = .ok (some info) →
      ∀ p ∈ info.Params, SubParamsExpanded env.unicode file p) := by
  have key : ∀ (packageName name : String) (params results : Option (List Field)),
      ∀ p ∈ (enhanceHandlerInfo env
        (analyzeFunctionDeclaration packageName filePath name params results) filePath).Params,
      SubParamsExpanded env.unicode file p := by
    intro packageName name params results p hp
    obtain ⟨field, -, p0, hp0, rfl⟩ :=
      enhanced_declaration_param env packageName filePath name params results p hp
    exact enhanceParameterInfo_SubParams env p0 filePath file hfile
      (analyzeParameter_mem field p0 hp0).1
  refine ⟨fun packageName functionName info h p hp => ?_,
    fun packageName structName methodName info h p hp => ?_⟩
  · obtain ⟨recv, params, results, body, -, rfl⟩ :=
      EnhancedAnalyzeFunction_some env packageName filePath functionName file hfile info h
    exact key packageName functionName params results p hp
  · obtain ⟨recv, params, results, body, -, -, rfl⟩ :=
      EnhancedAnalyzeMethod_some env packageName filePath structName methodName file hfile
        info h
    exact key packageName methodName params results p hp

/-- C21, amended, at the handler `UpdateUser`, whose parameter `req` has the
struct type `UpdateUserRequest` with the field `ID` tagged `uri`: the parameter
has the one sub-parameter `ID`, and the parameter `c` has none. -/
theorem enhanced_SubParams_witness :
    ∃ info, EnhancedHandlerAnalyzer.AnalyzeFunction
        (singleFileEnv plainTables "main.go" requestStructsFile ["main.go"]) "main" "main.go"
        "UpdateUser" = .ok (some info) ∧
      info.Params.map ParamInfo.view
        = [{ Name := "c", Typ := "*gin.Context", Location := "context", SubParams := [] },
           { Name := "req", Typ := "UpdateUserRequest", Location := "body",
             SubParams := ["ID"] }] ∧
      ∀ p ∈ info.Params, SubParamsExpanded plainTables requestStructsFile p := by
  have h : EnhancedHandlerAnalyzer.AnalyzeFunction
      (singleFileEnv plainTables "main.go" requestStructsFile ["main.go"]) "main" "main.go"
      "UpdateUser" = .ok (some (enhanceHandlerInfo
        (singleFileEnv plainTables "main.go" requestStructsFile ["main.go"])
        (analyzeFunctionDeclaration "main" "main.go" "UpdateUser"
          (some [.mk ["c"] (.starExpr (.selectorExpr (.ident "gin") "Context")) none,
                 .mk ["req"] (.ident "UpdateUserRequest") none])
          none)
        "main.go")) := by
    rfl
  exact ⟨_, h, by decide!,
    (enhanced_SubParams (singleFileEnv plainTables "main.go" requestStructsFile ["main.go"])
      "main.go" requestStructsFile rfl).1 "main" "UpdateUser" _ h⟩

/-! ## Claims on the generated parameters -/

/-- The parameters generated for a list of parameters of a handler, one list
after the other. -/
theorem generateParameters_append (info : HandlerInfo) (l1 l2 : List ParamInfo) :
    generateParameters { info with Params := l1 ++ l2 }
      = generateParameters { info with Params := l1 }
        ++ generateParameters { info with Params := l2 } := by
  simp [generateParameters]

/-- The location of what the loop body of `generateParameters` appends. -/
theorem parametersOf_In (param : ParamInfo) (q : Parameter) (hq : q ∈ parametersOf param) :
    q.In = "path" ∨ q.In = "query" ∨ q.In = "header" := by
  have hloc : ∀ p : ParamInfo, isParameterLocation p.Location = true →
      (toParameter p).In = "path" ∨ (toParameter p).In = "query" ∨
        (toParameter p).In = "header" := by
    intro p hp
    simpa [isParameterLocation, toParameter, or_assoc] using hp
  unfold parametersOf at hq
  rcases List.mem_append.mp hq with h | h
  · split at h
    · rename_i hp
      rw [List.mem_singleton.mp h]
      exact hloc param hp
    · simp at h
  · obtain ⟨sub, hsub, rfl⟩ := List.mem_map.mp h
    exact hloc sub (List.mem_filter.mp hsub).2

/-- What the loop body of `generateParameters` appends: the parameter and its
sub-parameters, those placed in path, query or header. -/
theorem parametersOf_eq (param : ParamInfo) :
    parametersOf param
      = ((param :: param.SubParams).filter
          (fun q => isParameterLocation q.Location)).map toParameter := by
  unfold parametersOf
  by_cases h : isParameterLocation param.Location = true
  · simp [List.filter_cons, h]
  · simp [List.filter_cons, h]

/-- The walk of `analyzeStructParameter` changes nothing in a file without
type declaration of the struct. -/
theorem analyzeStructParameter_undeclared (env : Env) (param : ParamInfo) (filePath : String)
    (file : Node) (hfile : env.parseFile filePath = .ok file)
    (hnone : ∀ d ∈ subnodes file, isStructDeclOf (TrimPrefix param.Typ "*") d = false) :
    analyzeStructParameter env param filePath = param := by
  unfold analyzeStructParameter
  simp only [hfile]
  apply Inspect_unchanged
  intro m hm s
  have hstop := hnone m hm
  cases m <;> simp only [structVisitor]
  rename_i tok specs
  by_cases htok : tok = Token.TYPE
  · cases hfind : findStructSpec (TrimPrefix param.Typ "*") specs with
    | none => simp [htok]
    | some fields => simp [isStructDeclOf, htok, hfind] at hstop
  · simp [htok]

/-- A parameter of the type of the framework context, enhanced on a file
without type declaration of that name, stays classified "context" and gets no
sub-parameters. -/
theorem enhanceParameterInfo_context (env : Env) (field : Field) (p0 : ParamInfo)
    (filePath : String) (file : Node) (hfile : env.parseFile filePath = .ok file)
    (hp0 : p0 ∈ analyzeParameter field)
    (htyp : p0.Typ = "gin.Context" ∨ p0.Typ = "*gin.Context")
    (hnone : ∀ d ∈ subnodes file, isStructDeclOf "gin.Context" d = false) :
    (enhanceParameterInfo env p0 filePath).Location = "context" ∧
    (enhanceParameterInfo env p0 filePath).SubParams = [] := by
  obtain ⟨hsub, -, -, hloc⟩ := analyzeParameter_mem field p0 hp0
  have htrim : TrimPrefix p0.Typ "*" = "gin.Context" := by
    rcases htyp with h | h <;> rw [h] <;> decide
  have hbasic : isBasicType p0.Typ = false := by
    rcases htyp with h | h <;> rw [h] <;> decide
  have hcontext : p0.Location = "context" := by
    rw [hloc]
    unfold determineParameterLocation
    rcases htyp with h | h <;> simp [h]
  have hsame : analyzeStructParameter env p0 filePath = p0 :=
    analyzeStructParameter_undeclared env p0 filePath file hfile (by rw [htrim]; exact hnone)
  have heq : enhanceParameterInfo env p0 filePath = p0 := by
    unfold enhanceParameterInfo
    simp [hbasic, hsame]
  rw [heq]
  exact ⟨hcontext, hsub⟩

/-- C25: every parameter that `generateParameters` returns is placed in path,
query or header. A parameter of a handler classified "context", which has no
sub-parameters, contributes nothing to the output of `generateParameters`, and
`generateRequestBody` does not see it. The classification "context" is that of
the types `gin.Context` and `*gin.Context`, and a parameter of such a type, in
a handler resolved on a file that declares no type of that name, is classified
"context" and has no sub-parameters. -/
theorem generateParameters_locations :
    (∀ (info : HandlerInfo), ∀ q ∈ generateParameters info,
      q.In = "path" ∨ q.In = "query" ∨ q.In = "header") ∧
    (∀ (info : HandlerInfo) (before after : List ParamInfo) (p : ParamInfo),
      p.Location = "context" → p.SubParams = [] →
      generateParameters { info with Params := before ++ p :: after }
        = generateParameters { info with Params := before ++ after } ∧
      generateRequestBody { info with Params := before ++ p :: after }
        = generateRequestBody { info with Params := before ++ after }) ∧
    (∀ name paramType : String,
      determineParameterLocation name paramType = "context" ↔
        paramType = "*gin.Context" ∨ paramType = "gin.Context") ∧
    (∀ (env : Env) (packageName filePath name : String) (file : Node)
        (params results : Option (List Field)),
      env.parseFile filePath = .ok file →
      (∀ d ∈ subnodes file, isStructDeclOf "gin.Context" d = false) →
      ∀ p ∈ (enhanceHandlerInfo env
          (analyzeFunctionDeclaration packageName filePath name params results)
          filePath).Params,
        p.Typ = "gin.Context" ∨ p.Typ = "*gin.Context" →
        p.Location = "context" ∧ p.SubParams = []) := by
  refine ⟨fun info q hq => ?_, fun info before after p hloc hsub => ⟨?_, ?_⟩,
    fun name paramType => ?_, fun env packageName filePath name file params results hfile
      hnone p hp htyp => ?_⟩
  · simp only [generateParameters, List.mem_flatten, List.mem_map] at hq
    obtain ⟨l, ⟨param, -, rfl⟩, hq⟩ := hq
    exact parametersOf_In param q hq
  · have hnone : parametersOf p = [] := by
      simp [parametersOf, hloc, hsub, isParameterLocation]
    simp [generateParameters, hnone]
  · have hbody : ¬ p.Location = "body" := by
      rw [hloc]
      decide
    simp [generateRequestBody, List.filter_append, List.filter_cons, hbody]
  · unfold determineParameterLocation
    constructor
    · intro h
      by_contra hne
      rw [if_neg hne] at h
      split at h <;> exact absurd h (by decide)
    · intro h
      rw [if_pos h]
  · obtain ⟨field, -, p0, hp0, rfl⟩ :=
      enhanced_declaration_param env packageName filePath name params results p hp
    rw [(enhanceParameterInfo_name env p0 filePath).2] at htyp
    exact enhanceParameterInfo_context env field p0 filePath file hfile hp0 htyp hnone

/-- C25 at the handler `UpdateUser` of the example: the parameter
`c *gin.Context` adds nothing to the parameters and to the request body, and
the one parameter generated is placed in the path. -/
theorem generateParameters_locations_witness :
    (generateParameters
        { Name := "UpdateUser", Package := "main", File := "main.go",
          Params := [] ++ (ParamInfo.mk "c" "*gin.Context" "context" false "" []) ::
            [ParamInfo.mk "req" "UpdateUserRequest" "body" false ""
              [ParamInfo.mk "ID" "int" "path" true "ID" []]],
          ReturnType := "", ErrorReturn := false }
      = generateParameters
        { Name := "UpdateUser", Package := "main", File := "main.go",
          Params := [] ++ [ParamInfo.mk "req" "UpdateUserRequest" "body" false ""
              [ParamInfo.mk "ID" "int" "path" true "ID" []]],
          ReturnType := "", ErrorReturn := false }) ∧
    (generateParameters
        { Name := "UpdateUser", Package := "main", File := "main.go",
          Params := [] ++ (ParamInfo.mk "c" "*gin.Context" "context" false "" []) ::
            [ParamInfo.mk "req" "UpdateUserRequest" "body" false ""
              [ParamInfo.mk "ID" "int" "path" true "ID" []]],
          ReturnType := "", ErrorReturn := false }).map Parameter.view
      = [{ Name := "ID", In := "path", Required := true, SchemaType := some "integer",
           SchemaFormat := some "int64" }] :=
  ⟨((generateParameters_locations.2.1
      { Name := "UpdateUser", Package := "main", File := "main.go", Params := [],
        ReturnType := "", ErrorReturn := false }
      [] [ParamInfo.mk "req" "UpdateUserRequest" "body" false ""
            [ParamInfo.mk "ID" "int" "path" true "ID" []]]
      (ParamInfo.mk "c" "*gin.Context" "context" false "" []) rfl rfl).1),
    by decide!⟩

/-- C26, as stated, fails: the sub-parameters `Limit`, `Offset` and `Search`
of the parameter `query QueryParams` of the handler `ListUsers` have the
location "form", which is not "body", and no parameter is generated for the
handler. -/
theorem form_fields_generate_no_parameter :
    (EnhancedHandlerAnalyzer.AnalyzeFunction
        (singleFileEnv plainTables "main.go" requestStructsFile ["main.go"]) "main" "main.go"
        "ListUsers").toOption.map (fun r => r.map (fun i => i.Params.map ParamInfo.view))
      = some (some [
          { Name := "c", Typ := "*gin.Context", Location := "context", SubParams := [] },
          { Name := "query", Typ := "QueryParams", Location := "body",
            SubParams := ["Limit", "Offset", "Search"] }]) ∧
    (EnhancedHandlerAnalyzer.AnalyzeFunction
        (singleFileEnv plainTables "main.go" requestStructsFile ["main.go"]) "main" "main.go"
        "ListUsers").toOption.map
        (fun r => r.map (fun i => i.Params.map (fun p => p.SubParams.map ParamInfo.Location)))
      = some (some [[], ["form", "form", "form"]]) ∧
    (EnhancedHandlerAnalyzer.AnalyzeFunction
        (singleFileEnv plainTables "main.go" requestStructsFile ["main.go"]) "main" "main.go"
        "ListUsers").toOption.map (fun r => r.map (fun i => (generateParameters i).length))
      = some (some 0) := by
  decide!

/-- C26, amended: the output of `generateParameters` holds, in order, exactly
one parameter for each parameter of the handler and each of its sub-parameters
(a parameter before its sub-parameters) whose location is path, query or
header, and none for any other location: a sub-parameter with the location
"form", as a parameter or sub-parameter with the location "body", yields no
parameter. -/
theorem generateParameters_eq (info : HandlerInfo) :
    generateParameters info
      = (((info.Params.map (fun p => p :: p.SubParams)).flatten.filter
          (fun q => q.Location = "path" ∨ q.Location = "query" ∨ q.Location = "header")).map
          (fun q =>
            ({ Name := getParameterName q
               In := q.Location
               Description := generateParamDescription q
               Required := q.Required
               Schema := some (paramToSchema q) } : Parameter))) ∧
    (generateParameters info).length
      = ((info.Params.map (fun p => p :: p.SubParams)).flatten.filter
          (fun q => q.Location = "path" ∨ q.Location = "query" ∨ q.Location = "header")).length ∧
    (generateParameters info).all (fun q => q.In != "form" && q.In != "body") = true := by
  have hfilter : (fun q : ParamInfo =>
      decide (q.Location = "path" ∨ q.Location = "query" ∨ q.Location = "header"))
      = (fun q : ParamInfo => isParameterLocation q.Location) := by
    funext q
    simp [isParameterLocation, Bool.or_assoc]
  have heq : generateParameters info
      = (((info.Params.map (fun p => p :: p.SubParams)).flatten.filter
          (fun q => q.Location = "path" ∨ q.Location = "query" ∨ q.Location = "header")).map
          toParameter) := by
    rw [hfilter]
    unfold generateParameters
    induction info.Params with
    | nil => rfl
    | cons p ps ih =>
        simp only [List.map_cons, List.flatten_cons, List.filter_append, List.map_append, ih,
          parametersOf_eq]
  refine ⟨heq, ?_, List.all_eq_true.mpr (fun q hq => ?_)⟩
  · rw [heq, List.length_map]
  · simp only [generateParameters, List.mem_flatten, List.mem_map] at hq
    obtain ⟨l, ⟨param, -, rfl⟩, hq⟩ := hq
    rcases parametersOf_In param q hq with h | h | h <;> rw [h] <;> decide

/-! ## Claims on fields with several names -/

/-- The name of what the loop body of `extractStructFieldsInfo` makes of a
field: the first name of a field that stands for a parameter of its own, and
nothing for any other field. -/
theorem extractField_names (t : UnicodeTables) (field : Field) :
    (extractField t [] field).map ParamInfo.Name
      = if isParameterField t field = true then field.names.take 1 else [] := by
  unfold extractField isParameterField
  cases field.names with
  | nil => simp
  | cons fieldName rest =>
      cases field.tag with
      | none => simp
      | some tag =>
          simp only
          have hloc := determineFieldLocation_parameter (parseStructTags tag)
          by_cases hexp : IsExported t fieldName = true
          · simp only [hexp, Bool.not_true, Bool.false_eq_true, if_false, Bool.true_and]
            by_cases hany : ["uri", "form", "header", "query"].any
                (fun key => (parseStructTags tag).at key != "") = true
            · rw [if_pos (hloc.mpr hany), if_pos hany]
              rfl
            · rw [if_neg (fun h => hany (hloc.mp h)), if_neg hany]
              rfl
          · have hexp2 : IsExported t fieldName = false := by simpa using hexp
            simp [hexp2]

/-- The names of the sub-parameters after the loop of
`extractStructFieldsInfo`: those there before, and then the first name of each
field that stands for a parameter of its own. -/
theorem extractStructFieldsInfo_names (t : UnicodeTables) (param : ParamInfo)
    (fields : List Field) :
    (extractStructFieldsInfo t param (some fields)).SubParams.map ParamInfo.Name
      = param.SubParams.map ParamInfo.Name
        ++ ((fields.filter (isParameterField t)).map (fun field => field.names.take 1)).flatten := by
  simp only [extractStructFieldsInfo, ParamInfo.SubParams]
  rw [foldl_extractField_eq, List.map_append]
  congr 1
  induction fields with
  | nil => rfl
  | cons fd fds ih =>
      simp only [List.map_cons, List.flatten_cons, List.map_append, ih, extractField_names,
        List.filter_cons]
      by_cases h : isParameterField t fd = true
      · simp [h]
      · simp [h]

/-- C31 fails on the code: for the struct
`Filter` with the field declarations `A, B int` and `c, D int`, both tagged
`query:"x"`, struct expansion yields the one sub-parameter `A`: the exported
names `B` and `D` yield none. The loop of `extractStructFieldsInfo` looks at
the first name of a field declaration only: the names of the sub-parameters it
adds are the first names of the fields whose first name is exported and whose
tag has a non-empty `uri`, `form`, `header` or `query` value. -/
theorem several_names_yield_one_SubParam :
    (extractStructFieldsInfo plainTables (ParamInfo.mk "f" "Filter" "body" false "" [])
        (some [.mk ["A", "B"] (.ident "int") (some "`query:\"x\"`"),
               .mk ["c", "D"] (.ident "int") (some "`query:\"x\"`")])).view
      = { Name := "f", Typ := "Filter", Location := "body", SubParams := ["A"] } ∧
    (EnhancedHandlerAnalyzer.AnalyzeFunction
        (singleFileEnv plainTables "main.go" severalNamesFile ["main.go"]) "main" "main.go"
        "List").toOption.map (fun r => r.map (fun i => i.Params.map ParamInfo.view))
      = some (some [
          { Name := "c", Typ := "*gin.Context", Location := "context", SubParams := [] },
          { Name := "f", Typ := "Filter", Location := "body", SubParams := ["A"] }]) ∧
    (IsExported plainTables "B" = true ∧ IsExported plainTables "D" = true ∧
      determineFieldLocation (parseStructTags "`query:\"x\"`") = "query") ∧
    (∀ (t : UnicodeTables) (param : ParamInfo) (fields : List Field),
      (extractStructFieldsInfo t param (some fields)).SubParams.map ParamInfo.Name
        = param.SubParams.map ParamInfo.Name
          ++ ((fields.filter (isParameterField t)).map
              (fun field => field.names.take 1)).flatten) :=
  ⟨by decide!, by decide!, by decide!, extractStructFieldsInfo_names⟩

/-! ## Claims on the guessed return type -/

/-- Assignments to other keys leave the value of a key as it was. -/
theorem foldl_set_find_ne {α β : Type} (entries : List β) (key : β → String) (value : β → α)
    (m : GoMap α) (k : String) (h : ∀ e ∈ entries, key e ≠ k) :
    (entries.foldl (fun responses e => GoMap.set responses (key e) (value e)) m).find k
      = m.find k := by
  induction entries generalizing m with
  | nil => rfl
  | cons e es ih =>
      simp only [List.foldl_cons]
      rw [ih _ (fun e2 he2 => h e2 (by simp [he2])), GoMap.find_set_ne _ _ _ _ (h e (by simp))]

/-- The key of the success response is none of the keys of the error
responses. -/
theorem successCode_not_error (method : String) :
    ∀ e ∈ errorResponses, e.1 ≠ successCode method := by
  intro e he
  simp only [errorResponses, List.mem_cons, List.mem_singleton, List.not_mem_nil,
    or_false] at he
  unfold successCode
  rcases he with rfl | rfl | rfl | rfl | rfl <;> split_ifs <;> decide

/-- The success response of a route whose handler has a guessed return
type. -/
theorem generateResponses_guess (route : RouteDescription) (info : HandlerInfo)
    (hinfo : route.HandlerInfo = some info)
    (hguess : info.ReturnType ∈ ["array", "object", "boolean"]) :
    (generateResponses route).find (successCode route.Method)
      = some { Description := "Success"
               Content := [("application/json",
                 { Schema := some (Schema.mk "object" "" [] none []) })] } := by
  have hschema : returnTypeToSchema info.ReturnType = Schema.mk "object" "" [] none [] := by
    simp only [List.mem_cons, List.mem_singleton, List.not_mem_nil, or_false] at hguess
    rcases hguess with h | h | h <;> rw [h] <;> rfl
  have hne : info.ReturnType ≠ "" := by
    simp only [List.mem_cons, List.mem_singleton, List.not_mem_nil, or_false] at hguess
    rcases hguess with h | h | h <;> rw [h] <;> decide
  unfold generateResponses
  simp only [hinfo, hne, ne_eq, not_false_eq_true, if_true, hschema]
  rw [foldl_set_find_ne errorResponses (fun e => e.1) _ _ _
    (successCode_not_error route.Method)]
  exact GoMap.find_set _ _ _

/-- The return type of the enhanced description of a declaration without
return values is the guess. -/
theorem enhanced_declaration_guess (env : Env) (packageName filePath name : String)
    (params results : Option (List Field)) (hresults : fieldsOf results = []) :
    (enhanceHandlerInfo env
        (analyzeFunctionDeclaration packageName filePath name params results)
        filePath).ReturnType
      = inferReturnType env.unicode
          (enhanceHandlerInfo env
            (analyzeFunctionDeclaration packageName filePath name params results)
            filePath) filePath := by
  rw [enhanceHandlerInfo_ReturnType]
  have hn := (enhanceHandlerInfo_names env
    (analyzeFunctionDeclaration packageName filePath name params results) filePath).1
  rw [inferReturnType_congr env.unicode _ _ filePath filePath hn]
  have hempty : (analyzeFunctionDeclaration packageName filePath name params results).ReturnType
      = "" := by
    simp only [analyzeFunctionDeclaration, hresults]
  rw [if_pos (Or.inr hempty)]

/-- C32: a description that the enhanced `AnalyzeFunction` or `AnalyzeMethod`
returns is the enhancement of what `analyzeFunctionDeclaration` makes of a
declaration of the file and carries its name, and when that declaration, the
one resolved, has no return values, the return type of the description is the
guess made from the name of the handler, one of "array", "object" and
"boolean", so neither empty nor "unknown". The guess is "array" for a name
that contains `get` or `list` when case is ignored, else "object" for one that
contains `create` or `update`, else "boolean" for one that contains `delete`,
else "object". For a route whose handler has such a return type, the success
response, stored under 201 for POST, 204 for DELETE and 200 otherwise, carries
under `application/json` a schema of type "object" without format, properties
and items: `GetOpenAPIType` maps each of the three guesses to the type
"object". -/
theorem enhanced_ReturnType_guess :
    (∀ (env : Env) (packageName filePath functionName : String) (file : Node)
        (info : HandlerInfo), env.parseFile filePath = .ok file →
      EnhancedHandlerAnalyzer.AnalyzeFunction env packageName filePath functionName
        = .ok (some info) →
      ∃ recv params results body,
        Node.funcDecl recv functionName params results body ∈ subnodes file ∧
        info = enhanceHandlerInfo env
          (analyzeFunctionDeclaration packageName filePath functionName params results)
          filePath ∧
        info.Name = functionName ∧
        (fieldsOf results = [] →
          info.ReturnType = inferReturnType env.unicode info filePath ∧
          info.ReturnType ∈ ["array", "object", "boolean"] ∧
          info.ReturnType ≠ "" ∧ info.ReturnType ≠ "unknown")) ∧
    (∀ (env : Env) (packageName filePath structName methodName : String) (file : Node)
        (info : HandlerInfo), env.parseFile filePath = .ok file →
      EnhancedHandlerAnalyzer.AnalyzeMethod env packageName filePath structName methodName
        = .ok (some info) →
      ∃ recv params results body,
        Node.funcDecl recv methodName params results body ∈ subnodes file ∧
        isMethodOfStruct recv structName = true ∧
        info = enhanceHandlerInfo env
          (analyzeFunctionDeclaration packageName filePath methodName params results)
          filePath ∧
        info.Name = methodName ∧
        (fieldsOf results = [] →
          info.ReturnType = inferReturnType env.unicode info filePath ∧
          info.ReturnType ∈ ["array", "object", "boolean"] ∧
          info.ReturnType ≠ "" ∧ info.ReturnType ≠ "unknown")) ∧
    (∀ (t : UnicodeTables) (info : HandlerInfo) (filePath : String),
      inferReturnType t info filePath
        = if Contains (ToLower t info.Name) "get" || Contains (ToLower t info.Name) "list"
            then "array"
          else if Contains (ToLower t info.Name) "create"
              || Contains (ToLower t info.Name) "update" then "object"
          else if Contains (ToLower t info.Name) "delete" then "boolean"
          else "object") ∧
    (["GetUser", "ListUsers", "CreateUser", "UpdateUser", "DeleteUser", "Ping",
        "DeleteList"].map
        (fun name => inferReturnType plainTables
          { Name := name, Package := "main", File := "main.go", Params := [],
            ReturnType := "", ErrorReturn := false } "main.go")
      = ["array", "array", "object", "object", "boolean", "object", "array"]) ∧
    (∀ (route : RouteDescription) (info : HandlerInfo), route.HandlerInfo = some info →
      info.ReturnType ∈ ["array", "object", "boolean"] →
      (generateResponses route).find (successCode route.Method)
        = some { Description := "Success"
                 Content := [("application/json",
                   { Schema := some (Schema.mk "object" "" [] none []) })] }) ∧
    (successCode "POST" = "201" ∧ successCode "DELETE" = "204" ∧ successCode "GET" = "200" ∧
      successCode "PUT" = "200") ∧
    GetOpenAPIType "array" = ("object", "") ∧ GetOpenAPIType "object" = ("object", "") ∧
    GetOpenAPIType "boolean" = ("object", "") := by
  have key : ∀ (env : Env) (packageName filePath name : String)
      (params results : Option (List Field)), fieldsOf results = [] →
      (enhanceHandlerInfo env
          (analyzeFunctionDeclaration packageName filePath name params results)
          filePath).ReturnType
        = inferReturnType env.unicode
            (enhanceHandlerInfo env
              (analyzeFunctionDeclaration packageName filePath name params results)
              filePath) filePath ∧
      (enhanceHandlerInfo env
          (analyzeFunctionDeclaration packageName filePath name params results)
          filePath).ReturnType ∈ ["array", "object", "boolean"] ∧
      (enhanceHandlerInfo env
          (analyzeFunctionDeclaration packageName filePath name params results)
          filePath).ReturnType ≠ "" ∧
      (enhanceHandlerInfo env
          (analyzeFunctionDeclaration packageName filePath name params results)
          filePath).ReturnType ≠ "unknown" := by
    intro env packageName filePath name params results hresults
    have h1 := enhanced_declaration_guess env packageName filePath name params results hresults
    have h2 := inferReturnType_mem env.unicode
      (enhanceHandlerInfo env
        (analyzeFunctionDeclaration packageName filePath name params results) filePath)
      filePath
    rw [← h1] at h2
    refine ⟨h1, h2, ?_, ?_⟩
    · simp only [List.mem_cons, List.mem_singleton, List.not_mem_nil, or_false] at h2
      rcases h2 with h | h | h <;> rw [h] <;> decide
    · simp only [List.mem_cons, List.mem_singleton, List.not_mem_nil, or_false] at h2
      rcases h2 with h | h | h <;> rw [h] <;> decide
  refine ⟨?_, ?_, fun _ _ _ => rfl, by decide!, generateResponses_guess, by decide,
    by decide, by decide, by decide⟩
  · intro env packageName filePath functionName file info hfile h
    obtain ⟨recv, params, results, body, hm, rfl⟩ :=
      EnhancedAnalyzeFunction_some env packageName filePath functionName file hfile info h
    exact ⟨recv, params, results, body, hm, rfl,
      (enhanceHandlerInfo_names env _ filePath).1,
      key env packageName filePath functionName params results⟩
  · intro env packageName filePath structName methodName file info hfile h
    obtain ⟨recv, params, results, body, hm, hrecv, rfl⟩ :=
      EnhancedAnalyzeMethod_some env packageName filePath structName methodName file hfile
        info h
    exact ⟨recv, params, results, body, hm, hrecv, rfl,
      (enhanceHandlerInfo_names env _ filePath).1,
      key env packageName filePath methodName params results⟩

/-- C32 at the method `GetUser` of the file of the test, which has no return
values: the guess is "array", and the success response of the route
`GET /users/{id}` has the schema of type "object". -/
theorem enhanced_ReturnType_guess_witness :
    (∃ info, EnhancedHandlerAnalyzer.AnalyzeMethod
        (singleFileEnv plainTables "main.go" ginTestFile ["main.go"]) "main" "main.go"
        "UserHandler" "GetUser" = .ok (some info) ∧ info.ReturnType = "array" ∧
      ∃ recv params results body,
        Node.funcDecl recv "GetUser" params results body ∈ subnodes ginTestFile ∧
        isMethodOfStruct recv "UserHandler" = true ∧
        info = enhanceHandlerInfo
          (singleFileEnv plainTables "main.go" ginTestFile ["main.go"])
          (analyzeFunctionDeclaration "main" "main.go" "GetUser" params results)
          "main.go" ∧
        info.Name = "GetUser" ∧
        (fieldsOf results = [] →
          info.ReturnType = inferReturnType plainTables info "main.go" ∧
          info.ReturnType ∈ ["array", "object", "boolean"] ∧
          info.ReturnType ≠ "" ∧ info.ReturnType ≠ "unknown")) ∧
    (generateResponses
        { Method := "GET", Path := "/users/\x7bid\x7d", Handler := "handler.GetUser",
          HandlerInfo := some { Name := "GetUser", Package := "main", File := "main.go",
                                Params := [], ReturnType := "array", ErrorReturn := false },
          File := "main.go" }).find "200"
      = some { Description := "Success"
               Content := [("application/json",
                 { Schema := some (Schema.mk "object" "" [] none []) })] } := by
  have h : EnhancedHandlerAnalyzer.AnalyzeMethod
      (singleFileEnv plainTables "main.go" ginTestFile ["main.go"]) "main" "main.go"
      "UserHandler" "GetUser" = .ok (some (enhanceHandlerInfo
        (singleFileEnv plainTables "main.go" ginTestFile ["main.go"])
        (analyzeFunctionDeclaration "main" "main.go" "GetUser"
          (some [.mk ["c"] (.starExpr (.selectorExpr (.ident "gin") "Context")) none])
          none)
        "main.go")) := by
    rfl
  exact ⟨⟨_, h, by decide!,
      enhanced_ReturnType_guess.2.1
        (singleFileEnv plainTables "main.go" ginTestFile ["main.go"]) "main" "main.go"
        "UserHandler" "GetUser" ginTestFile _ rfl h⟩,
    enhanced_ReturnType_guess.2.2.2.2.1
      { Method := "GET", Path := "/users/\x7bid\x7d", Handler := "handler.GetUser",
        HandlerInfo := some { Name := "GetUser", Package := "main", File := "main.go",
                              Params := [], ReturnType := "array", ErrorReturn := false },
        File := "main.go" }
      { Name := "GetUser", Package := "main", File := "main.go", Params := [],
        ReturnType := "array", ErrorReturn := false }
      rfl (by decide)⟩

/-! ## Claims on the path conversion and the type table -/

/-- C33: `convertGinPathToOpenAPI` is idempotent: the converted path has no
colon directly followed by a `\w` character, so converting it again returns it
as it is. -/
theorem convertGinPathToOpenAPI_idempotent (p : String) :
    convertGinPathToOpenAPI (convertGinPathToOpenAPI p) = convertGinPathToOpenAPI p ∧
    hasParam (convertGinPathToOpenAPI p).data = false := by
  have h : hasParam (convertGinPathToOpenAPI p).data = false :=
    hasParam_replaceAllParams false p.data
  refine ⟨?_, h⟩
  apply String.ext
  exact replaceAllParams_of_not_hasParam _ h

/-- C34: for every key of the table `TypeMapping`, `GetOpenAPIType` returns
the pair of type and format the table stores under the key. -/
theorem GetOpenAPIType_TypeMapping (k : String) (entry : String × String)
    (h : GoMap.find TypeMapping k = some entry) : GetOpenAPIType k = entry := by
  have hall : ∀ e ∈ TypeMapping, GetOpenAPIType e.1 = e.2 := by
    decide
  exact hall (k, entry) (GoMap.mem_of_find TypeMapping k entry h)

/-- C34 at the keys `int` and `byte`. -/
theorem GetOpenAPIType_TypeMapping_witness :
    GoMap.find TypeMapping "int" = some ("integer", "int64") ∧
    GetOpenAPIType "int" = ("integer", "int64") ∧
    GetOpenAPIType "byte" = ("string", "byte") :=
  ⟨by decide, GetOpenAPIType_TypeMapping "int" ("integer", "int64") (by decide),
    GetOpenAPIType_TypeMapping "byte" ("string", "byte") (by decide)⟩

end AutoSwagger
